import Mathlib

/-!
Animation scheduling core of the super-mario-game engine.

A shallow embedding of `src/include/engine/Animations/Animator.h` and
`src/include/engine/Animations/AnimatorManager.h`.

* `timestamp_t` is `uint64_t`: a natural number below `2 ^ 64`; `+=` wraps.
* `unsigned` counters (`currRep`, `currFrame`) wrap at `2 ^ 32`.
* A callback slot (`std::function`) is modelled by its presence flag; invoking
  it appends a `Notification` carrying the animator as the callback sees it.
* The `while` loops of `Progress` take a fuel argument: one unit per
  evaluation of the loop condition.
-/

namespace Engine

/-! ## Animator.h -/

/-- The `animatorstate_t` enumeration. -/
inductive animatorstate_t where
  | ANIMATOR_FINISHED
  | ANIMATOR_RUNNING
  | ANIMATOR_STOPPED
  deriving DecidableEq, Repr

open animatorstate_t

/-- Ways in which a call does not return normally. -/
inductive Failure where
  /-- the loop budget of the model ran out -/
  | fuel
  /-- an `assert` failed -/
  | assertion
  /-- `anim` was dereferenced while still `nullptr` -/
  | nullDeref
  deriving DecidableEq, Repr

/-- Modelled from the spec: `Animation.h` is not part of the sources. The
descriptor of a linear displacement: `GetDelay()`, `GetReps()`, `IsForever()`,
`GetDx()`, `GetDy()`. -/
structure MovingAnimation where
  delay : Nat
  repeatCount : Nat
  isForever : Bool
  dx : Int
  dy : Int
  deriving DecidableEq, Repr

/-- Modelled from the spec: `Animation.h` is not part of the sources. The
descriptor of a frame-range cycle: `GetDelay()`, `GetReps()`, `IsForever()`,
`GetStartFrame()`, `GetEndFrame()`, `GetDx()`, `GetDy()`. -/
structure FrameRangeAnimation where
  delay : Nat
  repeatCount : Nat
  isForever : Bool
  startFrame : Nat
  endFrame : Nat
  dx : Int
  dy : Int
  deriving DecidableEq, Repr

/-- The members of `class Animator`, followed by the members `derived` that a
subclass adds. The three callback slots are kept as "is set" flags. -/
structure Animator (D : Type) where
  lastTime : Nat
  state : animatorstate_t
  onFinish : Bool
  onStart : Bool
  onAction : Bool
  derived : D
  deriving DecidableEq, Repr

/-- One callback invocation, with the animator (`this`) as the callback
observes it at that moment. -/
inductive Notification (D : Type) where
  | started (self : Animator D)
  | action (self : Animator D)
  | finished (self : Animator D)
  deriving DecidableEq, Repr

/-- Members added by `class MovingAnimator`. -/
structure MovingPart where
  anim : Option MovingAnimation
  currRep : Nat
  deriving DecidableEq, Repr

/-- Members added by `class FrameRangeAnimator`. -/
structure FrameRangePart where
  anim : Option FrameRangeAnimation
  currFrame : Nat
  currRep : Nat
  deriving DecidableEq, Repr

abbrev MovingAnimator := Animator MovingPart
abbrev FrameRangeAnimator := Animator FrameRangePart

/-- A call either fails or returns the animator together with the callbacks
it invoked, in order. -/
abbrev Outcome (D : Type) := Except Failure (Animator D × List (Notification D))

/-- Wrapping `uint64_t` addition. -/
def tadd (a b : Nat) : Nat := (a + b) % 2 ^ 64

/-- Wrapping `uint64_t` subtraction. -/
def tsub (a b : Nat) : Nat := (a % 2 ^ 64 + (2 ^ 64 - b % 2 ^ 64)) % 2 ^ 64

/-- Pre-increment of an `unsigned`. -/
def uinc (c : Nat) : Nat := (c + 1) % 2 ^ 32

/-- Put the callbacks `pre`, already invoked, in front of those of the rest
of the call. -/
def Outcome.after {D : Type} (pre : List (Notification D)) : Outcome D → Outcome D
  | .ok (a, evs) => .ok (a, pre ++ evs)
  | .error e => .error e

namespace Animator

variable {D : Type}

/-- `bool HasFinished(void) { return state != ANIMATOR_RUNNING; }` -/
def HasFinished (a : Animator D) : Bool := a.state != ANIMATOR_RUNNING

/-- `NotifyStopped`: invoke `onFinish` when it is set. -/
def NotifyStopped (a : Animator D) : List (Notification D) :=
  if a.onFinish then [Notification.finished a] else []

/-- Modelled from the spec: `NotifyStarted` is declared in `Animator.h` but its
body is not part of the sources; "invokes `onStart` if present". -/
def NotifyStarted (a : Animator D) : List (Notification D) :=
  if a.onStart then [Notification.started a] else []

/-- `NotifyAction`: invoke `onAction` when it is set. -/
def NotifyAction (a : Animator D) : List (Notification D) :=
  if a.onAction then [Notification.action a] else []

/-- `Animator::Finish(bool isForced)`. -/
def Finish (a : Animator D) (isForced : Bool) : Animator D × List (Notification D) :=
  if !a.HasFinished then
    let a1 := { a with state := if isForced then ANIMATOR_STOPPED else ANIMATOR_FINISHED }
    (a1, a1.NotifyStopped)
  else (a, [])

/-- `Animator::Stop`. -/
def Stop (a : Animator D) : Animator D × List (Notification D) := a.Finish true

/-- `Animator::TimeShift`: `lastTime += offset`. -/
def TimeShift (a : Animator D) (offset : Nat) : Animator D × List (Notification D) :=
  ({ a with lastTime := tadd a.lastTime offset }, [])

end Animator

namespace MovingAnimator

/-- A newly constructed `MovingAnimator` (default member initialisers), with
the callback slots as later filled by `SetOnFinish/SetOnStart/SetOnAction`. -/
def fresh (onFinish onStart onAction : Bool) : MovingAnimator :=
  { lastTime := 0, state := ANIMATOR_FINISHED, onFinish := onFinish, onStart := onStart,
    onAction := onAction, derived := { anim := none, currRep := 0 } }

/-- `MovingAnimator::Start`. -/
def Start (a : MovingAnimator) (an : MovingAnimation) (t : Nat) :
    MovingAnimator × List (Notification MovingPart) :=
  let a1 : MovingAnimator :=
    { a with lastTime := t, state := ANIMATOR_RUNNING, derived := { anim := some an, currRep := 0 } }
  (a1, a1.NotifyStarted)

/-- `MovingAnimator::Progress`. The source writes the loop condition as
`(currTime - lastTime) >= anim->GetDelay`, the accessor without its call
parentheses; it is read as the call `anim->GetDelay()`, as on the next source
line and in `FrameRangeAnimator::Progress`. -/
def Progress (currTime : Nat) : Nat → MovingAnimator → Outcome MovingPart
  | 0, _ => .error .fuel
  | fuel + 1, a =>
    if currTime > a.lastTime then
      match a.derived.anim with
      | none => .error .nullDeref
      | some an =>
        if tsub currTime a.lastTime ≥ an.delay then
          let a1 : MovingAnimator := { a with lastTime := tadd a.lastTime an.delay }
          if !an.isForever then
            let a2 : MovingAnimator :=
              { a1 with derived := { a1.derived with currRep := uinc a1.derived.currRep } }
            if a2.derived.currRep = an.repeatCount then
              let a3 : MovingAnimator := { a2 with state := ANIMATOR_FINISHED }
              .ok (a3, a1.NotifyAction ++ a3.NotifyStopped)
            else (Progress currTime fuel a2).after a1.NotifyAction
          else (Progress currTime fuel a1).after a1.NotifyAction
        else .ok (a, [])
    else .ok (a, [])

end MovingAnimator

namespace FrameRangeAnimator

/-- A newly constructed `FrameRangeAnimator` (default member initialisers),
with the callback slots as later filled by the `SetOn...` members. -/
def fresh (onFinish onStart onAction : Bool) : FrameRangeAnimator :=
  { lastTime := 0, state := ANIMATOR_FINISHED, onFinish := onFinish, onStart := onStart,
    onAction := onAction, derived := { anim := none, currFrame := 0, currRep := 0 } }

/-- `FrameRangeAnimator::Start`. -/
def Start (a : FrameRangeAnimator) (an : FrameRangeAnimation) (t : Nat) :
    FrameRangeAnimator × List (Notification FrameRangePart) :=
  let a1 : FrameRangeAnimator :=
    { a with lastTime := t, state := ANIMATOR_RUNNING,
             derived := { anim := some an, currFrame := an.startFrame, currRep := 0 } }
  (a1, a1.NotifyStarted ++ a1.NotifyAction)

/-- The frame update that opens one iteration of `FrameRangeAnimator::Progress`:
flip to the start frame (under the `assert`) or `++currFrame`. -/
def nextFrame (a : FrameRangeAnimator) (an : FrameRangeAnimation) : Except Failure FrameRangeAnimator :=
  if a.derived.currFrame = an.endFrame then
    if an.isForever || decide (a.derived.currRep < an.repeatCount) then
      .ok { a with derived := { a.derived with currFrame := an.startFrame } }
    else .error .assertion
  else .ok { a with derived := { a.derived with currFrame := uinc a.derived.currFrame } }

/-- `FrameRangeAnimator::Progress`. -/
def Progress (currTime : Nat) : Nat → FrameRangeAnimator → Outcome FrameRangePart
  | 0, _ => .error .fuel
  | fuel + 1, a =>
    if currTime > a.lastTime then
      match a.derived.anim with
      | none => .error .nullDeref
      | some an =>
        if tsub currTime a.lastTime ≥ an.delay then
          match nextFrame a an with
          | .error e => .error e
          | .ok a0 =>
            let a1 : FrameRangeAnimator := { a0 with lastTime := tadd a0.lastTime an.delay }
            if a1.derived.currFrame = an.endFrame then
              if !an.isForever then
                let a2 : FrameRangeAnimator :=
                  { a1 with derived := { a1.derived with currRep := uinc a1.derived.currRep } }
                if a2.derived.currRep = an.repeatCount then
                  let a3 : FrameRangeAnimator := { a2 with state := ANIMATOR_FINISHED }
                  .ok (a3, a1.NotifyAction ++ a3.NotifyStopped)
                else (Progress currTime fuel a2).after a1.NotifyAction
              else (Progress currTime fuel a1).after a1.NotifyAction
            else (Progress currTime fuel a1).after a1.NotifyAction
        else .ok (a, [])
    else .ok (a, [])

end FrameRangeAnimator

/-- A call made on the `Sprite` (whose class is not part of the sources). -/
inductive SpriteCall where
  | Move (dx dy : Int)
  | SetFrame (frame : Nat)
  deriving DecidableEq, Repr

/-- `FrameRange_Action`: the calls it makes on the sprite, in order. -/
def FrameRange_Action (animator : FrameRangeAnimator) (anim : FrameRangeAnimation) :
    List SpriteCall :=
  (if animator.derived.currFrame ≠ anim.startFrame ∨ animator.derived.currRep ≠ 0 then
      [SpriteCall.Move anim.dx anim.dy]
    else []) ++ [SpriteCall.SetFrame animator.derived.currFrame]

/-- The `onAction` closure installed for a frame-range animator (source lines
161-165) run on a notification: it forwards the animator and its bound
descriptor to `FrameRange_Action`. Other notifications reach other slots. -/
def frameRangeOnAction : Notification FrameRangePart → Option (List SpriteCall)
  | .action self =>
    match self.derived.anim with
    | some an => some (FrameRange_Action self an)
    | none => none
  | _ => none

/-! ## AnimatorManager -/

/-- Insertion of an address into the increasing list of a `std::set`. -/
def insertAddr (a : Nat) : List Nat → List Nat
  | [] => [a]
  | b :: s => if a < b then a :: b :: s else if a = b then b :: s else b :: insertAddr a s

theorem mem_insertAddr (x a : Nat) (s : List Nat) : x ∈ insertAddr a s ↔ x = a ∨ x ∈ s := by
  induction s with
  | nil => simp [insertAddr]
  | cons b s ih =>
    unfold insertAddr
    by_cases h1 : a < b
    · simp [h1]
    · by_cases h2 : a = b
      · subst h2
        simp
      · simp only [h1, h2, if_false, List.mem_cons, ih]
        tauto

theorem sorted_insertAddr (a : Nat) (s : List Nat) (hs : s.Sorted (· < ·)) :
    (insertAddr a s).Sorted (· < ·) := by
  induction s with
  | nil => simp [insertAddr]
  | cons b s ih =>
    have hb := List.sorted_cons.mp hs
    unfold insertAddr
    by_cases h1 : a < b
    · simp only [h1, if_true]
      refine List.sorted_cons.mpr ⟨?_, hs⟩
      intro y hy
      rcases List.mem_cons.mp hy with rfl | hy
      · exact h1
      · exact lt_trans h1 (hb.1 y hy)
    · by_cases h2 : a = b
      · simpa [h1, h2] using hs
      · simp only [h1, h2, if_false]
        refine List.sorted_cons.mpr ⟨?_, ih hb.2⟩
        intro y hy
        rcases (mem_insertAddr y a s).mp hy with rfl | hy
        · omega
        · exact hb.1 y hy

theorem sorted_eraseAddr (a : Nat) (s : List Nat) (hs : s.Sorted (· < ·)) :
    (s.erase a).Sorted (· < ·) :=
  List.Pairwise.sublist (List.erase_sublist a s) hs

/-- A `std::set<Animator*>`: the addresses it holds, in increasing order (the
order in which a range-`for` visits them). -/
structure AnimatorSet where
  elems : List Nat
  ordered : elems.Sorted (· < ·)

namespace AnimatorSet

/-- The empty set of a default-constructed manager. -/
def empty : AnimatorSet := ⟨[], List.sorted_nil⟩

/-- The member `insert`. -/
def insert (s : AnimatorSet) (a : Nat) : AnimatorSet :=
  ⟨insertAddr a s.elems, sorted_insertAddr a s.elems s.ordered⟩

/-- The member `erase` (by key). -/
def erase (s : AnimatorSet) (a : Nat) : AnimatorSet :=
  ⟨s.elems.erase a, sorted_eraseAddr a s.elems s.ordered⟩

end AnimatorSet

/-- The data members `running` and `suspended` of `class AnimatorManager`. -/
structure AnimatorManager where
  running : AnimatorSet
  suspended : AnimatorSet

namespace AnimatorManager

/-- The manager as default-constructed: both sets empty. -/
def empty : AnimatorManager := ⟨AnimatorSet.empty, AnimatorSet.empty⟩

/-- `Register(a)`; `hasFinished` is what `a->HasFinished()` returns at the call. -/
def Register (m : AnimatorManager) (a : Nat) (hasFinished : Bool) : Except Failure AnimatorManager :=
  if hasFinished then .ok { m with suspended := m.suspended.insert a } else .error .assertion

/-- `Cancel(a)`. -/
def Cancel (m : AnimatorManager) (a : Nat) (hasFinished : Bool) : Except Failure AnimatorManager :=
  if hasFinished then .ok { m with suspended := m.suspended.erase a } else .error .assertion

/-- `MarkAsRunning(a)`. -/
def MarkAsRunning (m : AnimatorManager) (a : Nat) (hasFinished : Bool) :
    Except Failure AnimatorManager :=
  if !hasFinished then
    .ok { suspended := m.suspended.erase a, running := m.running.insert a }
  else .error .assertion

/-- `MarkAsSuspended(a)`. -/
def MarkAsSuspended (m : AnimatorManager) (a : Nat) (hasFinished : Bool) :
    Except Failure AnimatorManager :=
  if hasFinished then
    .ok { running := m.running.erase a, suspended := m.suspended.insert a }
  else .error .assertion

/-- The range-`for` of `AnimatorManager::Progress` over the copied set. `S` is
the program state; `progressAnimator a` is the virtual call `a->Progress(currTime)`
with whatever its callbacks do. Returns the addresses on which the call was
made, in order, and how the loop ended. -/
def progressAll {S : Type} (progressAnimator : Nat → S → Except Failure S) :
    List Nat → S → List Nat × Except Failure S
  | [], s => ([], .ok s)
  | a :: rest, s =>
    match progressAnimator a s with
    | .error e => ([a], .error e)
    | .ok s1 =>
      let r := progressAll progressAnimator rest s1
      (a :: r.1, r.2)

/-- `AnimatorManager::Progress(currTime)`: `auto copied(running)`, then the
loop over `copied`. `managerOf` reads the singleton out of the program state. -/
def Progress {S : Type} (managerOf : S → AnimatorManager)
    (progressAnimator : Nat → Nat → S → Except Failure S) (currTime : Nat) (s : S) :
    List Nat × Except Failure S :=
  let copied := (managerOf s).running.elems
  progressAll (fun a => progressAnimator a currTime) copied s

end AnimatorManager

/-- What a client does with the manager and the animators' states between
manager calls. `Start`, `Stop` and `Complete` stand for `a->Start(..)`,
`a->Stop()` and an `a->Progress(..)` that reaches its last repetition; only
their effect on `state` matters to the manager's assertions. -/
inductive Call where
  | Register (a : Nat)
  | Cancel (a : Nat)
  | MarkAsRunning (a : Nat)
  | MarkAsSuspended (a : Nat)
  | Start (a : Nat)
  | Stop (a : Nat)
  | Complete (a : Nat)
  deriving DecidableEq, Repr

/-- The manager together with the `state` member of every animator, by address. -/
structure Scene where
  manager : AnimatorManager
  stateOf : Nat → animatorstate_t

namespace Scene

/-- The start of the program: empty manager, every animator as constructed
(`state = ANIMATOR_FINISHED`). -/
def initial : Scene := ⟨AnimatorManager.empty, fun _ => ANIMATOR_FINISHED⟩

/-- The value of `a->HasFinished()`. -/
def hasFinished (s : Scene) (a : Nat) : Bool := s.stateOf a != ANIMATOR_RUNNING

/-- Assign the `state` member of the animator at address `a`. -/
def setState (s : Scene) (a : Nat) (st : animatorstate_t) : Scene :=
  { s with stateOf := fun b => if b = a then st else s.stateOf b }

/-- Put a manager returned by a membership call back into the scene. -/
def withManager (s : Scene) : Except Failure AnimatorManager → Except Failure Scene
  | .ok m => .ok { s with manager := m }
  | .error e => .error e

/-- One call. -/
def step (s : Scene) : Call → Except Failure Scene
  | .Register a => s.withManager (s.manager.Register a (s.hasFinished a))
  | .Cancel a => s.withManager (s.manager.Cancel a (s.hasFinished a))
  | .MarkAsRunning a => s.withManager (s.manager.MarkAsRunning a (s.hasFinished a))
  | .MarkAsSuspended a => s.withManager (s.manager.MarkAsSuspended a (s.hasFinished a))
  | .Start a => .ok (s.setState a ANIMATOR_RUNNING)
  | .Stop a => .ok (if s.hasFinished a then s else s.setState a ANIMATOR_STOPPED)
  | .Complete a => .ok (s.setState a ANIMATOR_FINISHED)

/-- A sequence of calls; it stops at the first failed assertion. -/
def run : List Call → Scene → Except Failure Scene
  | [], s => .ok s
  | c :: cs, s =>
    match s.step c with
    | .ok s1 => run cs s1
    | .error e => .error e

/-- The partition invariant: no address is in both `running` and `suspended`. -/
def Partitioned (s : Scene) : Prop :=
  ∀ a, ¬ (a ∈ s.manager.running.elems ∧ a ∈ s.manager.suspended.elems)

/-- Every `Register(a)` of the sequence is issued while `a` is not in `running`. -/
def registersOutsideRunning : List Call → Scene → Bool
  | [], _ => true
  | c :: cs, s =>
    (match c with
      | .Register a => !(s.manager.running.elems.contains a)
      | _ => true) &&
    (match s.step c with
      | .ok s1 => registersOutsideRunning cs s1
      | .error _ => true)

end Scene

/-! ## Callbacks that reach the manager, and the scenarios used below -/

/-- The program state seen by a bulk advance: the manager and the moving
animators it refers to, by address. -/
structure Stage where
  manager : AnimatorManager
  animators : Nat → MovingAnimator

/-- The closure stored in a callback slot, as far as the manager is concerned:
what it does to the manager's sets when invoked with a notification. -/
abbrev Closure := Notification MovingPart → AnimatorManager → Except Failure AnimatorManager

/-- Run the closure on the callbacks an animator invoked, in order. -/
def runCallbacks (react : Closure) : List (Notification MovingPart) → AnimatorManager →
    Except Failure AnimatorManager
  | [], m => .ok m
  | n :: rest, m =>
    match react n m with
    | .ok m1 => runCallbacks react rest m1
    | .error e => .error e

/-- The call `a->Progress(currTime)` on the animator at address `a`, whose
callbacks are the closures `react a`. The closures touch only the manager, so
running them on the notifications after the loop gives what running each at its
notification gives; a failed assertion in one aborts the call either way. -/
def Stage.progressAnimator (react : Nat → Closure) (fuel : Nat) (a currTime : Nat) (s : Stage) :
    Except Failure Stage :=
  match MovingAnimator.Progress currTime fuel (s.animators a) with
  | .error e => .error e
  | .ok (a1, evs) =>
    match runCallbacks (react a) evs s.manager with
    | .error e => .error e
    | .ok m => .ok { manager := m, animators := fun b => if b = a then a1 else s.animators b }

/-- An `onAction` closure that calls `MarkAsSuspended` on its own animator. -/
def suspendSelfOnAction (a : Nat) : Closure
  | .action self, m => m.MarkAsSuspended a self.HasFinished
  | _, m => .ok m

/-- An `onFinish` closure that calls `MarkAsSuspended` on its own animator. -/
def suspendSelfOnFinish (a : Nat) : Closure
  | .finished self, m => m.MarkAsSuspended a self.HasFinished
  | _, m => .ok m

/-- A manager whose `running` set holds the addresses 1 and 2. -/
def twoRunning : AnimatorManager :=
  { running := (AnimatorSet.empty.insert 2).insert 1, suspended := AnimatorSet.empty }

/-- The moving animation of the specification's scenario: `delay = 10`,
`repeatCount = 3`, not forever, `dx = 1`, `dy = 0`. -/
def scenarioMoving : MovingAnimation :=
  { delay := 10, repeatCount := 3, isForever := false, dx := 1, dy := 0 }

/-- The frame-range animation of the specification's scenario: frames `0..3`,
`delay = 5`, `repeatCount = 2`, not forever. -/
def scenarioFrameRange : FrameRangeAnimation :=
  { delay := 5, repeatCount := 2, isForever := false, startFrame := 0, endFrame := 3,
    dx := 1, dy := 0 }

/-- The scenario's moving animator once it has completed: all three callbacks
set, `lastTime = 30`, `currRep = 3`, `state = ANIMATOR_FINISHED`. -/
def scenarioMovingDone : MovingAnimator :=
  { lastTime := 30, state := ANIMATOR_FINISHED, onFinish := true, onStart := true,
    onAction := true, derived := { anim := some scenarioMoving, currRep := 3 } }

/-- The scenario's moving animator stopped by `Stop()` after its first step:
`lastTime = 10`, `currRep = 1`, `state = ANIMATOR_STOPPED`. -/
def scenarioMovingStopped : MovingAnimator :=
  { lastTime := 10, state := ANIMATOR_STOPPED, onFinish := true, onStart := true,
    onAction := true, derived := { anim := some scenarioMoving, currRep := 1 } }

/-- The frames, in order, with which `onAction` was invoked. -/
def actionFrames : List (Notification FrameRangePart) → List Nat
  | [] => []
  | .action self :: rest => self.derived.currFrame :: actionFrames rest
  | _ :: rest => actionFrames rest

/-- Two running copies of the scenario's moving animator, started at time 0,
at the addresses 1 and 2 of `twoRunning`. -/
def twoMovers : Stage :=
  { manager := twoRunning,
    animators := fun _ =>
      (MovingAnimator.Start (MovingAnimator.fresh true true true) scenarioMoving 0).1 }

/-- A forever frame-range animation over the frames `0..1`, `delay = 1`,
displacement `(1, 0)`. -/
def foreverTwoFrames : FrameRangeAnimation :=
  { delay := 1, repeatCount := 0, isForever := true, startFrame := 0, endFrame := 1,
    dx := 1, dy := 0 }

/-- A finite frame-range animation with the single frame `0`, `delay = 1`,
`repeatCount = 2`, displacement `(1, 0)`. -/
def singleFrameTwice : FrameRangeAnimation :=
  { delay := 1, repeatCount := 2, isForever := false, startFrame := 0, endFrame := 0,
    dx := 1, dy := 0 }

/-- Whether a notification is an invocation of `onAction`. -/
def Notification.isAction {D : Type} : Notification D → Bool
  | .action _ => true
  | _ => false

/-- Whether a notification is an invocation of `onFinish`. -/
def Notification.isFinish {D : Type} : Notification D → Bool
  | .finished _ => true
  | _ => false

namespace MovingAnimator

/-- The animator as `onAction` sees it during step number `i` (counted from 0)
of a run with delay `d`: `lastTime` already advanced, `currRep` not yet. -/
def duringStep (a : MovingAnimator) (d i : Nat) : MovingAnimator :=
  { a with lastTime := a.lastTime + (i + 1) * d,
           derived := { a.derived with currRep := a.derived.currRep + i } }

/-- The animator after `k` steps with delay `d` of an animation of `n`
repetitions: finished exactly when the counter has reached `n`. -/
def afterSteps (a : MovingAnimator) (d n k : Nat) : MovingAnimator :=
  { a with lastTime := a.lastTime + k * d,
           state := if a.derived.currRep + k = n then ANIMATOR_FINISHED else a.state,
           derived := { a.derived with currRep := a.derived.currRep + k } }

/-- The callbacks of a run of `k` steps: `onAction` once per step, then
`onFinish` if the run completed the animation. -/
def runTrace (a : MovingAnimator) (d n k : Nat) : List (Notification MovingPart) :=
  (if a.onAction then (List.range k).map (fun i => Notification.action (a.duringStep d i)) else [])
    ++ (if a.derived.currRep + k = n then (a.afterSteps d n k).NotifyStopped else [])

/-- One completed, non-final iteration of the loop body: `lastTime += d`,
`++currRep`. -/
def oneStep (a : MovingAnimator) (d : Nat) : MovingAnimator :=
  { a with lastTime := a.lastTime + d,
           derived := { a.derived with currRep := a.derived.currRep + 1 } }

end MovingAnimator

/-! ## The loop of `Progress`, sequences of calls, and closed forms -/

/-- The outcome of one execution of a `Progress` loop body: the animator after
it, the callbacks it invoked, and whether it left the function by `return`. -/
abbrev Iteration (D : Type) := Except Failure (Animator D × List (Notification D) × Bool)

/-- The body of the `while` loop of `MovingAnimator::Progress`, for the bound
descriptor `an`. -/
def MovingAnimator.iteration (a : MovingAnimator) (an : MovingAnimation) : Iteration MovingPart :=
  let a1 : MovingAnimator := { a with lastTime := tadd a.lastTime an.delay }
  if !an.isForever then
    let a2 : MovingAnimator :=
      { a1 with derived := { a1.derived with currRep := uinc a1.derived.currRep } }
    if a2.derived.currRep = an.repeatCount then
      let a3 : MovingAnimator := { a2 with state := ANIMATOR_FINISHED }
      .ok (a3, a1.NotifyAction ++ a3.NotifyStopped, true)
    else .ok (a2, a1.NotifyAction, false)
  else .ok (a1, a1.NotifyAction, false)

/-- The body of the `while` loop of `FrameRangeAnimator::Progress`, for the
bound descriptor `an`. -/
def FrameRangeAnimator.iteration (a : FrameRangeAnimator) (an : FrameRangeAnimation) :
    Iteration FrameRangePart :=
  match FrameRangeAnimator.nextFrame a an with
  | .error e => .error e
  | .ok a0 =>
    let a1 : FrameRangeAnimator := { a0 with lastTime := tadd a0.lastTime an.delay }
    if a1.derived.currFrame = an.endFrame then
      if !an.isForever then
        let a2 : FrameRangeAnimator :=
          { a1 with derived := { a1.derived with currRep := uinc a1.derived.currRep } }
        if a2.derived.currRep = an.repeatCount then
          let a3 : FrameRangeAnimator := { a2 with state := ANIMATOR_FINISHED }
          .ok (a3, a1.NotifyAction ++ a3.NotifyStopped, true)
        else .ok (a2, a1.NotifyAction, false)
      else .ok (a1, a1.NotifyAction, false)
    else .ok (a1, a1.NotifyAction, false)

/-- The shape shared by the two `Progress` loops: test `currTime > lastTime`,
read the delay of the bound descriptor, test the elapsed time against it, run
the body, and go round again unless the body returned. -/
def progressLoop {D : Type} (delayOf : Animator D → Option Nat) (body : Animator D → Iteration D)
    (currTime : Nat) : Nat → Animator D → Outcome D
  | 0, _ => .error .fuel
  | fuel + 1, a =>
    if currTime > a.lastTime then
      match delayOf a with
      | none => .error .nullDeref
      | some d =>
        if tsub currTime a.lastTime ≥ d then
          match body a with
          | .error e => .error e
          | .ok (a1, evs, true) => .ok (a1, evs)
          | .ok (a1, evs, false) => (progressLoop delayOf body currTime fuel a1).after evs
        else .ok (a, [])
    else .ok (a, [])

/-- The delay of the descriptor bound to a `MovingAnimator`, if any. -/
def MovingAnimator.delayOf (a : MovingAnimator) : Option Nat :=
  a.derived.anim.map (fun an => an.delay)

/-- The loop body of a `MovingAnimator` with its descriptor looked up. -/
def MovingAnimator.body (a : MovingAnimator) : Iteration MovingPart :=
  match a.derived.anim with
  | none => .error .nullDeref
  | some an => MovingAnimator.iteration a an

/-- The delay of the descriptor bound to a `FrameRangeAnimator`, if any. -/
def FrameRangeAnimator.delayOf (a : FrameRangeAnimator) : Option Nat :=
  a.derived.anim.map (fun an => an.delay)

/-- The loop body of a `FrameRangeAnimator` with its descriptor looked up. -/
def FrameRangeAnimator.body (a : FrameRangeAnimator) : Iteration FrameRangePart :=
  match a.derived.anim with
  | none => .error .nullDeref
  | some an => FrameRangeAnimator.iteration a an

/-- A sequence of `Progress` calls on one animator, at the times listed; `prog t`
is the call `Progress(t)`. The callbacks of all calls are collected in order;
the sequence ends at the first call that fails. -/
def progressSeq {D : Type} (prog : Nat → Animator D → Outcome D) :
    List Nat → Animator D → Outcome D
  | [], a => .ok (a, [])
  | t :: ts, a =>
    match prog t a with
    | .error e => .error e
    | .ok (a1, evs) => (progressSeq prog ts a1).after evs

/-- While a finite moving animation started at `t0` is running, `currRep`
counts the steps made: `lastTime = t0 + currRep * delay`. -/
def MovingAnimator.Counting (t0 : Nat) (an : MovingAnimation) (a : MovingAnimator) : Prop :=
  a.derived.anim = some an ∧
  (a.state = ANIMATOR_RUNNING →
    a.lastTime = t0 + a.derived.currRep * an.delay ∧ a.derived.currRep < 2 ^ 32 ∧
    (1 ≤ an.repeatCount → a.derived.currRep < an.repeatCount))

/-- What the `assert` of `FrameRangeAnimator::Progress` needs, kept while the
animator is running: forever, or `currRep` below `repeatCount`. -/
def FrameRangeAnimator.Asserted (an : FrameRangeAnimation) (a : FrameRangeAnimator) : Prop :=
  a.derived.anim = some an ∧
  (a.state = ANIMATOR_RUNNING → an.isForever = true ∨ a.derived.currRep < an.repeatCount)

/-- A call on the frame-range animator between `Start` and the state examined. -/
inductive FrameOp where
  | Progress (currTime fuel : Nat)
  | TimeShift (offset : Nat)
  | Stop
  deriving DecidableEq, Repr

/-- One call on a frame-range animator. -/
def FrameRangeAnimator.call (a : FrameRangeAnimator) : FrameOp → Outcome FrameRangePart
  | .Progress currTime fuel => FrameRangeAnimator.Progress currTime fuel a
  | .TimeShift offset => .ok (a.TimeShift offset)
  | .Stop => .ok a.Stop

/-- A sequence of calls on a frame-range animator, with the callbacks of all
of them collected in order; it ends at the first call that fails. -/
def FrameRangeAnimator.runOps : List FrameOp → FrameRangeAnimator → Outcome FrameRangePart
  | [], a => .ok (a, [])
  | op :: ops, a =>
    match a.call op with
    | .error e => .error e
    | .ok (a1, evs) => (FrameRangeAnimator.runOps ops a1).after evs

/-- The frame carried by an `onAction` notification lies within the range of
the descriptor; nothing is asked of the other notifications. -/
def Notification.frameWithin (an : FrameRangeAnimation) : Notification FrameRangePart → Prop
  | .action self =>
    an.startFrame ≤ self.derived.currFrame ∧ self.derived.currFrame ≤ an.endFrame
  | _ => True

/-- The animator is bound to `an` and its frame lies within the range of `an`. -/
def FrameRangeAnimator.InRange (an : FrameRangeAnimation) (a : FrameRangeAnimator) : Prop :=
  a.derived.anim = some an ∧
  an.startFrame ≤ a.derived.currFrame ∧ a.derived.currFrame ≤ an.endFrame

/-- A forever moving animation with `delay = 10`. -/
def foreverMoving : MovingAnimation :=
  { delay := 10, repeatCount := 0, isForever := true, dx := 1, dy := 0 }

/-- The scenario's moving animator after `Start(0)` and `Progress(15)`: running,
`lastTime = 10`, `currRep = 1`. -/
def scenarioMovingRunning : MovingAnimator :=
  { lastTime := 10, state := ANIMATOR_RUNNING, onFinish := true, onStart := true,
    onAction := true, derived := { anim := some scenarioMoving, currRep := 1 } }

/-- The scenario's frame-range animator right after `Start(anim, 0)`. -/
def scenarioFrameStarted : FrameRangeAnimator :=
  (FrameRangeAnimator.Start (FrameRangeAnimator.fresh true true true) scenarioFrameRange 0).1

namespace FrameRangeAnimator

/-- The number of frames of the range, `endFrame - startFrame + 1`. -/
def frameCount (an : FrameRangeAnimation) : Nat := an.endFrame - an.startFrame + 1

/-- The number of `onAction` notifications of a full run, the one of `Start`
included: `repeatCount * (endFrame - startFrame + 1)`. -/
def totalActions (an : FrameRangeAnimation) : Nat := an.repeatCount * frameCount an

/-- The animator `j` steps after `Start` left it as `a`: `lastTime` advanced by
`j` delays, frame `startFrame + j mod frameCount`, `currRep` the number of
times the end frame was reached, finished once all actions are made. -/
def frameAt (an : FrameRangeAnimation) (a : FrameRangeAnimator) (j : Nat) : FrameRangeAnimator :=
  { a with lastTime := a.lastTime + j * an.delay,
           state := if j + 1 = totalActions an then ANIMATOR_FINISHED else a.state,
           derived := { anim := some an, currFrame := an.startFrame + j % frameCount an,
                        currRep := (j + 1) / frameCount an } }

/-- The animator as `onAction` sees it during step `j` after `Start`: frame
already moved, `currRep` not yet incremented. -/
def frameDuring (an : FrameRangeAnimation) (a : FrameRangeAnimator) (j : Nat) :
    FrameRangeAnimator :=
  { a with lastTime := a.lastTime + j * an.delay,
           derived := { anim := some an, currFrame := an.startFrame + j % frameCount an,
                        currRep := j / frameCount an } }

/-- The callbacks of the steps `j + 1, ..., j + k` after `Start`: `onAction`
once per step, then `onFinish` if step `j + k` is the last of the animation. -/
def frameTrace (an : FrameRangeAnimation) (a : FrameRangeAnimator) (j k : Nat) :
    List (Notification FrameRangePart) :=
  (if a.onAction then
      (List.range k).map (fun i => Notification.action (frameDuring an a (j + 1 + i)))
    else []) ++
  (if j + k + 1 = totalActions an then (frameAt an a (j + k)).NotifyStopped else [])

/-- `Progress` calls at the times listed, made while the animator has not
finished; the callbacks of all calls are collected in order. -/
def progressUntilFinished (fuel : Nat) : List Nat → FrameRangeAnimator → Outcome FrameRangePart
  | [], a => .ok (a, [])
  | t :: ts, a =>
    if a.HasFinished then .ok (a, [])
    else
      match FrameRangeAnimator.Progress t fuel a with
      | .error e => .error e
      | .ok (a1, evs) => (progressUntilFinished fuel ts a1).after evs

end FrameRangeAnimator

/-- The hypotheses on a finite frame-range descriptor under which a full run
is described: not forever, `startFrame < endFrame`, `repeatCount ≥ 1`,
`delay > 0`, frames and count within `unsigned`. -/
structure FrameRangeAnimation.Finite (an : FrameRangeAnimation) : Prop where
  notForever : an.isForever = false
  frames : an.startFrame < an.endFrame
  endFrame : an.endFrame < 2 ^ 32
  reps : 1 ≤ an.repeatCount
  repsBound : an.repeatCount < 2 ^ 32
  delay : 0 < an.delay

/-! ## `Progress` and the value of `state` -/

/-- The animator `a` as it would be with `state = ANIMATOR_RUNNING`, every
other member equal. -/
def Animator.asRunning {D : Type} (a : Animator D) : Animator D :=
  { a with state := ANIMATOR_RUNNING }

/-- An animator met during a call on the running twin, read for the call on an
animator whose state was `s`: where the twin is still `ANIMATOR_RUNNING` the
state member holds `s`; an animator the call has set to `ANIMATOR_FINISHED` is
the same for both. -/
def Animator.restate {D : Type} (s : animatorstate_t) (a : Animator D) : Animator D :=
  if a.state = ANIMATOR_RUNNING then { a with state := s } else a

/-- The notification with its animator read by `Animator.restate`. -/
def Notification.restate {D : Type} (s : animatorstate_t) : Notification D → Notification D
  | .started self => .started (self.restate s)
  | .action self => .action (self.restate s)
  | .finished self => .finished (self.restate s)

/-- The outcome of a call on the running twin read by `Animator.restate`: the
same failure, or the animator and every notification restated. -/
def Outcome.restate {D : Type} (s : animatorstate_t) : Outcome D → Outcome D
  | .ok (a, evs) => .ok (a.restate s, evs.map (Notification.restate s))
  | .error e => .error e

/-- The scenario's frame-range animator once it has completed: `lastTime = 35`,
on the end frame 3 with `currRep = 2`, `state = ANIMATOR_FINISHED`. -/
def scenarioFrameDone : FrameRangeAnimator :=
  { lastTime := 35, state := ANIMATOR_FINISHED, onFinish := true, onStart := true,
    onAction := true, derived := { anim := some scenarioFrameRange, currFrame := 3, currRep := 2 } }

/-! ## Arithmetic of the machine integers -/

theorem tsub_eq {a b : Nat} (ha : a < 2 ^ 64) (hb : b ≤ a) : tsub a b = a - b := by
  unfold tsub
  have h1 : a % 2 ^ 64 = a := Nat.mod_eq_of_lt ha
  have h2 : b % 2 ^ 64 = b := Nat.mod_eq_of_lt (lt_of_le_of_lt hb ha)
  rw [h1, h2]
  have h3 : a + (2 ^ 64 - b) = (a - b) + 2 ^ 64 := by omega
  rw [h3, Nat.add_mod_right]
  exact Nat.mod_eq_of_lt (by omega)

theorem tadd_eq {a b : Nat} (h : a + b < 2 ^ 64) : tadd a b = a + b :=
  Nat.mod_eq_of_lt h

theorem uinc_eq {c : Nat} (h : c + 1 < 2 ^ 32) : uinc c = c + 1 :=
  Nat.mod_eq_of_lt h

/-! ## MovingAnimator: a run of due steps -/

namespace MovingAnimator

theorem runTrace_step (a : MovingAnimator) (d n k : Nat) :
    runTrace a d n (k + 1) =
      ({ a with lastTime := a.lastTime + d } : MovingAnimator).NotifyAction ++
        runTrace (oneStep a d) d n k := by
  have e1 : ∀ i, duringStep (oneStep a d) d i = duringStep a d (i + 1) := by
    intro i
    simp only [duringStep, oneStep]
    congr 1
    · ring
    · congr 1
      ring
  have e2 : afterSteps (oneStep a d) d n k = afterSteps a d n (k + 1) := by
    simp only [afterSteps, oneStep]
    have h1 : a.derived.currRep + 1 + k = a.derived.currRep + (k + 1) := by ring
    have h2 : a.lastTime + d + k * d = a.lastTime + (k + 1) * d := by ring
    rw [h1, h2]
  have e3 : (oneStep a d).derived.currRep + k = a.derived.currRep + (k + 1) := by
    simp only [oneStep]
    ring
  have e4 : ({ a with lastTime := a.lastTime + d } : MovingAnimator) = duringStep a d 0 := by
    simp [duringStep]
  have e5 : (oneStep a d).onAction = a.onAction := rfl
  unfold runTrace
  rw [e2, e3, e4, e5]
  simp only [e1, Animator.NotifyAction]
  by_cases hA : a.onAction = true
  · simp [hA, duringStep, List.range_succ_eq_map, List.map_map, Function.comp_def]
  · simp [hA, duringStep]

/-- A run of exactly `k` due steps of a finite animation: if `k` steps fit in
the elapsed time and either complete the animation or exhaust the due steps,
`Progress` performs exactly these. -/
theorem moving_run (an : MovingAnimation) (t : Nat) (ht : t < 2 ^ 64)
    (hfin : an.isForever = false) (hd : 0 < an.delay) (hn : an.repeatCount < 2 ^ 32) :
    ∀ (k fuel : Nat) (a : MovingAnimator), a.derived.anim = some an →
      a.derived.currRep < an.repeatCount →
      a.derived.currRep + k ≤ an.repeatCount →
      a.lastTime + k * an.delay ≤ t →
      (a.derived.currRep + k = an.repeatCount ∨ t < a.lastTime + (k + 1) * an.delay) →
      k < fuel →
      Progress t fuel a =
        .ok (a.afterSteps an.delay an.repeatCount k, a.runTrace an.delay an.repeatCount k) := by
  intro k
  induction k with
  | zero =>
    intro fuel a hb hc _ hle hor hf
    obtain ⟨f, rfl⟩ : ∃ f, fuel = f + 1 := ⟨fuel - 1, by omega⟩
    have hlt : t < a.lastTime + an.delay := by
      rcases hor with h | h
      · omega
      · simpa using h
    have hne : a.derived.currRep ≠ an.repeatCount := by omega
    have hres : a.afterSteps an.delay an.repeatCount 0 = a := by
      simp [afterSteps, hne]
    have htr : a.runTrace an.delay an.repeatCount 0 = [] := by
      simp [runTrace, hne]
    rw [hres, htr]
    unfold Progress
    by_cases h1 : t > a.lastTime
    · have h2 : ¬ (tsub t a.lastTime ≥ an.delay) := by
        rw [tsub_eq ht (le_of_lt h1)]
        omega
      simp [h1, hb, h2]
    · simp [h1]
  | succ k ih =>
    intro fuel a hb hc hk hle hor hf
    obtain ⟨f, rfl⟩ : ∃ f, fuel = f + 1 := ⟨fuel - 1, by omega⟩
    have hexp : a.lastTime + (k + 1) * an.delay = a.lastTime + an.delay + k * an.delay := by ring
    have hkd : 0 ≤ k * an.delay := Nat.zero_le _
    have h1 : t > a.lastTime := by omega
    have h2 : tsub t a.lastTime ≥ an.delay := by
      rw [tsub_eq ht (le_of_lt h1)]
      omega
    have h3 : tadd a.lastTime an.delay = a.lastTime + an.delay := tadd_eq (by omega)
    have h4 : uinc a.derived.currRep = a.derived.currRep + 1 := uinc_eq (by omega)
    rw [runTrace_step]
    unfold Progress
    simp only [h1, hb, h2, h3, h4, hfin, if_true, Bool.not_false]
    by_cases h5 : a.derived.currRep + 1 = an.repeatCount
    · have hk0 : k = 0 := by omega
      subst hk0
      have hA : a.afterSteps an.delay an.repeatCount (0 + 1) =
          { a.oneStep an.delay with state := ANIMATOR_FINISHED } := by
        simp [afterSteps, oneStep, h5]
      have hT : (a.oneStep an.delay).runTrace an.delay an.repeatCount 0 =
          ({ a.oneStep an.delay with state := ANIMATOR_FINISHED } : MovingAnimator).NotifyStopped := by
        simp [runTrace, oneStep, afterSteps, h5]
      rw [hA, hT]
      simp [h5, oneStep, hb]
    · have hrec := ih f (a.oneStep an.delay) hb (by simp only [oneStep]; omega)
        (by simp only [oneStep]; omega) (by simp only [oneStep]; omega)
        (by
          simp only [oneStep]
          rcases hor with h | h
          · left
            omega
          · right
            have : a.lastTime + (k + 1 + 1) * an.delay
                = a.lastTime + an.delay + (k + 1) * an.delay := by ring
            omega)
        (by omega)
      have hA : (a.oneStep an.delay).afterSteps an.delay an.repeatCount k
          = a.afterSteps an.delay an.repeatCount (k + 1) := by
        simp only [afterSteps, oneStep]
        have e1 : a.derived.currRep + 1 + k = a.derived.currRep + (k + 1) := by ring
        have e2 : a.lastTime + an.delay + k * an.delay = a.lastTime + (k + 1) * an.delay := by
          ring
        rw [e1, e2]
      simp only [h5, if_false]
      have hone : a.oneStep an.delay = { lastTime := a.lastTime + an.delay, state := a.state, onFinish := a.onFinish, onStart := a.onStart, onAction := a.onAction, derived := { anim := some an, currRep := a.derived.currRep + 1 } } := by
        simp [oneStep, hb]
      rw [← hA]
      rw [hone] at hrec ⊢
      rw [hrec]
      rfl

theorem afterSteps_zero (a : MovingAnimator) (d n : Nat) (h : a.derived.currRep ≠ n) :
    a.afterSteps d n 0 = a := by
  simp [afterSteps, h]

theorem runTrace_zero (a : MovingAnimator) (d n : Nat) (h : a.derived.currRep ≠ n) :
    a.runTrace d n 0 = [] := by
  simp [runTrace, h]

/-- No iteration when the clock has not passed `lastTime`; `anim` is not even
dereferenced. -/
theorem moving_not_after (a : MovingAnimator) (t fuel : Nat) (h : t ≤ a.lastTime) :
    Progress t (fuel + 1) a = .ok (a, []) := by
  unfold Progress
  simp [Nat.not_lt.mpr h]

theorem countP_runTrace (a : MovingAnimator) (d n k : Nat) (hA : a.onAction = true) :
    (a.runTrace d n k).countP Notification.isAction = k := by
  unfold runTrace
  rw [List.countP_append]
  have h1 : List.countP Notification.isAction
      (List.map (fun i => Notification.action (a.duringStep d i)) (List.range k)) = k := by
    rw [List.countP_eq_length.mpr]
    · simp
    · intro x hx
      obtain ⟨i, _, rfl⟩ := List.mem_map.mp hx
      rfl
  have h2 : List.countP Notification.isAction
      (if a.derived.currRep + k = n then (a.afterSteps d n k).NotifyStopped else []) = 0 := by
    unfold Animator.NotifyStopped
    split <;> [split; skip] <;> simp [Notification.isAction]
  rw [if_pos hA, h1, h2]
  rfl

end MovingAnimator

/-! ## Progress and the state member -/

theorem Outcome.after_ok {D : Type} (pre : List (Notification D)) (o : Outcome D)
    (a : Animator D) (evs : List (Notification D)) (h : o.after pre = .ok (a, evs)) :
    ∃ rest, o = .ok (a, rest) ∧ evs = pre ++ rest := by
  cases o with
  | error e => simp [Outcome.after] at h
  | ok r =>
    obtain ⟨a0, evs0⟩ := r
    simp only [Outcome.after, Except.ok.injEq, Prod.mk.injEq] at h
    exact ⟨evs0, by rw [h.1], h.2.symm⟩

/-- `MovingAnimator::Progress` assigns `state` only the value
`ANIMATOR_FINISHED`: an animator that is not running stays not running. -/
theorem MovingAnimator.moving_keeps_finished (t : Nat) :
    ∀ (fuel : Nat) (a a1 : MovingAnimator) (evs : List (Notification MovingPart)),
      a.state ≠ ANIMATOR_RUNNING → MovingAnimator.Progress t fuel a = .ok (a1, evs) →
      a1.state ≠ ANIMATOR_RUNNING := by
  intro fuel
  induction fuel with
  | zero =>
    intro a a1 evs _ h
    simp [MovingAnimator.Progress] at h
  | succ f ih =>
    intro a a1 evs hs h
    unfold MovingAnimator.Progress at h
    dsimp only at h
    split at h
    · split at h
      · simp at h
      · split at h
        · split at h
          · split at h
            · simp only [Except.ok.injEq, Prod.mk.injEq] at h
              rw [← h.1]
              simp
            · obtain ⟨rest, hr, _⟩ := Outcome.after_ok _ _ _ _ h
              refine ih _ a1 rest ?_ hr
              exact hs
          · obtain ⟨rest, hr, _⟩ := Outcome.after_ok _ _ _ _ h
            refine ih _ a1 rest ?_ hr
            exact hs
        · simp only [Except.ok.injEq, Prod.mk.injEq] at h
          rw [← h.1]
          exact hs
    · simp only [Except.ok.injEq, Prod.mk.injEq] at h
      rw [← h.1]
      exact hs

theorem FrameRangeAnimator.nextFrame_state (a a0 : FrameRangeAnimator) (an : FrameRangeAnimation)
    (h : FrameRangeAnimator.nextFrame a an = .ok a0) :
    a0.state = a.state ∧ a0.lastTime = a.lastTime := by
  unfold FrameRangeAnimator.nextFrame at h
  split at h
  · split at h
    · simp only [Except.ok.injEq] at h
      rw [← h]
      exact ⟨rfl, rfl⟩
    · simp at h
  · simp only [Except.ok.injEq] at h
    rw [← h]
    exact ⟨rfl, rfl⟩

/-- `FrameRangeAnimator::Progress` assigns `state` only the value
`ANIMATOR_FINISHED`: an animator that is not running stays not running. -/
theorem FrameRangeAnimator.frameRange_keeps_finished (t : Nat) :
    ∀ (fuel : Nat) (a a1 : FrameRangeAnimator) (evs : List (Notification FrameRangePart)),
      a.state ≠ ANIMATOR_RUNNING → FrameRangeAnimator.Progress t fuel a = .ok (a1, evs) →
      a1.state ≠ ANIMATOR_RUNNING := by
  intro fuel
  induction fuel with
  | zero =>
    intro a a1 evs _ h
    simp [FrameRangeAnimator.Progress] at h
  | succ f ih =>
    intro a a1 evs hs h
    unfold FrameRangeAnimator.Progress at h
    dsimp only at h
    split at h
    · split at h
      · simp at h
      · split at h
        · split at h
          · simp at h
          · rename_i a0 hnf
            have hst := (FrameRangeAnimator.nextFrame_state _ _ _ hnf).1
            have hs0 : a0.state ≠ ANIMATOR_RUNNING := by rw [hst]; exact hs
            split at h
            · split at h
              · split at h
                · simp only [Except.ok.injEq, Prod.mk.injEq] at h
                  rw [← h.1]
                  simp
                · obtain ⟨rest, hr, _⟩ := Outcome.after_ok _ _ _ _ h
                  refine ih _ a1 rest ?_ hr
                  exact hs0
              · obtain ⟨rest, hr, _⟩ := Outcome.after_ok _ _ _ _ h
                refine ih _ a1 rest ?_ hr
                exact hs0
            · obtain ⟨rest, hr, _⟩ := Outcome.after_ok _ _ _ _ h
              refine ih _ a1 rest ?_ hr
              exact hs0
        · simp only [Except.ok.injEq, Prod.mk.injEq] at h
          rw [← h.1]
          exact hs
    · simp only [Except.ok.injEq, Prod.mk.injEq] at h
      rw [← h.1]
      exact hs

/-- No iteration of `MovingAnimator::Progress` when no step is due. -/
theorem MovingAnimator.moving_not_due (a : MovingAnimator) (t fuel : Nat)
    (h : t ≤ a.lastTime ∨ ∃ an, a.derived.anim = some an ∧ tsub t a.lastTime < an.delay) :
    MovingAnimator.Progress t (fuel + 1) a = .ok (a, []) := by
  rcases h with h | ⟨an, hb, h⟩
  · exact MovingAnimator.moving_not_after a t fuel h
  · unfold MovingAnimator.Progress
    by_cases h1 : t > a.lastTime
    · simp [h1, hb, Nat.not_le.mpr h]
    · simp [h1]

/-- No iteration of `FrameRangeAnimator::Progress` when no step is due. -/
theorem FrameRangeAnimator.frameRange_not_due (a : FrameRangeAnimator) (t fuel : Nat)
    (h : t ≤ a.lastTime ∨ ∃ an, a.derived.anim = some an ∧ tsub t a.lastTime < an.delay) :
    FrameRangeAnimator.Progress t (fuel + 1) a = .ok (a, []) := by
  unfold FrameRangeAnimator.Progress
  rcases h with h | ⟨an, hb, h⟩
  · simp [Nat.not_lt.mpr h]
  · by_cases h1 : t > a.lastTime
    · simp [h1, hb, Nat.not_le.mpr h]
    · simp [h1]

/-! ## The manager's two sets -/

theorem nodup_of_sorted (s : List Nat) (hs : s.Sorted (· < ·)) : s.Nodup :=
  List.Sorted.nodup hs

theorem mem_eraseAddr (x a : Nat) (s : List Nat) (hs : s.Sorted (· < ·)) :
    x ∈ s.erase a ↔ x ≠ a ∧ x ∈ s :=
  List.Nodup.mem_erase_iff (nodup_of_sorted s hs)

theorem AnimatorSet.mem_insert (s : AnimatorSet) (a x : Nat) :
    x ∈ (s.insert a).elems ↔ x = a ∨ x ∈ s.elems :=
  mem_insertAddr x a s.elems

theorem AnimatorSet.mem_erase (s : AnimatorSet) (a x : Nat) :
    x ∈ (s.erase a).elems ↔ x ≠ a ∧ x ∈ s.elems :=
  mem_eraseAddr x a s.elems s.ordered

theorem Scene.withManager_ok (s s1 : Scene) (r : Except Failure AnimatorManager)
    (h : s.withManager r = .ok s1) : ∃ m, r = .ok m ∧ s1 = { s with manager := m } := by
  cases r with
  | error e => simp [Scene.withManager] at h
  | ok m =>
    simp only [Scene.withManager, Except.ok.injEq] at h
    exact ⟨m, rfl, h.symm⟩

/-- One call keeps `running` and `suspended` disjoint, provided a `Register(a)`
finds `a` outside `running`. -/
theorem Scene.step_partitioned (s s1 : Scene) (c : Call) (hp : s.Partitioned)
    (hreg : ∀ a, c = Call.Register a → a ∉ s.manager.running.elems)
    (h : s.step c = .ok s1) : s1.Partitioned := by
  cases c with
  | Register a =>
    obtain ⟨m, hm, rfl⟩ := Scene.withManager_ok _ _ _ h
    unfold AnimatorManager.Register at hm
    split at hm
    · simp only [Except.ok.injEq] at hm
      subst hm
      intro x ⟨hr, hsu⟩
      rcases (AnimatorSet.mem_insert _ _ _).mp hsu with rfl | hsu
      · exact hreg x rfl hr
      · exact hp x ⟨hr, hsu⟩
    · simp at hm
  | Cancel a =>
    obtain ⟨m, hm, rfl⟩ := Scene.withManager_ok _ _ _ h
    unfold AnimatorManager.Cancel at hm
    split at hm
    · simp only [Except.ok.injEq] at hm
      subst hm
      intro x ⟨hr, hsu⟩
      exact hp x ⟨hr, ((AnimatorSet.mem_erase _ _ _).mp hsu).2⟩
    · simp at hm
  | MarkAsRunning a =>
    obtain ⟨m, hm, rfl⟩ := Scene.withManager_ok _ _ _ h
    unfold AnimatorManager.MarkAsRunning at hm
    split at hm
    · simp only [Except.ok.injEq] at hm
      subst hm
      intro x ⟨hr, hsu⟩
      have hsu' := (AnimatorSet.mem_erase _ _ _).mp hsu
      rcases (AnimatorSet.mem_insert _ _ _).mp hr with rfl | hr
      · exact hsu'.1 rfl
      · exact hp x ⟨hr, hsu'.2⟩
    · simp at hm
  | MarkAsSuspended a =>
    obtain ⟨m, hm, rfl⟩ := Scene.withManager_ok _ _ _ h
    unfold AnimatorManager.MarkAsSuspended at hm
    split at hm
    · simp only [Except.ok.injEq] at hm
      subst hm
      intro x ⟨hr, hsu⟩
      have hr' := (AnimatorSet.mem_erase _ _ _).mp hr
      rcases (AnimatorSet.mem_insert _ _ _).mp hsu with rfl | hsu
      · exact hr'.1 rfl
      · exact hp x ⟨hr'.2, hsu⟩
    · simp at hm
  | Start a =>
    simp only [Scene.step, Except.ok.injEq] at h
    subst h
    exact hp
  | Stop a =>
    simp only [Scene.step, Except.ok.injEq] at h
    subst h
    split
    · exact hp
    · exact hp
  | Complete a =>
    simp only [Scene.step, Except.ok.injEq] at h
    subst h
    exact hp

theorem Scene.run_partitioned : ∀ (calls : List Call) (s s1 : Scene), s.Partitioned →
    Scene.registersOutsideRunning calls s = true → Scene.run calls s = .ok s1 →
    s1.Partitioned := by
  intro calls
  induction calls with
  | nil =>
    intro s s1 hp _ h
    simp only [Scene.run, Except.ok.injEq] at h
    subst h
    exact hp
  | cons c cs ih =>
    intro s s1 hp hreg h
    unfold Scene.run at h
    unfold Scene.registersOutsideRunning at hreg
    rw [Bool.and_eq_true] at hreg
    cases hstep : s.step c with
    | error e => simp [hstep] at h
    | ok s2 =>
      simp only [hstep] at h hreg
      refine ih s2 s1 (Scene.step_partitioned s s2 c hp ?_ hstep) hreg.2 h
      intro a hc
      subst hc
      simpa using hreg.1

/-! ## The bulk advance -/

theorem AnimatorManager.progressAll_log {S : Type} (f : Nat → S → Except Failure S) :
    ∀ (l : List Nat) (s : S),
      (AnimatorManager.progressAll f l s).1 <+: l ∧
      ((∃ s1, (AnimatorManager.progressAll f l s).2 = .ok s1) →
        (AnimatorManager.progressAll f l s).1 = l) ∧
      ((∀ a ∈ l, ∀ s0, ∃ s1, f a s0 = .ok s1) →
        ∃ s1, (AnimatorManager.progressAll f l s).2 = .ok s1) := by
  intro l
  induction l with
  | nil =>
    intro s
    simp [AnimatorManager.progressAll]
  | cons a rest ih =>
    intro s
    unfold AnimatorManager.progressAll
    cases hfa : f a s with
    | error e =>
      refine ⟨?_, ?_, ?_⟩
      · exact ⟨rest, rfl⟩
      · rintro ⟨s1, h⟩
        simp at h
      · intro htot
        obtain ⟨s1, h1⟩ := htot a (List.mem_cons_self a rest) s
        rw [hfa] at h1
        simp at h1
    | ok s1 =>
      obtain ⟨h1, h2, h3⟩ := ih s1
      refine ⟨?_, ?_, ?_⟩
      · obtain ⟨u, hu⟩ := h1
        exact ⟨u, by simp [hu]⟩
      · intro h
        simp only [List.cons.injEq, true_and]
        exact h2 h
      · intro htot
        exact h3 (fun b hb => htot b (List.mem_cons_of_mem a hb))

/-! ## The loop of `Progress`: rules, fuel and timing -/

theorem MovingAnimator.moving_eq_loop (t : Nat) : ∀ (fuel : Nat) (a : MovingAnimator),
    MovingAnimator.Progress t fuel a
      = progressLoop MovingAnimator.delayOf MovingAnimator.body t fuel a := by
  intro fuel
  induction fuel with
  | zero => intro a; rfl
  | succ f ih =>
    intro a
    unfold MovingAnimator.Progress progressLoop
    by_cases h1 : t > a.lastTime
    · simp only [h1, if_true]
      cases hb : a.derived.anim with
      | none => simp [MovingAnimator.delayOf, hb]
      | some an =>
        simp only [MovingAnimator.delayOf, hb, Option.map_some', MovingAnimator.body]
        by_cases h2 : tsub t a.lastTime ≥ an.delay
        · simp only [h2, if_true, MovingAnimator.iteration]
          by_cases h3 : an.isForever = true
          · simp [h3, ih]
          · simp only [h3, Bool.not_eq_true] at *
            simp only [h3, Bool.not_false, if_true]
            split
            · simp [hb]
            · simp [ih, hb]
        · simp [h2]
    · simp [h1]

theorem FrameRangeAnimator.frameRange_eq_loop (t : Nat) : ∀ (fuel : Nat) (a : FrameRangeAnimator),
    FrameRangeAnimator.Progress t fuel a
      = progressLoop FrameRangeAnimator.delayOf FrameRangeAnimator.body t fuel a := by
  intro fuel
  induction fuel with
  | zero => intro a; rfl
  | succ f ih =>
    intro a
    unfold FrameRangeAnimator.Progress progressLoop
    by_cases h1 : t > a.lastTime
    · simp only [h1, if_true]
      cases hb : a.derived.anim with
      | none => simp [FrameRangeAnimator.delayOf, hb]
      | some an =>
        simp only [FrameRangeAnimator.delayOf, hb, Option.map_some', FrameRangeAnimator.body]
        by_cases h2 : tsub t a.lastTime ≥ an.delay
        · simp only [h2, if_true, FrameRangeAnimator.iteration]
          cases hn : FrameRangeAnimator.nextFrame a an with
          | error e => rfl
          | ok a0 =>
            simp only []
            split
            · by_cases h3 : an.isForever = true
              · simp [h3, ih]
              · simp only [Bool.not_eq_true] at h3
                simp only [h3, Bool.not_false, if_true]
                split
                · simp [hb]
                · simp [ih, hb]
            · simp [ih]
        · simp [h2]
    · simp [h1]

/-- What one iteration of the moving loop does, read off its result. -/
theorem MovingAnimator.moving_body_ok (a a1 : MovingAnimator) (an : MovingAnimation)
    (evs : List (Notification MovingPart)) (stop : Bool)
    (hb : a.derived.anim = some an) (h : MovingAnimator.body a = .ok (a1, evs, stop)) :
    a1.derived.anim = some an ∧ a1.lastTime = tadd a.lastTime an.delay ∧
    a1.onAction = a.onAction ∧ a1.onFinish = a.onFinish ∧ a1.onStart = a.onStart ∧
    a1.derived.currRep = (if an.isForever then a.derived.currRep else uinc a.derived.currRep) ∧
    (stop = true ↔ an.isForever = false ∧ uinc a.derived.currRep = an.repeatCount) ∧
    a1.state = (if stop then ANIMATOR_FINISHED else a.state) ∧
    evs = (if a.onAction then
            [Notification.action { a with lastTime := tadd a.lastTime an.delay }] else []) ++
          (if stop then a1.NotifyStopped else []) := by
  unfold MovingAnimator.body at h
  rw [hb] at h
  unfold MovingAnimator.iteration at h
  by_cases hf : an.isForever = true
  · simp only [hf, Bool.not_true, Bool.false_eq_true, if_false, Except.ok.injEq,
      Prod.mk.injEq] at h
    obtain ⟨rfl, rfl, rfl⟩ := h
    simp [hf, hb, Animator.NotifyAction]
  · simp only [Bool.not_eq_true] at hf
    simp only [hf, Bool.not_false, if_true] at h
    split at h
    · rename_i hc
      simp only [Except.ok.injEq, Prod.mk.injEq] at h
      obtain ⟨rfl, rfl, rfl⟩ := h
      simp [hf, hb, hc, Animator.NotifyAction]
    · rename_i hc
      simp only [Except.ok.injEq, Prod.mk.injEq] at h
      obtain ⟨rfl, rfl, rfl⟩ := h
      simp [hf, hb, hc, Animator.NotifyAction]

/-- The moving loop body never fails on a bound animator. -/
theorem MovingAnimator.moving_body_total (a : MovingAnimator) (an : MovingAnimation)
    (hb : a.derived.anim = some an) :
    ∃ a1 evs stop, MovingAnimator.body a = .ok (a1, evs, stop) := by
  unfold MovingAnimator.body
  rw [hb]
  unfold MovingAnimator.iteration
  by_cases hf : an.isForever = true
  · simp [hf]
  · simp only [Bool.not_eq_true] at hf
    simp only [hf, Bool.not_false, if_true]
    split <;> simp

/-- What one iteration of the frame-range loop does, read off its result. -/
theorem FrameRangeAnimator.frameRange_body_ok (a a1 : FrameRangeAnimator) (an : FrameRangeAnimation)
    (evs : List (Notification FrameRangePart)) (stop : Bool)
    (hb : a.derived.anim = some an) (h : FrameRangeAnimator.body a = .ok (a1, evs, stop)) :
    a1.derived.anim = some an ∧ a1.lastTime = tadd a.lastTime an.delay ∧
    a1.onAction = a.onAction ∧ a1.onFinish = a.onFinish ∧ a1.onStart = a.onStart ∧
    (a.derived.currFrame = an.endFrame →
      an.isForever = true ∨ a.derived.currRep < an.repeatCount) ∧
    a1.derived.currFrame =
      (if a.derived.currFrame = an.endFrame then an.startFrame else uinc a.derived.currFrame) ∧
    a1.derived.currRep =
      (if a1.derived.currFrame = an.endFrame ∧ an.isForever = false then uinc a.derived.currRep
       else a.derived.currRep) ∧
    (stop = true ↔ a1.derived.currFrame = an.endFrame ∧ an.isForever = false ∧
      uinc a.derived.currRep = an.repeatCount) ∧
    a1.state = (if stop then ANIMATOR_FINISHED else a.state) ∧
    evs = (if a.onAction then
            [Notification.action
              { a with lastTime := tadd a.lastTime an.delay,
                       derived := { a.derived with currFrame := a1.derived.currFrame } }]
           else []) ++
          (if stop then a1.NotifyStopped else []) := by
  unfold FrameRangeAnimator.body at h
  rw [hb] at h
  unfold FrameRangeAnimator.iteration at h
  cases hn : FrameRangeAnimator.nextFrame a an with
  | error e => simp [hn] at h
  | ok a0 =>
    have hassert : a.derived.currFrame = an.endFrame →
        an.isForever = true ∨ a.derived.currRep < an.repeatCount := by
      intro he
      unfold FrameRangeAnimator.nextFrame at hn
      rw [if_pos he] at hn
      split at hn
      · rename_i hc
        simpa using hc
      · simp at hn
    have ha0 : a0 = { a with derived := { a.derived with currFrame :=
        (if a.derived.currFrame = an.endFrame then an.startFrame
          else uinc a.derived.currFrame) } } := by
      unfold FrameRangeAnimator.nextFrame at hn
      split at hn
      · rename_i he
        split at hn
        · simp only [Except.ok.injEq] at hn
          rw [← hn]
          simp [he]
        · simp at hn
      · rename_i he
        simp only [Except.ok.injEq] at hn
        rw [← hn]
        simp [he]
    simp only [hn] at h
    refine ⟨?_, ?_, ?_, ?_, ?_, hassert, ?_⟩
    all_goals
      by_cases hf : an.isForever = true
      · simp only [hf, Bool.not_true, Bool.false_eq_true, if_false, ite_self, Except.ok.injEq,
          Prod.mk.injEq] at h
        obtain ⟨rfl, rfl, rfl⟩ := h
        subst ha0
        simp [hf, hb, Animator.NotifyAction]
      · simp only [Bool.not_eq_true] at hf
        simp only [hf, Bool.not_false, if_true] at h
        split at h
        · rename_i he
          split at h
          · rename_i hc
            simp only [Except.ok.injEq, Prod.mk.injEq] at h
            obtain ⟨rfl, rfl, rfl⟩ := h
            subst ha0
            dsimp only at he hc
            simp [hf, hb, hc, he, Animator.NotifyAction]
          · rename_i hc
            simp only [Except.ok.injEq, Prod.mk.injEq] at h
            obtain ⟨rfl, rfl, rfl⟩ := h
            subst ha0
            dsimp only at he hc
            simp [hf, hb, hc, he, Animator.NotifyAction]
        · rename_i he
          simp only [Except.ok.injEq, Prod.mk.injEq] at h
          obtain ⟨rfl, rfl, rfl⟩ := h
          subst ha0
          dsimp only at he
          simp [hf, hb, he, Animator.NotifyAction]

/-- The frame-range loop body fails only at the `assert`, and exactly when the
animator stands on the end frame of a finite animation whose counter is not
below `repeatCount`. -/
theorem FrameRangeAnimator.frameRange_body_error (a : FrameRangeAnimator) (an : FrameRangeAnimation)
    (hb : a.derived.anim = some an) :
    (a.derived.currFrame = an.endFrame ∧ an.isForever = false ∧
        ¬ a.derived.currRep < an.repeatCount →
      FrameRangeAnimator.body a = .error Failure.assertion) ∧
    (¬ (a.derived.currFrame = an.endFrame ∧ an.isForever = false ∧
        ¬ a.derived.currRep < an.repeatCount) →
      ∃ a1 evs stop, FrameRangeAnimator.body a = .ok (a1, evs, stop)) := by
  unfold FrameRangeAnimator.body
  rw [hb]
  unfold FrameRangeAnimator.iteration FrameRangeAnimator.nextFrame
  constructor
  · rintro ⟨he, hf, hc⟩
    simp [he, hf, hc]
  · intro hne
    by_cases he : a.derived.currFrame = an.endFrame
    · have hc : an.isForever = true ∨ a.derived.currRep < an.repeatCount := by
        by_cases hf : an.isForever = true
        · exact Or.inl hf
        · right
          by_contra hlt
          exact hne ⟨he, by simpa using hf, hlt⟩
      have hc' : (an.isForever || decide (a.derived.currRep < an.repeatCount)) = true := by
        simpa using hc
      simp only [he, if_true, hc']
      split
      · split
        · split <;> simp
        · simp
      · simp
    · simp only [he, if_false]
      split
      · split
        · split <;> simp
        · simp
      · simp

/-- Loop rule for `progressLoop`. `I` holds of every animator on which the loop
condition is evaluated; `R a a2 evs` relates an animator `a` at a loop head to
the animator `a2` and the callbacks `evs` at the way out of the function;
`E` holds of every failure. -/
theorem progressLoop_rule {D : Type} (delayOf : Animator D → Option Nat)
    (body : Animator D → Iteration D) (t : Nat)
    (I : Animator D → Prop) (R : Animator D → Animator D → List (Notification D) → Prop)
    (E : Failure → Prop)
    (hfuel : E Failure.fuel)
    (hnull : ∀ a, I a → t > a.lastTime → delayOf a = none → E Failure.nullDeref)
    (hexit : ∀ a, I a →
      (t ≤ a.lastTime ∨ ∃ d, delayOf a = some d ∧ tsub t a.lastTime < d) → R a a [])
    (herr : ∀ a d e, I a → t > a.lastTime → delayOf a = some d → tsub t a.lastTime ≥ d →
      body a = .error e → E e)
    (hstop : ∀ a d a1 evs, I a → t > a.lastTime → delayOf a = some d →
      tsub t a.lastTime ≥ d → body a = .ok (a1, evs, true) → R a a1 evs)
    (hcont : ∀ a d a1 evs, I a → t > a.lastTime → delayOf a = some d →
      tsub t a.lastTime ≥ d → body a = .ok (a1, evs, false) →
      I a1 ∧ ∀ a2 evs2, R a1 a2 evs2 → R a a2 (evs ++ evs2)) :
    ∀ (fuel : Nat) (a : Animator D), I a →
      (∀ a2 evs, progressLoop delayOf body t fuel a = .ok (a2, evs) → R a a2 evs) ∧
      (∀ e, progressLoop delayOf body t fuel a = .error e → E e) := by
  intro fuel
  induction fuel with
  | zero =>
    intro a _
    constructor
    · intro a2 evs h
      simp [progressLoop] at h
    · intro e h
      simp only [progressLoop, Except.error.injEq] at h
      rw [← h]
      exact hfuel
  | succ f ih =>
    intro a hI
    unfold progressLoop
    by_cases h1 : t > a.lastTime
    · simp only [h1, if_true]
      cases hd : delayOf a with
      | none =>
        constructor
        · intro a2 evs h
          simp at h
        · intro e h
          simp only [Except.error.injEq] at h
          rw [← h]
          exact hnull a hI h1 hd
      | some d =>
        by_cases h2 : tsub t a.lastTime ≥ d
        · simp only [h2, if_true]
          cases hbd : body a with
          | error e0 =>
            constructor
            · intro a2 evs h
              simp at h
            · intro e h
              simp only [Except.error.injEq] at h
              rw [← h]
              exact herr a d e0 hI h1 hd h2 hbd
          | ok r =>
            obtain ⟨a1, evs1, stop⟩ := r
            cases stop with
            | true =>
              constructor
              · intro a2 evs h
                simp only [Except.ok.injEq, Prod.mk.injEq] at h
                rw [← h.1, ← h.2]
                exact hstop a d a1 evs1 hI h1 hd h2 hbd
              · intro e h
                simp at h
            | false =>
              obtain ⟨hI1, hcomp⟩ := hcont a d a1 evs1 hI h1 hd h2 hbd
              obtain ⟨ih1, ih2⟩ := ih a1 hI1
              constructor
              · intro a2 evs h
                obtain ⟨rest, hr, he⟩ := Outcome.after_ok _ _ _ _ h
                rw [he]
                exact hcomp a2 rest (ih1 a2 rest hr)
              · intro e h
                cases hp : progressLoop delayOf body t f a1 with
                | error e1 =>
                  simp only [hp, Outcome.after, Except.error.injEq] at h
                  rw [← h]
                  exact ih2 e1 hp
                | ok r1 =>
                  obtain ⟨x, y⟩ := r1
                  simp [hp, Outcome.after] at h
        · simp only [h2, if_false]
          constructor
          · intro a2 evs h
            simp only [Except.ok.injEq, Prod.mk.injEq] at h
            rw [← h.1, ← h.2]
            exact hexit a hI (Or.inr ⟨d, hd, Nat.not_le.mp h2⟩)
          · intro e h
            simp at h
    · simp only [h1, if_false]
      constructor
      · intro a2 evs h
        simp only [Except.ok.injEq, Prod.mk.injEq] at h
        rw [← h.1, ← h.2]
        exact hexit a hI (Or.inl (Nat.not_lt.mp h1))
      · intro e h
        simp at h

/-- Fuel bound for `progressLoop`: when every continuing iteration advances
`lastTime` by the same positive delay `d`, the loop evaluates its condition at
most `(t - lastTime) / d + 1` times; more fuel changes nothing. -/
theorem progressLoop_fuel {D : Type} (delayOf : Animator D → Option Nat)
    (body : Animator D → Iteration D) (t d : Nat) (ht : t < 2 ^ 64) (hd : 0 < d)
    (I : Animator D → Prop)
    (hdelay : ∀ a, I a → delayOf a = some d)
    (herr : ∀ a e, I a → body a = .error e → e ≠ Failure.fuel)
    (hcont : ∀ a a1 evs, I a → body a = .ok (a1, evs, false) →
      I a1 ∧ a1.lastTime = tadd a.lastTime d) :
    ∀ (n fuel : Nat) (a : Animator D), I a → (t - a.lastTime) / d ≤ n → n < fuel →
      progressLoop delayOf body t fuel a = progressLoop delayOf body t (n + 1) a ∧
      progressLoop delayOf body t fuel a ≠ .error Failure.fuel := by
  intro n
  induction n with
  | zero =>
    intro fuel a hI hq hf
    obtain ⟨f, rfl⟩ : ∃ f, fuel = f + 1 := ⟨fuel - 1, by omega⟩
    have hq0 : (t - a.lastTime) / d = 0 := Nat.le_zero.mp hq
    have hlt : t - a.lastTime < d := (Nat.div_eq_zero_iff hd).mp hq0
    have hres : ∀ g, progressLoop delayOf body t (g + 1) a = .ok (a, []) := by
      intro g
      unfold progressLoop
      by_cases h1 : t > a.lastTime
      · have h2 : ¬ (tsub t a.lastTime ≥ d) := by
          rw [tsub_eq ht (le_of_lt h1)]
          omega
        simp [h1, hdelay a hI, h2]
      · simp [h1]
    rw [hres f, hres 0]
    simp
  | succ n ih =>
    intro fuel a hI hq hf
    obtain ⟨f, rfl⟩ : ∃ f, fuel = f + 1 := ⟨fuel - 1, by omega⟩
    have hfn : n < f := by omega
    unfold progressLoop
    by_cases h1 : t > a.lastTime
    · simp only [h1, if_true, hdelay a hI]
      by_cases h2 : tsub t a.lastTime ≥ d
      · simp only [h2, if_true]
        cases hbd : body a with
        | error e0 =>
          refine ⟨rfl, ?_⟩
          intro h
          simp only [Except.error.injEq] at h
          exact herr a e0 hI hbd h
        | ok r =>
          obtain ⟨a1, evs1, stop⟩ := r
          cases stop with
          | true => simp
          | false =>
            obtain ⟨hI1, hl⟩ := hcont a a1 evs1 hI hbd
            have hsub : tsub t a.lastTime = t - a.lastTime := tsub_eq ht (le_of_lt h1)
            have hadd : tadd a.lastTime d = a.lastTime + d := tadd_eq (by omega)
            have hq1 : (t - a1.lastTime) / d ≤ n := by
              rw [hl, hadd]
              have h3 : d ≤ t - a.lastTime := by omega
              have h4 := Nat.div_eq_sub_div hd h3
              have h5 : t - (a.lastTime + d) = t - a.lastTime - d := by omega
              rw [h5]
              omega
            obtain ⟨e1, e2⟩ := ih f a1 hI1 hq1 hfn
            simp only []
            rw [e1]
            refine ⟨rfl, ?_⟩
            intro h
            cases hp : progressLoop delayOf body t (n + 1) a1 with
            | error e3 =>
              rw [hp] at e1 h
              simp only [Outcome.after, Except.error.injEq] at h
              rw [h] at e1
              exact e2 e1
            | ok r1 =>
              obtain ⟨x, y⟩ := r1
              simp [hp, Outcome.after] at h
      · simp [h2]
    · simp [h1]

/-- Timing rule for `progressLoop`: when every iteration advances `lastTime` by
the delay `d` and invokes `onAction` once (if set), a call that returns has
advanced `lastTime` by `j * d` for the number `j` of iterations it made, which
is at most `(t - lastTime) / d`, without passing `t`. -/
theorem progressLoop_time {D : Type} (delayOf : Animator D → Option Nat)
    (body : Animator D → Iteration D) (t d : Nat) (ht : t < 2 ^ 64) (hd : 0 < d)
    (I : Animator D → Prop)
    (hdelay : ∀ a, I a → delayOf a = some d)
    (hstep : ∀ a a1 evs stop, I a → body a = .ok (a1, evs, stop) →
      I a1 ∧ a1.lastTime = tadd a.lastTime d ∧ a1.onAction = a.onAction ∧
      evs.countP Notification.isAction = (if a.onAction then 1 else 0)) :
    ∀ (fuel : Nat) (a a2 : Animator D) (evs : List (Notification D)), I a →
      progressLoop delayOf body t fuel a = .ok (a2, evs) →
      I a2 ∧ a2.onAction = a.onAction ∧
      ∃ j, a2.lastTime = a.lastTime + j * d ∧ j ≤ (t - a.lastTime) / d ∧
        (j = 0 ∨ a2.lastTime ≤ t) ∧
        evs.countP Notification.isAction = (if a.onAction then j else 0) := by
  intro fuel a a2 evs hI h
  have key := (progressLoop_rule delayOf body t I
    (fun a a2 evs => I a2 ∧ a2.onAction = a.onAction ∧
      ∃ j, a2.lastTime = a.lastTime + j * d ∧ (j = 0 ∨ a2.lastTime ≤ t) ∧
        evs.countP Notification.isAction = (if a.onAction then j else 0))
    (fun _ => True) trivial (fun _ _ _ _ => trivial)
    (by
      intro a hI _
      exact ⟨hI, rfl, 0, by simp, Or.inl rfl, by simp⟩)
    (fun _ _ _ _ _ _ _ _ => trivial)
    (by
      intro a d' a1 evs1 hI h1 hd' h2 hb
      have hdd : d' = d := by
        have := hdelay a hI
        rw [hd'] at this
        exact Option.some.inj this
      subst hdd
      obtain ⟨hI1, hl, hA, hc⟩ := hstep a a1 evs1 true hI hb
      have hsub : tsub t a.lastTime = t - a.lastTime := tsub_eq ht (le_of_lt h1)
      have hadd : tadd a.lastTime d' = a.lastTime + d' := tadd_eq (by omega)
      refine ⟨hI1, hA, 1, by rw [hl, hadd]; ring, Or.inr (by rw [hl, hadd]; omega), ?_⟩
      rw [hc])
    (by
      intro a d' a1 evs1 hI h1 hd' h2 hb
      have hdd : d' = d := by
        have := hdelay a hI
        rw [hd'] at this
        exact Option.some.inj this
      subst hdd
      obtain ⟨hI1, hl, hA, hc⟩ := hstep a a1 evs1 false hI hb
      have hsub : tsub t a.lastTime = t - a.lastTime := tsub_eq ht (le_of_lt h1)
      have hadd : tadd a.lastTime d' = a.lastTime + d' := tadd_eq (by omega)
      refine ⟨hI1, ?_⟩
      rintro a2 evs2 ⟨hI2, hA2, j, hj, hle, hcnt⟩
      refine ⟨hI2, by rw [hA2, hA], j + 1, ?_, Or.inr ?_, ?_⟩
      · rw [hj, hl, hadd]
        ring
      · rcases hle with h0 | hle
        · subst h0
          rw [hj, hl, hadd]
          omega
        · exact hle
      · rw [List.countP_append, hc, hcnt, hA]
        split <;> omega)
    fuel a hI).1 a2 evs h
  obtain ⟨hI2, hA2, j, hj, hle, hcnt⟩ := key
  refine ⟨hI2, hA2, j, hj, ?_, hle, hcnt⟩
  rcases hle with h0 | hle
  · subst h0
    exact Nat.zero_le _
  · rw [Nat.le_div_iff_mul_le hd]
    omega

/-- Rule for a loop whose body never returns and never fails: with enough
fuel the call returns, having made exactly `(t - lastTime) / d` iterations. -/
theorem progressLoop_forever {D : Type} (delayOf : Animator D → Option Nat)
    (body : Animator D → Iteration D) (t d : Nat) (ht : t < 2 ^ 64) (hd : 0 < d)
    (I : Animator D → Prop)
    (hdelay : ∀ a, I a → delayOf a = some d)
    (htotal : ∀ a, I a → ∃ a1 evs, body a = .ok (a1, evs, false))
    (hstep : ∀ a a1 evs, I a → body a = .ok (a1, evs, false) →
      I a1 ∧ a1.lastTime = tadd a.lastTime d ∧ a1.onAction = a.onAction ∧
      a1.state = a.state ∧
      evs.countP Notification.isAction = (if a.onAction then 1 else 0) ∧
      evs.countP Notification.isFinish = 0) :
    ∀ (fuel : Nat) (a : Animator D), I a → a.lastTime ≤ t → (t - a.lastTime) / d < fuel →
      ∃ a2 evs, progressLoop delayOf body t fuel a = .ok (a2, evs) ∧ I a2 ∧
        a2.lastTime = a.lastTime + (t - a.lastTime) / d * d ∧ t - a2.lastTime < d ∧
        a2.state = a.state ∧
        evs.countP Notification.isAction = (if a.onAction then (t - a.lastTime) / d else 0) ∧
        evs.countP Notification.isFinish = 0 := by
  intro fuel a hI hle hf
  have hfuel := (progressLoop_fuel delayOf body t d ht hd I hdelay
    (by
      intro a e hI hb
      obtain ⟨a1, evs, h⟩ := htotal a hI
      rw [h] at hb
      simp at hb)
    (fun a a1 evs hI hb => ⟨(hstep a a1 evs hI hb).1, (hstep a a1 evs hI hb).2.1⟩)
    ((t - a.lastTime) / d) fuel a hI (le_refl _) hf).2
  have key := progressLoop_rule delayOf body t (fun a => I a ∧ a.lastTime ≤ t)
    (fun a a2 evs => I a2 ∧ a2.state = a.state ∧ a2.lastTime ≤ t ∧ t - a2.lastTime < d ∧
      evs.countP Notification.isFinish = 0 ∧
      ∃ j, a2.lastTime = a.lastTime + j * d ∧
        evs.countP Notification.isAction = (if a.onAction then j else 0))
    (fun e => e = Failure.fuel) rfl
    (by
      intro a hI _ hn
      rw [hdelay a hI.1] at hn
      simp at hn)
    (by
      intro a hI hx
      refine ⟨hI.1, rfl, hI.2, ?_, by simp, 0, by simp, by simp⟩
      rcases hx with hx | ⟨d', hd', hx⟩
      · omega
      · have hdd : d' = d := by
          have := hdelay a hI.1
          rw [hd'] at this
          exact Option.some.inj this
        subst hdd
        rw [tsub_eq ht hI.2] at hx
        exact hx)
    (by
      intro a d' e hI _ _ _ hb
      obtain ⟨a1, evs, h⟩ := htotal a hI.1
      rw [h] at hb
      simp at hb)
    (by
      intro a d' a1 evs1 hI _ _ _ hb
      obtain ⟨a1', evs', h⟩ := htotal a hI.1
      rw [h] at hb
      simp at hb)
    (by
      intro a d' a1 evs1 hI h1 hd' h2 hb
      have hdd : d' = d := by
        have := hdelay a hI.1
        rw [hd'] at this
        exact Option.some.inj this
      subst hdd
      obtain ⟨hI1, hl, hA, hs, hc, hcf⟩ := hstep a a1 evs1 hI.1 hb
      have hsub : tsub t a.lastTime = t - a.lastTime := tsub_eq ht (le_of_lt h1)
      have hadd : tadd a.lastTime d' = a.lastTime + d' := tadd_eq (by omega)
      refine ⟨⟨hI1, by rw [hl, hadd]; omega⟩, ?_⟩
      rintro a2 evs2 ⟨hI2, hs2, hle2, hlt2, hf2, j, hj, hcnt⟩
      refine ⟨hI2, by rw [hs2, hs], hle2, hlt2, ?_, j + 1, ?_, ?_⟩
      · rw [List.countP_append, hcf, hf2]
      · rw [hj, hl, hadd]
        ring
      · rw [List.countP_append, hc, hcnt, hA]
        split <;> omega)
    fuel a ⟨hI, hle⟩
  cases hp : progressLoop delayOf body t fuel a with
  | error e =>
    have := key.2 e hp
    subst this
    exact absurd hp hfuel
  | ok r =>
    obtain ⟨a2, evs⟩ := r
    obtain ⟨hI2, hs2, hle2, hlt2, hf2, j, hj, hcnt⟩ := key.1 a2 evs hp
    have hjq : (t - a.lastTime) / d = j := by
      apply Nat.div_eq_of_lt_le
      · omega
      · have : (j + 1) * d = j * d + d := by ring
        omega
    refine ⟨a2, evs, rfl, hI2, ?_, hlt2, hs2, ?_, hf2⟩
    · rw [hjq, hj]
    · rw [hjq, hcnt]

theorem countP_isAction_notifyStopped {D : Type} (a : Animator D) :
    a.NotifyStopped.countP Notification.isAction = 0 := by
  unfold Animator.NotifyStopped
  split <;> simp [Notification.isAction]

theorem countP_isFinish_notifyStopped {D : Type} (a : Animator D) :
    a.NotifyStopped.countP Notification.isFinish = (if a.onFinish then 1 else 0) := by
  unfold Animator.NotifyStopped
  split <;> simp [Notification.isFinish]

/-- The callbacks of one iteration: `onAction` once if set, then `onFinish` if
the body returned. -/
theorem stepEvents_count {D : Type} (flag stop : Bool) (mid a1 : Animator D) :
    ((if flag then [Notification.action mid] else []) ++
        (if stop then a1.NotifyStopped else [])).countP Notification.isAction
      = (if flag then 1 else 0) ∧
    ((if flag then [Notification.action mid] else []) ++
        (if stop then a1.NotifyStopped else [])).countP Notification.isFinish
      = (if stop then (if a1.onFinish then 1 else 0) else 0) := by
  constructor
  · rw [List.countP_append]
    cases flag <;> cases stop <;>
      simp [countP_isAction_notifyStopped, Notification.isAction]
  · rw [List.countP_append]
    cases flag <;> cases stop <;>
      simp [countP_isFinish_notifyStopped, Notification.isFinish]

theorem MovingAnimator.moving_delayOf_bound (a : MovingAnimator) (an : MovingAnimation)
    (hb : a.derived.anim = some an) : MovingAnimator.delayOf a = some an.delay := by
  simp [MovingAnimator.delayOf, hb]

theorem FrameRangeAnimator.frameRange_delayOf_bound (a : FrameRangeAnimator) (an : FrameRangeAnimation)
    (hb : a.derived.anim = some an) : FrameRangeAnimator.delayOf a = some an.delay := by
  simp [FrameRangeAnimator.delayOf, hb]

/-- The timing facts of one moving iteration, in the shape the loop rules take. -/
theorem MovingAnimator.moving_body_time (an : MovingAnimation) (a a1 : MovingAnimator)
    (evs : List (Notification MovingPart)) (stop : Bool) (hb : a.derived.anim = some an)
    (h : MovingAnimator.body a = .ok (a1, evs, stop)) :
    a1.derived.anim = some an ∧ a1.lastTime = tadd a.lastTime an.delay ∧
    a1.onAction = a.onAction ∧
    evs.countP Notification.isAction = (if a.onAction then 1 else 0) := by
  obtain ⟨h1, h2, h3, _, _, _, _, _, h9⟩ := MovingAnimator.moving_body_ok a a1 an evs stop hb h
  refine ⟨h1, h2, h3, ?_⟩
  rw [h9]
  exact (stepEvents_count _ _ _ _).1

/-- The timing facts of one frame-range iteration, in the shape the loop rules
take. -/
theorem FrameRangeAnimator.frameRange_body_time (an : FrameRangeAnimation) (a a1 : FrameRangeAnimator)
    (evs : List (Notification FrameRangePart)) (stop : Bool) (hb : a.derived.anim = some an)
    (h : FrameRangeAnimator.body a = .ok (a1, evs, stop)) :
    a1.derived.anim = some an ∧ a1.lastTime = tadd a.lastTime an.delay ∧
    a1.onAction = a.onAction ∧
    evs.countP Notification.isAction = (if a.onAction then 1 else 0) := by
  obtain ⟨h1, h2, h3, _, _, _, _, _, _, _, h11⟩ :=
    FrameRangeAnimator.frameRange_body_ok a a1 an evs stop hb h
  refine ⟨h1, h2, h3, ?_⟩
  rw [h11]
  exact (stepEvents_count _ _ _ _).1

theorem progressLoop_returns {D : Type} (delayOf : Animator D → Option Nat)
    (body : Animator D → Iteration D) (t d : Nat) (ht : t < 2 ^ 64) (hd : 0 < d)
    (I : Animator D → Prop)
    (hdelay : ∀ a, I a → delayOf a = some d)
    (htotal : ∀ a, I a → ∃ a1 evs stop, body a = .ok (a1, evs, stop))
    (hstep : ∀ a a1 evs stop, I a → body a = .ok (a1, evs, stop) →
      I a1 ∧ a1.lastTime = tadd a.lastTime d) :
    ∀ (fuel : Nat) (a : Animator D), I a → (t - a.lastTime) / d < fuel →
      ∃ a2 evs, progressLoop delayOf body t fuel a = .ok (a2, evs) := by
  intro fuel a hI hf
  have hne : ∀ a e, I a → body a = .error e → e ≠ Failure.fuel := by
    intro a e hI hb
    obtain ⟨a1, evs, stop, h⟩ := htotal a hI
    rw [h] at hb
    simp at hb
  have hfuel := (progressLoop_fuel delayOf body t d ht hd I hdelay hne
    (fun a a1 evs hI hb => hstep a a1 evs false hI hb)
    ((t - a.lastTime) / d) fuel a hI (le_refl _) hf).2
  have key := (progressLoop_rule delayOf body t I (fun _ _ _ => True)
    (fun e => e = Failure.fuel) rfl
    (by
      intro a hI _ hn
      rw [hdelay a hI] at hn
      simp at hn)
    (fun _ _ _ => trivial)
    (by
      intro a d' e hI _ _ _ hb
      obtain ⟨a1, evs, stop, h⟩ := htotal a hI
      rw [h] at hb
      simp at hb)
    (fun _ _ _ _ _ _ _ _ _ => trivial)
    (fun a d' a1 evs hI _ _ _ hb => ⟨(hstep a a1 evs false hI hb).1, fun _ _ _ => trivial⟩)
    fuel a hI).2
  cases hp : progressLoop delayOf body t fuel a with
  | error e =>
    have := key e hp
    subst this
    exact absurd hp hfuel
  | ok r => exact ⟨r.1, r.2, rfl⟩

theorem foldl_max_le (ts : List Nat) : ∀ x y : Nat, x ≤ y → ts.foldl max x ≤ ts.foldl max y := by
  induction ts with
  | nil => intro x y h; simpa using h
  | cons t ts ih =>
    intro x y h
    simp only [List.foldl_cons]
    exact ih _ _ (max_le_max h (le_refl t))

theorem le_foldl_max (ts : List Nat) : ∀ x : Nat, x ≤ ts.foldl max x := by
  induction ts with
  | nil => intro x; simp
  | cons t ts ih =>
    intro x
    simp only [List.foldl_cons]
    exact le_trans (le_max_left x t) (ih _)

/-- Along non-decreasing times the largest time so far is the last one. -/
theorem foldl_max_chain (ts : List Nat) : ∀ (t0 t : Nat), List.Chain (· ≤ ·) t0 ts →
    ts.getLast? = some t → ts.foldl max t0 = t := by
  induction ts with
  | nil => intro t0 t _ h; simp at h
  | cons t1 rest ih =>
    intro t0 t hc hl
    have h01 : t0 ≤ t1 := (List.chain_cons.mp hc).1
    have hc1 : List.Chain (· ≤ ·) t1 rest := (List.chain_cons.mp hc).2
    simp only [List.foldl_cons, max_eq_right h01]
    cases rest with
    | nil =>
      simp only [List.getLast?_singleton, Option.some.injEq] at hl
      simpa using hl
    | cons t2 rest2 =>
      have hl' : (t2 :: rest2).getLast? = some t := by
        rw [List.getLast?_cons_cons] at hl
        exact hl
      exact ih t1 t hc1 hl'

/-- An invariant kept by every `Progress` call (at a time satisfying `T`) is
kept by a sequence of them, and a property of the callbacks of every call holds
of all those collected. -/
theorem progressSeq_rule {D : Type} (prog : Nat → Animator D → Outcome D)
    (T : Nat → Prop) (I : Animator D → Prop) (P : Notification D → Prop)
    (hcall : ∀ t a a2 evs, T t → I a → prog t a = .ok (a2, evs) → I a2 ∧ ∀ n ∈ evs, P n) :
    ∀ (ts : List Nat) (a a2 : Animator D) (evs : List (Notification D)),
      (∀ t ∈ ts, T t) → I a →
      progressSeq prog ts a = .ok (a2, evs) → I a2 ∧ ∀ n ∈ evs, P n := by
  intro ts
  induction ts with
  | nil =>
    intro a a2 evs _ hI h
    simp only [progressSeq, Except.ok.injEq, Prod.mk.injEq] at h
    rw [← h.1, ← h.2]
    exact ⟨hI, by simp⟩
  | cons t ts ih =>
    intro a a2 evs hts hI h
    unfold progressSeq at h
    cases hp : prog t a with
    | error e => simp [hp] at h
    | ok r =>
      obtain ⟨a1, evs1⟩ := r
      simp only [hp] at h
      obtain ⟨rest, hr, he⟩ := Outcome.after_ok _ _ _ _ h
      obtain ⟨hI1, hP1⟩ := hcall t a a1 evs1 (hts t (List.mem_cons_self t ts)) hI hp
      obtain ⟨hI2, hP2⟩ :=
        ih a1 a2 rest (fun x hx => hts x (List.mem_cons_of_mem t hx)) hI1 hr
      refine ⟨hI2, ?_⟩
      rw [he]
      intro n hn
      rcases List.mem_append.mp hn with hn | hn
      · exact hP1 n hn
      · exact hP2 n hn

/-- Timing of a sequence of calls, each of which advances `lastTime` by a
multiple of `d` without passing its own time. -/
theorem progressSeq_time {D : Type} (prog : Nat → Animator D → Outcome D) (d : Nat)
    (I : Animator D → Prop)
    (hcall : ∀ t a a2 evs, t < 2 ^ 64 → I a → prog t a = .ok (a2, evs) →
      I a2 ∧ a2.onAction = a.onAction ∧
      ∃ j, a2.lastTime = a.lastTime + j * d ∧ j ≤ (t - a.lastTime) / d ∧
        (j = 0 ∨ a2.lastTime ≤ t) ∧
        evs.countP Notification.isAction = (if a.onAction then j else 0)) :
    ∀ (ts : List Nat) (a a2 : Animator D) (evs : List (Notification D)),
      (∀ t ∈ ts, t < 2 ^ 64) → I a → progressSeq prog ts a = .ok (a2, evs) →
      I a2 ∧ a2.onAction = a.onAction ∧
      ∃ j, a2.lastTime = a.lastTime + j * d ∧ a2.lastTime ≤ ts.foldl max a.lastTime ∧
        evs.countP Notification.isAction = (if a.onAction then j else 0) := by
  intro ts
  induction ts with
  | nil =>
    intro a a2 evs _ hI h
    simp only [progressSeq, Except.ok.injEq, Prod.mk.injEq] at h
    rw [← h.1, ← h.2]
    exact ⟨hI, rfl, 0, by simp, by simp, by simp⟩
  | cons t ts ih =>
    intro a a2 evs hts hI h
    unfold progressSeq at h
    cases hp : prog t a with
    | error e => simp [hp] at h
    | ok r =>
      obtain ⟨a1, evs1⟩ := r
      simp only [hp] at h
      obtain ⟨rest, hr, he⟩ := Outcome.after_ok _ _ _ _ h
      obtain ⟨hI1, hA1, j1, hj1, _, hle1, hc1⟩ :=
        hcall t a a1 evs1 (hts t (List.mem_cons_self t ts)) hI hp
      obtain ⟨hI2, hA2, j2, hj2, hle2, hc2⟩ :=
        ih a1 a2 rest (fun x hx => hts x (List.mem_cons_of_mem t hx)) hI1 hr
      refine ⟨hI2, by rw [hA2, hA1], j1 + j2, ?_, ?_, ?_⟩
      · rw [hj2, hj1]
        ring
      · simp only [List.foldl_cons]
        refine le_trans hle2 (foldl_max_le ts _ _ ?_)
        rcases hle1 with h0 | h1
        · subst h0
          rw [hj1]
          simp
        · exact le_trans h1 (le_max_right _ _)
      · rw [he, List.countP_append, hc1, hc2, hA1]
        split <;> simp

theorem MovingAnimator.counting_call (t0 : Nat) (an : MovingAnimation)
    (hfin : an.isForever = false) (hn : an.repeatCount < 2 ^ 32)
    (t fuel : Nat) (ht : t < 2 ^ 64) (a a2 : MovingAnimator)
    (evs : List (Notification MovingPart)) (hK : MovingAnimator.Counting t0 an a)
    (h : MovingAnimator.Progress t fuel a = .ok (a2, evs)) :
    MovingAnimator.Counting t0 an a2 := by
  rw [MovingAnimator.moving_eq_loop] at h
  refine (progressLoop_rule MovingAnimator.delayOf MovingAnimator.body t
    (MovingAnimator.Counting t0 an) (fun _ a2 _ => MovingAnimator.Counting t0 an a2)
    (fun _ => True) trivial (fun _ _ _ _ => trivial) (fun a hK _ => hK)
    (fun _ _ _ _ _ _ _ _ => trivial) ?_ ?_ fuel a hK).1 a2 evs h
  · intro a d a1 evs1 hK _ _ _ hb
    obtain ⟨h1, _, _, _, _, _, _, h8, _⟩ := MovingAnimator.moving_body_ok a a1 an evs1 true hK.1 hb
    refine ⟨h1, ?_⟩
    intro hs
    rw [h8] at hs
    simp at hs
  · intro a d a1 evs1 hK hlt hd h2 hb
    obtain ⟨h1, hl, _, _, _, hc, h7, h8, _⟩ :=
      MovingAnimator.moving_body_ok a a1 an evs1 false hK.1 hb
    refine ⟨⟨h1, ?_⟩, fun _ _ h => h⟩
    intro hs
    have hs0 : a.state = ANIMATOR_RUNNING := by
      rw [h8] at hs
      simpa using hs
    obtain ⟨hL, hc32, hcn⟩ := hK.2 hs0
    have hdd : d = an.delay := by
      have := MovingAnimator.moving_delayOf_bound a an hK.1
      rw [hd] at this
      exact Option.some.inj this
    subst hdd
    have hsub : tsub t a.lastTime = t - a.lastTime := tsub_eq ht (le_of_lt hlt)
    have hadd : tadd a.lastTime an.delay = a.lastTime + an.delay := tadd_eq (by omega)
    have hns : ¬ (uinc a.derived.currRep = an.repeatCount) := by
      intro hu
      have := h7.mpr ⟨hfin, hu⟩
      simp at this
    have hu : uinc a.derived.currRep = a.derived.currRep + 1 := by
      by_cases hw : a.derived.currRep + 1 < 2 ^ 32
      · exact uinc_eq hw
      · exfalso
        have hw' : a.derived.currRep + 1 = 2 ^ 32 := by omega
        have h0 : uinc a.derived.currRep = 0 := by
          unfold uinc
          rw [hw']
          simp
        rw [h0] at hns
        have hn1 : 1 ≤ an.repeatCount := by omega
        have := hcn hn1
        omega
    rw [hfin] at hc
    simp only [Bool.false_eq_true, if_false] at hc
    rw [hu] at hc hns
    refine ⟨?_, ?_, ?_⟩
    · rw [hl, hadd, hc, hL]
      ring
    · rw [hc]
      by_cases h1n : 1 ≤ an.repeatCount
      · have := hcn h1n
        omega
      · have : an.repeatCount = 0 := by omega
        by_contra hge
        have hw' : a.derived.currRep + 1 = 2 ^ 32 := by omega
        have h0 : uinc a.derived.currRep = 0 := by
          unfold uinc
          rw [hw']
          simp
        omega
    · intro h1n
      rw [hc]
      have := hcn h1n
      omega

theorem uinc_lt_of_ne {c n : Nat} (h : c < n) (hne : uinc c ≠ n) : uinc c < n := by
  by_cases hw : c + 1 < 2 ^ 32
  · rw [uinc_eq hw] at hne ⊢
    omega
  · have : uinc c < 2 ^ 32 := Nat.mod_lt _ (by positivity)
    omega

theorem FrameRangeAnimator.asserted_step (an : FrameRangeAnimation)
    (a a1 : FrameRangeAnimator) (evs : List (Notification FrameRangePart)) (stop : Bool)
    (hA : FrameRangeAnimator.Asserted an a)
    (hb : FrameRangeAnimator.body a = .ok (a1, evs, stop)) :
    FrameRangeAnimator.Asserted an a1 ∧ (stop = false → a1.state = a.state) := by
  obtain ⟨h1, _, _, _, _, _, _, h8, h9, h10, _⟩ :=
    FrameRangeAnimator.frameRange_body_ok a a1 an evs stop hA.1 hb
  refine ⟨⟨h1, ?_⟩, ?_⟩
  · intro hs
    cases stop with
    | true =>
      rw [h10] at hs
      simp at hs
    | false =>
      have hs0 : a.state = ANIMATOR_RUNNING := by
        rw [h10] at hs
        simpa using hs
      rcases hA.2 hs0 with hf | hc
      · exact Or.inl hf
      · right
        rw [h8]
        split
        · rename_i hcond
          refine uinc_lt_of_ne hc ?_
          intro hu
          have := h9.mpr ⟨hcond.1, hcond.2, hu⟩
          simp at this
        · exact hc
  · intro hst
    subst hst
    rw [h10]
    simp

theorem FrameRangeAnimator.asserted_call (an : FrameRangeAnimation) (t fuel : Nat)
    (a a2 : FrameRangeAnimator) (evs : List (Notification FrameRangePart))
    (hA : FrameRangeAnimator.Asserted an a)
    (h : FrameRangeAnimator.Progress t fuel a = .ok (a2, evs)) :
    FrameRangeAnimator.Asserted an a2 := by
  rw [FrameRangeAnimator.frameRange_eq_loop] at h
  exact (progressLoop_rule FrameRangeAnimator.delayOf FrameRangeAnimator.body t
    (FrameRangeAnimator.Asserted an) (fun _ a2 _ => FrameRangeAnimator.Asserted an a2)
    (fun _ => True) trivial (fun _ _ _ _ => trivial) (fun a hA _ => hA)
    (fun _ _ _ _ _ _ _ _ => trivial)
    (fun a _ a1 evs1 hA _ _ _ hb => (FrameRangeAnimator.asserted_step an a a1 evs1 true hA hb).1)
    (fun a _ a1 evs1 hA _ _ _ hb =>
      ⟨(FrameRangeAnimator.asserted_step an a a1 evs1 false hA hb).1, fun _ _ h => h⟩)
    fuel a hA).1 a2 evs h

theorem FrameRangeAnimator.running_never_asserts (an : FrameRangeAnimation) (t fuel : Nat)
    (a : FrameRangeAnimator) (hA : FrameRangeAnimator.Asserted an a)
    (hs : a.state = ANIMATOR_RUNNING) :
    FrameRangeAnimator.Progress t fuel a ≠ .error Failure.assertion := by
  rw [FrameRangeAnimator.frameRange_eq_loop]
  intro h
  exact (progressLoop_rule FrameRangeAnimator.delayOf FrameRangeAnimator.body t
    (fun a => FrameRangeAnimator.Asserted an a ∧ a.state = ANIMATOR_RUNNING)
    (fun _ _ _ => True) (fun e => e ≠ Failure.assertion) (by simp)
    (fun _ _ _ _ => by simp) (fun _ _ _ => trivial)
    (by
      intro a _ e hI _ _ _ hb he
      subst he
      by_cases hc : a.derived.currFrame = an.endFrame ∧ an.isForever = false ∧
          ¬ a.derived.currRep < an.repeatCount
      · rcases hI.1.2 hI.2 with hf | hlt
        · rw [hc.2.1] at hf
          simp at hf
        · exact hc.2.2 hlt
      · obtain ⟨a1, evs, stop, h'⟩ := (FrameRangeAnimator.frameRange_body_error a an hI.1.1).2 hc
        rw [h'] at hb
        simp at hb)
    (fun _ _ _ _ _ _ _ _ _ => trivial)
    (by
      intro a _ a1 evs1 hI _ _ _ hb
      obtain ⟨hA1, hst⟩ := FrameRangeAnimator.asserted_step an a a1 evs1 false hI.1 hb
      exact ⟨⟨hA1, by rw [hst rfl]; exact hI.2⟩, fun _ _ _ => trivial⟩)
    fuel a ⟨hA, hs⟩).2 Failure.assertion h rfl

theorem mem_notifyStopped {D : Type} (a : Animator D) (n : Notification D)
    (h : n ∈ a.NotifyStopped) : n = Notification.finished a := by
  unfold Animator.NotifyStopped at h
  split at h
  · simpa using h
  · simp at h

theorem stop_keeps_derived {D : Type} (a : Animator D) :
    a.Stop.1.derived = a.derived ∧ ∀ n ∈ a.Stop.2, ∃ self, n = Notification.finished self := by
  unfold Animator.Stop Animator.Finish
  split
  · exact ⟨rfl, fun n hn => ⟨_, mem_notifyStopped _ n hn⟩⟩
  · exact ⟨rfl, by simp⟩

theorem FrameRangeAnimator.inRange_step (an : FrameRangeAnimation)
    (hse : an.startFrame ≤ an.endFrame) (he : an.endFrame < 2 ^ 32)
    (a a1 : FrameRangeAnimator) (evs : List (Notification FrameRangePart)) (stop : Bool)
    (hI : FrameRangeAnimator.InRange an a)
    (hb : FrameRangeAnimator.body a = .ok (a1, evs, stop)) :
    FrameRangeAnimator.InRange an a1 ∧ ∀ n ∈ evs, Notification.frameWithin an n := by
  obtain ⟨h1, _, _, _, _, _, h7, _, _, _, h11⟩ :=
    FrameRangeAnimator.frameRange_body_ok a a1 an evs stop hI.1 hb
  have hr : an.startFrame ≤ a1.derived.currFrame ∧ a1.derived.currFrame ≤ an.endFrame := by
    rw [h7]
    split
    · exact ⟨le_refl _, hse⟩
    · rename_i hne
      have hlt : a.derived.currFrame < an.endFrame := lt_of_le_of_ne hI.2.2 hne
      rw [uinc_eq (by omega)]
      exact ⟨by have := hI.2.1; omega, hlt⟩
  refine ⟨⟨h1, hr⟩, ?_⟩
  rw [h11]
  intro n hn
  rcases List.mem_append.mp hn with hn | hn
  · split at hn
    · simp only [List.mem_singleton] at hn
      subst hn
      exact hr
    · simp at hn
  · split at hn
    · rw [mem_notifyStopped _ n hn]
      trivial
    · simp at hn

theorem FrameRangeAnimator.inRange_call (an : FrameRangeAnimation)
    (hse : an.startFrame ≤ an.endFrame) (he : an.endFrame < 2 ^ 32)
    (a a2 : FrameRangeAnimator) (op : FrameOp) (evs : List (Notification FrameRangePart))
    (hI : FrameRangeAnimator.InRange an a) (h : a.call op = .ok (a2, evs)) :
    FrameRangeAnimator.InRange an a2 ∧ ∀ n ∈ evs, Notification.frameWithin an n := by
  cases op with
  | Progress t fuel =>
    simp only [FrameRangeAnimator.call] at h
    rw [FrameRangeAnimator.frameRange_eq_loop] at h
    refine (progressLoop_rule FrameRangeAnimator.delayOf FrameRangeAnimator.body t
      (FrameRangeAnimator.InRange an)
      (fun _ a2 evs => FrameRangeAnimator.InRange an a2 ∧
        ∀ n ∈ evs, Notification.frameWithin an n)
      (fun _ => True) trivial (fun _ _ _ _ => trivial) (fun a hI _ => ⟨hI, by simp⟩)
      (fun _ _ _ _ _ _ _ _ => trivial)
      (fun a _ a1 evs1 hI _ _ _ hb =>
        FrameRangeAnimator.inRange_step an hse he a a1 evs1 true hI hb)
      ?_ fuel a hI).1 a2 evs h
    intro a _ a1 evs1 hI _ _ _ hb
    obtain ⟨hI1, hP1⟩ := FrameRangeAnimator.inRange_step an hse he a a1 evs1 false hI hb
    refine ⟨hI1, ?_⟩
    rintro a2 evs2 ⟨hI2, hP2⟩
    refine ⟨hI2, ?_⟩
    intro n hn
    rcases List.mem_append.mp hn with hn | hn
    · exact hP1 n hn
    · exact hP2 n hn
  | TimeShift off =>
    simp only [FrameRangeAnimator.call, Animator.TimeShift, Except.ok.injEq, Prod.mk.injEq] at h
    rw [← h.1, ← h.2]
    exact ⟨hI, by simp⟩
  | Stop =>
    simp only [FrameRangeAnimator.call, Except.ok.injEq] at h
    obtain ⟨hd, hev⟩ := stop_keeps_derived a
    rw [h] at hd hev
    refine ⟨⟨by rw [hd]; exact hI.1, by rw [hd]; exact hI.2.1, by rw [hd]; exact hI.2.2⟩, ?_⟩
    intro n hn
    obtain ⟨self, rfl⟩ := hev n hn
    trivial

/-- Quotient and remainder of a successor. -/
theorem succ_div_mod (x m : Nat) (hm : 0 < m) :
    ((x + 1) % m = if x % m + 1 = m then 0 else x % m + 1) ∧
    ((x + 1) / m = if x % m + 1 = m then x / m + 1 else x / m) := by
  have hdm := Nat.div_add_mod x m
  have hlt := Nat.mod_lt x hm
  by_cases h : x % m + 1 = m
  · simp only [h, if_true]
    have hx : x + 1 = m * (x / m + 1) := by
      rw [Nat.mul_add, Nat.mul_one]
      omega
    rw [hx]
    constructor
    · exact Nat.mul_mod_right _ _
    · exact Nat.mul_div_cancel_left _ hm
  · simp only [h, if_false]
    have hx : x + 1 = (x % m + 1) + m * (x / m) := by omega
    have hlt' : x % m + 1 < m := by omega
    constructor
    · conv_lhs => rw [hx]
      rw [Nat.add_mul_mod_self_left]
      exact Nat.mod_eq_of_lt hlt'
    · conv_lhs => rw [hx]
      rw [Nat.add_mul_div_left _ _ hm, Nat.div_eq_of_lt hlt']
      simp

namespace FrameRangeAnimator

theorem frameCount_ge (an : FrameRangeAnimation) (h : an.Finite) : 2 ≤ frameCount an := by
  have := h.frames
  unfold frameCount
  omega

theorem totalActions_ge (an : FrameRangeAnimation) (h : an.Finite) :
    frameCount an ≤ totalActions an := by
  unfold totalActions
  exact Nat.le_mul_of_pos_left _ h.reps

/-- One step of the loop body from the state `j` steps after `Start`. -/
theorem body_frameAt (an : FrameRangeAnimation) (h : an.Finite) (a : FrameRangeAnimator)
    (j : Nat) (hj : j + 1 < totalActions an)
    (hno : a.lastTime + (j + 1) * an.delay < 2 ^ 64) :
    FrameRangeAnimator.body (frameAt an a j) =
      .ok (frameAt an a (j + 1),
        (if a.onAction then [Notification.action (frameDuring an a (j + 1))] else []) ++
          (if j + 2 = totalActions an then (frameAt an a (j + 1)).NotifyStopped else []),
        decide (j + 2 = totalActions an)) := by
  have hm2 := frameCount_ge an h
  have hm : 0 < frameCount an := by omega
  have hfc : an.endFrame = an.startFrame + (frameCount an - 1) := by
    have := h.frames
    unfold frameCount
    omega
  have hN : totalActions an = an.repeatCount * frameCount an := rfl
  obtain ⟨hmod1, hdiv1⟩ := succ_div_mod j (frameCount an) hm
  obtain ⟨hmod2, hdiv2⟩ := succ_div_mod (j + 1) (frameCount an) hm
  have hrlt := Nat.mod_lt j hm
  have hrlt1 := Nat.mod_lt (j + 1) hm
  have hb : (frameAt an a j).derived.anim = some an := rfl
  -- the counter is below `repeatCount` while steps remain
  have hrep : (j + 1) / frameCount an < an.repeatCount := by
    rw [Nat.div_lt_iff_lt_mul hm]
    rw [hN] at hj
    omega
  have hrep2 : (j + 2) / frameCount an ≤ an.repeatCount := by
    have hle : j + 2 ≤ an.repeatCount * frameCount an := by rw [hN] at hj; omega
    calc (j + 2) / frameCount an ≤ an.repeatCount * frameCount an / frameCount an :=
          Nat.div_le_div_right hle
      _ = an.repeatCount := Nat.mul_div_cancel _ hm
  have hok : ¬ ((frameAt an a j).derived.currFrame = an.endFrame ∧ an.isForever = false ∧
      ¬ (frameAt an a j).derived.currRep < an.repeatCount) := by
    rintro ⟨_, _, hc⟩
    exact hc hrep
  obtain ⟨a1, evs, stop, hbody⟩ := (frameRange_body_error (frameAt an a j) an hb).2 hok
  obtain ⟨h1, h2, h3, h4, h5, _, h7, h8, h9, h10, h11⟩ :=
    frameRange_body_ok (frameAt an a j) a1 an evs stop hb hbody
  have hj1 : j + 1 ≠ totalActions an := by omega
  -- the new frame
  have hframe : a1.derived.currFrame = an.startFrame + (j + 1) % frameCount an := by
    rw [h7]
    simp only [frameAt]
    by_cases hr : j % frameCount an + 1 = frameCount an
    · have : an.startFrame + j % frameCount an = an.endFrame := by omega
      rw [if_pos this, hmod1, if_pos hr]
      simp
    · have hne : an.startFrame + j % frameCount an ≠ an.endFrame := by omega
      rw [if_neg hne, hmod1, if_neg hr]
      have hend := h.endFrame
      rw [uinc_eq (by omega)]
      omega
  have hend_iff : a1.derived.currFrame = an.endFrame ↔
      (j + 1) % frameCount an + 1 = frameCount an := by
    rw [hframe]
    omega
  -- the new counter
  have hcount : a1.derived.currRep = (j + 2) / frameCount an := by
    rw [h8]
    simp only [frameAt]
    have hrb := h.repsBound
    by_cases hr : (j + 1) % frameCount an + 1 = frameCount an
    · rw [if_pos ⟨hend_iff.mpr hr, h.notForever⟩, hdiv2, if_pos hr]
      exact uinc_eq (by omega)
    · have : ¬ (a1.derived.currFrame = an.endFrame ∧ an.isForever = false) :=
        fun hc => hr (hend_iff.mp hc.1)
      rw [if_neg this, hdiv2, if_neg hr]
  have hstop : stop = decide (j + 2 = totalActions an) := by
    have hiff : stop = true ↔ j + 2 = totalActions an := by
      rw [h9, hend_iff]
      simp only [frameAt]
      have hrb := h.repsBound
      have hu : uinc ((j + 1) / frameCount an) = (j + 1) / frameCount an + 1 :=
        uinc_eq (by omega)
      rw [hu]
      have hdm := Nat.div_add_mod (j + 1) (frameCount an)
      constructor
      · rintro ⟨hr, _, hq⟩
        rw [hN]
        have : frameCount an * ((j + 1) / frameCount an + 1)
            = frameCount an * ((j + 1) / frameCount an) + frameCount an := by ring
        rw [← hq, Nat.mul_comm]
        omega
      · intro hjN
        have hmod0 : (j + 2) % frameCount an = 0 := by
          rw [hjN, hN]
          exact Nat.mul_mod_left _ _
        have hr : (j + 1) % frameCount an + 1 = frameCount an := by
          by_contra hne
          rw [hmod2, if_neg hne] at hmod0
          omega
        refine ⟨hr, h.notForever, ?_⟩
        have hq : (j + 2) / frameCount an = an.repeatCount := by
          rw [hjN, hN]
          exact Nat.mul_div_cancel _ hm
        rw [hdiv2, if_pos hr] at hq
        exact hq
    cases stop with
    | true => simp [hiff.mp rfl]
    | false =>
      have : ¬ (j + 2 = totalActions an) := fun hc => by simpa using hiff.mpr hc
      simp [this]
  have ha1 : a1 = frameAt an a (j + 1) := by
    have hl : a1.lastTime = a.lastTime + (j + 1) * an.delay := by
      rw [h2]
      simp only [frameAt]
      have : a.lastTime + j * an.delay + an.delay = a.lastTime + (j + 1) * an.delay := by ring
      rw [tadd_eq (by omega), this]
    have hst : a1.state = if j + 1 + 1 = totalActions an then ANIMATOR_FINISHED else a.state := by
      rw [h10, hstop]
      simp only [frameAt, if_neg hj1]
      by_cases hc : j + 2 = totalActions an
      · simp [hc]
      · simp [hc]
    cases a1 with
    | mk lt st f1 f2 f3 der =>
      cases der with
      | mk anm cf cr =>
        simp only at h1 h3 h4 h5 hl hst hframe hcount
        simp only [frameAt] at h3 h4 h5
        simp only [frameAt, Animator.mk.injEq, FrameRangePart.mk.injEq]
        exact ⟨hl, hst, h4, h5, h3, h1, hframe, hcount⟩
  rw [hbody, ha1, hstop]
  have hev : evs = (if a.onAction then [Notification.action (frameDuring an a (j + 1))] else []) ++
      (if j + 2 = totalActions an then (frameAt an a (j + 1)).NotifyStopped else []) := by
    rw [h11, ha1, hstop]
    have hta : tadd (a.lastTime + j * an.delay) an.delay = a.lastTime + (j + 1) * an.delay := by
      have : a.lastTime + j * an.delay + an.delay = a.lastTime + (j + 1) * an.delay := by ring
      rw [tadd_eq (by omega), this]
    by_cases hc : j + 2 = totalActions an <;>
      simp [hc, frameAt, frameDuring, hj1, hta]
  rw [hev]

/-- A due step is one run of the loop body; a body that returns ends the call. -/
theorem Progress_step (an : FrameRangeAnimation) (a : FrameRangeAnimator) (t fuel : Nat)
    (hb : a.derived.anim = some an) (h1 : t > a.lastTime)
    (h2 : tsub t a.lastTime ≥ an.delay) :
    FrameRangeAnimator.Progress t (fuel + 1) a =
      match FrameRangeAnimator.body a with
      | .error e => .error e
      | .ok (a1, evs, true) => .ok (a1, evs)
      | .ok (a1, evs, false) => (FrameRangeAnimator.Progress t fuel a1).after evs := by
  rw [FrameRangeAnimator.frameRange_eq_loop]
  conv_lhs => unfold progressLoop
  simp only [h1, if_true, FrameRangeAnimator.frameRange_delayOf_bound a an hb, h2]
  cases hbd : FrameRangeAnimator.body a with
  | error e => rfl
  | ok r =>
    obtain ⟨a1, evs, stop⟩ := r
    cases stop with
    | true => rfl
    | false =>
      simp only []
      rw [FrameRangeAnimator.frameRange_eq_loop]

theorem frameTrace_succ (an : FrameRangeAnimation) (a : FrameRangeAnimator) (j k : Nat) :
    (if a.onAction then [Notification.action (frameDuring an a (j + 1))] else []) ++
        frameTrace an a (j + 1) k = frameTrace an a j (k + 1) := by
  unfold frameTrace
  have e1 : j + 1 + k + 1 = j + (k + 1) + 1 := by ring
  have e2 : j + 1 + k = j + (k + 1) := by ring
  rw [e1, e2]
  have hfun : (fun i => Notification.action (frameDuring an a (j + 1 + 1 + i)))
      = (fun i => Notification.action (frameDuring an a (j + 1 + (i + 1)))) := by
    funext i
    have : j + 1 + 1 + i = j + 1 + (i + 1) := by ring
    rw [this]
  by_cases hA : a.onAction = true
  · rw [if_pos hA, if_pos hA, if_pos hA, List.range_succ_eq_map, hfun]
    simp [List.map_map, Function.comp_def]
  · simp [hA]

/-- A run of exactly `k` due steps from the state `j` steps after `Start`. -/
theorem frame_run (an : FrameRangeAnimation) (h : an.Finite) (a : FrameRangeAnimator)
    (t : Nat) (ht : t < 2 ^ 64) :
    ∀ (k j fuel : Nat), j + k + 1 ≤ totalActions an → j + 1 < totalActions an →
      (k ≠ 0 → a.lastTime + (j + k) * an.delay ≤ t) →
      (j + k + 1 = totalActions an ∨ t < a.lastTime + (j + k + 1) * an.delay) →
      k < fuel →
      FrameRangeAnimator.Progress t fuel (frameAt an a j)
        = .ok (frameAt an a (j + k), frameTrace an a j k) := by
  intro k
  induction k with
  | zero =>
    intro j fuel _ hj _ hor hf
    obtain ⟨f, rfl⟩ : ∃ f, fuel = f + 1 := ⟨fuel - 1, by omega⟩
    have hlt : t < a.lastTime + (j + 1) * an.delay := by
      rcases hor with h0 | h0
      · omega
      · simpa using h0
    have hexp : a.lastTime + (j + 1) * an.delay = a.lastTime + j * an.delay + an.delay := by
      ring
    have htr : frameTrace an a j 0 = [] := by
      have : j + 0 + 1 ≠ totalActions an := by omega
      simp [frameTrace, this]
    rw [htr]
    refine frameRange_not_due (frameAt an a j) t f ?_
    by_cases h1 : t ≤ a.lastTime + j * an.delay
    · exact Or.inl h1
    · right
      refine ⟨an, rfl, ?_⟩
      have hL : (frameAt an a j).lastTime = a.lastTime + j * an.delay := rfl
      rw [hL, tsub_eq ht (by omega)]
      omega
  | succ k ih =>
    intro j fuel hjk hj hle hor hf
    obtain ⟨f, rfl⟩ : ∃ f, fuel = f + 1 := ⟨fuel - 1, by omega⟩
    have hd := h.delay
    have hle' := hle (by omega)
    have hexp : a.lastTime + (j + (k + 1)) * an.delay
        = a.lastTime + j * an.delay + an.delay + k * an.delay := by ring
    have hkd : 0 ≤ k * an.delay := Nat.zero_le _
    have hL : (frameAt an a j).lastTime = a.lastTime + j * an.delay := rfl
    have h1 : t > (frameAt an a j).lastTime := by rw [hL]; omega
    have h2 : tsub t (frameAt an a j).lastTime ≥ an.delay := by
      rw [hL, tsub_eq ht (by omega)]
      omega
    have hno : a.lastTime + (j + 1) * an.delay < 2 ^ 64 := by
      have : a.lastTime + (j + 1) * an.delay = a.lastTime + j * an.delay + an.delay := by ring
      omega
    rw [Progress_step an (frameAt an a j) t f rfl h1 h2, body_frameAt an h a j hj hno]
    by_cases hc : j + 2 = totalActions an
    · have hk0 : k = 0 := by omega
      subst hk0
      simp only [hc, decide_True]
      have htr : frameTrace an a j (0 + 1)
          = (if a.onAction then [Notification.action (frameDuring an a (j + 1))] else []) ++
            (frameAt an a (j + 1)).NotifyStopped := by
        have e : j + (0 + 1) + 1 = totalActions an := by omega
        unfold frameTrace
        rw [if_pos e]
        by_cases hA : a.onAction = true <;> simp [hA, List.range_succ]
      rw [htr]
      simp
    · simp only [hc, decide_False, if_false, List.append_nil]
      have hrec := ih (j + 1) f (by omega) (by omega)
        (by
          intro _
          have : a.lastTime + (j + 1 + k) * an.delay
              = a.lastTime + (j + (k + 1)) * an.delay := by ring
          omega)
        (by
          rcases hor with h0 | h0
          · left
            omega
          · right
            have : a.lastTime + (j + 1 + k + 1) * an.delay
                = a.lastTime + (j + (k + 1) + 1) * an.delay := by ring
            omega)
        (by omega)
      rw [hrec]
      have e : j + 1 + k = j + (k + 1) := by ring
      simp only [Outcome.after, e, frameTrace_succ]

theorem frameTrace_append (an : FrameRangeAnimation) (a : FrameRangeAnimator) (j k k1 : Nat)
    (hk : j + k + 1 ≠ totalActions an) :
    frameTrace an a j k ++ frameTrace an a (j + k) k1 = frameTrace an a j (k + k1) := by
  unfold frameTrace
  have e1 : j + k + k1 + 1 = j + (k + k1) + 1 := by ring
  have e2 : j + k + k1 = j + (k + k1) := by ring
  have hfun : (fun i => Notification.action (frameDuring an a (j + k + 1 + i)))
      = (fun i => Notification.action (frameDuring an a (j + 1 + (k + i)))) := by
    funext i
    have : j + k + 1 + i = j + 1 + (k + i) := by ring
    rw [this]
  rw [if_neg hk, e1, e2, hfun]
  by_cases hA : a.onAction = true
  · simp [hA, List.range_add, List.map_map, Function.comp_def]
  · simp [hA]

theorem progressUntilFinished_done (fuel : Nat) (ts : List Nat) (a : FrameRangeAnimator)
    (h : a.HasFinished = true) : progressUntilFinished fuel ts a = .ok (a, []) := by
  cases ts with
  | nil => rfl
  | cons t ts => simp [progressUntilFinished, h]

/-- `Progress` calls at the times `ts`, one of them not before the completion
time, from the state `j` steps after `Start`: the animator ends in the final
state and the callbacks are those of the remaining steps, however the time is
split over the calls. -/
theorem frame_calls (an : FrameRangeAnimation) (h : an.Finite) (a : FrameRangeAnimator)
    (hs : a.state = ANIMATOR_RUNNING) (fuel : Nat) (hfuel : totalActions an ≤ fuel) :
    ∀ (ts : List Nat) (j : Nat), j + 1 < totalActions an → (∀ t ∈ ts, t < 2 ^ 64) →
      (∃ t ∈ ts, a.lastTime + (totalActions an - 1) * an.delay ≤ t) →
      progressUntilFinished fuel ts (frameAt an a j)
        = .ok (frameAt an a (totalActions an - 1),
            frameTrace an a j (totalActions an - 1 - j)) := by
  intro ts
  induction ts with
  | nil =>
    intro j _ _ hex
    obtain ⟨t, ht, _⟩ := hex
    simp at ht
  | cons t ts ih =>
    intro j hj hts hex
    have hd := h.delay
    have ht : t < 2 ^ 64 := hts t (List.mem_cons_self t ts)
    have hrun : (frameAt an a j).HasFinished = false := by
      have : j + 1 ≠ totalActions an := by omega
      simp [frameAt, Animator.HasFinished, this, hs]
    unfold progressUntilFinished
    simp only [hrun, Bool.false_eq_true, if_false]
    -- the number of steps this call makes
    have hq1 : (t - (a.lastTime + j * an.delay)) / an.delay * an.delay
        ≤ t - (a.lastTime + j * an.delay) := Nat.div_mul_le_self _ _
    have hq2 : t - (a.lastTime + j * an.delay)
        < ((t - (a.lastTime + j * an.delay)) / an.delay + 1) * an.delay := by
      have := Nat.lt_div_mul_add (a := t - (a.lastTime + j * an.delay)) hd
      calc t - (a.lastTime + j * an.delay)
          < (t - (a.lastTime + j * an.delay)) / an.delay * an.delay + an.delay := this
        _ = ((t - (a.lastTime + j * an.delay)) / an.delay + 1) * an.delay := by ring
    obtain ⟨k, hkdef⟩ : ∃ k, k = min ((t - (a.lastTime + j * an.delay)) / an.delay)
        (totalActions an - 1 - j) := ⟨_, rfl⟩
    have hkq : k ≤ (t - (a.lastTime + j * an.delay)) / an.delay := by
      rw [hkdef]; exact min_le_left _ _
    have hkn : k ≤ totalActions an - 1 - j := by
      rw [hkdef]; exact min_le_right _ _
    have hkd : k * an.delay ≤ (t - (a.lastTime + j * an.delay)) / an.delay * an.delay :=
      Nat.mul_le_mul_right _ hkq
    have hexp : a.lastTime + (j + k) * an.delay = a.lastTime + j * an.delay + k * an.delay := by
      ring
    have hexp1 : a.lastTime + (j + k + 1) * an.delay
        = a.lastTime + j * an.delay + (k + 1) * an.delay := by ring
    have hcases : k = totalActions an - 1 - j ∨
        (k = (t - (a.lastTime + j * an.delay)) / an.delay ∧ k < totalActions an - 1 - j) := by
      rcases Nat.le_total ((t - (a.lastTime + j * an.delay)) / an.delay)
          (totalActions an - 1 - j) with hle | hle
      · rcases Nat.eq_or_lt_of_le hkn with he | hlt
        · exact Or.inl he
        · exact Or.inr ⟨by rw [hkdef]; exact min_eq_left hle, hlt⟩
      · exact Or.inl (by rw [hkdef]; exact min_eq_right hle)
    have hcall := frame_run an h a t ht k j fuel (by omega) hj
      (by
        intro hk0
        have hpos : 0 < k * an.delay := Nat.mul_pos (Nat.pos_of_ne_zero hk0) hd
        omega)
      (by
        rcases hcases with he | ⟨he, hlt⟩
        · left
          omega
        · right
          rw [he] at hexp1 ⊢
          omega)
      (by omega)
    rw [hcall]
    simp only []
    rcases hcases with he | ⟨he, hlt⟩
    · have hfin : (frameAt an a (j + k)).HasFinished = true := by
        have : j + k + 1 = totalActions an := by omega
        simp [frameAt, Animator.HasFinished, this]
      rw [progressUntilFinished_done fuel ts _ hfin]
      have e1 : j + k = totalActions an - 1 := by omega
      simp only [Outcome.after, List.append_nil]
      rw [e1, he]
    · have hnot : ¬ (a.lastTime + (totalActions an - 1) * an.delay ≤ t) := by
        have hk1 : (k + 1) * an.delay ≤ (totalActions an - 1 - j) * an.delay :=
          Nat.mul_le_mul_right _ hlt
        have hsplit : a.lastTime + (totalActions an - 1) * an.delay
            = a.lastTime + j * an.delay + (totalActions an - 1 - j) * an.delay := by
          have : totalActions an - 1 = j + (totalActions an - 1 - j) := by omega
          conv_lhs => rw [this]
          ring
        rw [he] at hk1
        omega
      have hex' : ∃ t1 ∈ ts, a.lastTime + (totalActions an - 1) * an.delay ≤ t1 := by
        obtain ⟨t1, hmem, hle⟩ := hex
        rcases List.mem_cons.mp hmem with rfl | hmem
        · exact absurd hle hnot
        · exact ⟨t1, hmem, hle⟩
      rw [ih (j + k) (by omega) (fun x hx => hts x (List.mem_cons_of_mem t hx)) hex']
      have e2 : k + (totalActions an - 1 - (j + k)) = totalActions an - 1 - j := by omega
      simp only [Outcome.after]
      rw [frameTrace_append an a j k _ (by omega), e2]

end FrameRangeAnimator

theorem actionFrames_append (l1 l2 : List (Notification FrameRangePart)) :
    actionFrames (l1 ++ l2) = actionFrames l1 ++ actionFrames l2 := by
  induction l1 with
  | nil => rfl
  | cons n l ih =>
    cases n <;> simp [actionFrames, ih]

theorem actionFrames_map_action (g : Nat → FrameRangeAnimator) (l : List Nat) :
    actionFrames (l.map (fun i => Notification.action (g i)))
      = l.map (fun i => (g i).derived.currFrame) := by
  induction l with
  | nil => rfl
  | cons i l ih => simp [actionFrames, ih]

theorem actionFrames_notifyStopped (a : FrameRangeAnimator) :
    actionFrames a.NotifyStopped = [] := by
  unfold Animator.NotifyStopped
  split <;> rfl

theorem actionFrames_notifyStarted (a : FrameRangeAnimator) :
    actionFrames a.NotifyStarted = [] := by
  unfold Animator.NotifyStarted
  split <;> rfl

namespace FrameRangeAnimator

theorem totalActions_mod (an : FrameRangeAnimation) (h : an.Finite) :
    (totalActions an - 1) % frameCount an = frameCount an - 1 ∧
    totalActions an / frameCount an = an.repeatCount ∧ 2 ≤ totalActions an := by
  have hm2 := frameCount_ge an h
  have hm : 0 < frameCount an := by omega
  have hN : totalActions an = an.repeatCount * frameCount an := rfl
  have hn := h.reps
  refine ⟨?_, ?_, ?_⟩
  · have : totalActions an - 1 = (frameCount an - 1) + frameCount an * (an.repeatCount - 1) := by
      have h1 : an.repeatCount = (an.repeatCount - 1) + 1 := by omega
      have h2 : an.repeatCount * frameCount an
          = frameCount an * (an.repeatCount - 1) + frameCount an := by
        conv_lhs => rw [h1]
        ring
      rw [hN, h2]
      omega
    rw [this, Nat.add_mul_mod_self_left]
    exact Nat.mod_eq_of_lt (by omega)
  · rw [hN]
    exact Nat.mul_div_cancel _ hm
  · have := totalActions_ge an h
    omega

/-- The frames of the `onAction` notifications of the steps `1, ..., k`. -/
theorem actionFrames_frameTrace (an : FrameRangeAnimation) (a : FrameRangeAnimator) (k : Nat)
    (hA : a.onAction = true) :
    actionFrames (frameTrace an a 0 k)
      = (List.range k).map (fun i => an.startFrame + (i + 1) % frameCount an) := by
  unfold frameTrace
  rw [actionFrames_append, if_pos hA, actionFrames_map_action]
  have h2 : actionFrames (if 0 + k + 1 = totalActions an
      then (frameAt an a (0 + k)).NotifyStopped else []) = [] := by
    split
    · exact actionFrames_notifyStopped _
    · rfl
  rw [h2, List.append_nil]
  apply List.map_congr_left
  intro i _
  simp only [frameDuring]
  have : 0 + 1 + i = i + 1 := by ring
  rw [this]

theorem countP_frameTrace (an : FrameRangeAnimation) (a : FrameRangeAnimator) (j k : Nat) :
    (frameTrace an a j k).countP Notification.isAction = (if a.onAction then k else 0) ∧
    (frameTrace an a j k).countP Notification.isFinish
      = (if j + k + 1 = totalActions an then (if a.onFinish then 1 else 0) else 0) := by
  unfold frameTrace
  have hact : ∀ l : List Nat, (l.map (fun i => Notification.action
      (frameDuring an a (j + 1 + i)))).countP Notification.isAction = l.length := by
    intro l
    rw [List.countP_eq_length.mpr]
    · simp
    · intro x hx
      obtain ⟨i, _, rfl⟩ := List.mem_map.mp hx
      rfl
  have hfinA : ∀ l : List Nat, (l.map (fun i => Notification.action
      (frameDuring an a (j + 1 + i)))).countP Notification.isFinish = 0 := by
    intro l
    rw [List.countP_eq_zero]
    intro x hx
    obtain ⟨i, _, rfl⟩ := List.mem_map.mp hx
    simp [Notification.isFinish]
  constructor
  · rw [List.countP_append]
    by_cases hA : a.onAction = true <;> by_cases hc : j + k + 1 = totalActions an <;>
      simp [hA, hc, hact, countP_isAction_notifyStopped]
  · rw [List.countP_append]
    have hF : (frameAt an a (j + k)).onFinish = a.onFinish := rfl
    by_cases hA : a.onAction = true <;> by_cases hc : j + k + 1 = totalActions an <;>
      simp [hA, hc, hfinA, countP_isFinish_notifyStopped, hF]

end FrameRangeAnimator

/-! ## `Progress` never reads `state` -/

theorem Outcome.restate_after {D : Type} (s : animatorstate_t) (pre : List (Notification D))
    (o : Outcome D) :
    Outcome.restate s (o.after pre)
      = (Outcome.restate s o).after (pre.map (Notification.restate s)) := by
  cases o with
  | error e => rfl
  | ok r =>
    obtain ⟨a, evs⟩ := r
    simp [Outcome.restate, Outcome.after]

theorem notifyAction_restate {D : Type} (a : Animator D) (s : animatorstate_t)
    (h : a.state = ANIMATOR_RUNNING) :
    a.NotifyAction.map (Notification.restate s)
      = ({ a with state := s } : Animator D).NotifyAction := by
  unfold Animator.NotifyAction
  by_cases hA : a.onAction = true
  · simp [hA, Notification.restate, Animator.restate, h]
  · simp [hA]

theorem notifyStopped_restate {D : Type} (a : Animator D) (s : animatorstate_t)
    (h : a.state = ANIMATOR_FINISHED) :
    a.NotifyStopped.map (Notification.restate s) = a.NotifyStopped := by
  unfold Animator.NotifyStopped
  by_cases hA : a.onFinish = true
  · simp [hA, Notification.restate, Animator.restate, h]
  · simp [hA]

/-- `MovingAnimator::Progress` never reads `state`: on any animator it does
what it does on the running twin, the state member apart. -/
theorem MovingAnimator.moving_state_blind (t : Nat) : ∀ (fuel : Nat) (a : MovingAnimator),
    MovingAnimator.Progress t fuel a
      = Outcome.restate a.state (MovingAnimator.Progress t fuel a.asRunning) := by
  intro fuel
  induction fuel with
  | zero => intro a; rfl
  | succ fuel ih =>
    intro a
    obtain ⟨L, s, oF, oS, oA, ⟨an, c⟩⟩ := a
    unfold MovingAnimator.Progress
    simp only [Animator.asRunning]
    by_cases h1 : t > L
    · simp only [h1, if_true]
      cases an with
      | none => rfl
      | some an =>
        simp only []
        by_cases h2 : tsub t L ≥ an.delay
        · simp only [h2, if_true]
          by_cases hf : an.isForever = true
          · simp only [hf, Bool.not_true, Bool.false_eq_true, if_false]
            rw [ih, Outcome.restate_after, notifyAction_restate _ _ rfl]
            rfl
          · have hf0 : an.isForever = false := by simpa using hf
            simp only [hf0, Bool.not_false, if_true]
            by_cases hr : uinc c = an.repeatCount
            · simp only [hr, if_true]
              simp only [Outcome.restate, List.map_append]
              rw [notifyAction_restate _ _ rfl, notifyStopped_restate _ _ rfl]
              rfl
            · simp only [hr, if_false]
              rw [ih, Outcome.restate_after, notifyAction_restate _ _ rfl]
              rfl
        · simp [h2, Outcome.restate, Animator.restate]
    · simp [h1, Outcome.restate, Animator.restate]

/-- `FrameRangeAnimator::Progress` never reads `state`: on any animator it does
what it does on the running twin, the `assert` included, the state member
apart. -/
theorem FrameRangeAnimator.frameRange_state_blind (t : Nat) :
    ∀ (fuel : Nat) (a : FrameRangeAnimator),
    FrameRangeAnimator.Progress t fuel a
      = Outcome.restate a.state (FrameRangeAnimator.Progress t fuel a.asRunning) := by
  intro fuel
  induction fuel with
  | zero => intro a; rfl
  | succ fuel ih =>
    intro a
    obtain ⟨L, s, oF, oS, oA, ⟨an, f, c⟩⟩ := a
    unfold FrameRangeAnimator.Progress
    simp only [Animator.asRunning]
    by_cases h1 : t > L
    · simp only [h1, if_true]
      cases an with
      | none => rfl
      | some an =>
        simp only []
        by_cases h2 : tsub t L ≥ an.delay
        · simp only [h2, if_true]
          unfold FrameRangeAnimator.nextFrame
          simp only []
          by_cases he : f = an.endFrame
          · simp only [he, if_true]
            by_cases hg : (an.isForever || decide (c < an.repeatCount)) = true
            · simp only [hg, if_true]
              by_cases h3 : an.startFrame = an.endFrame
              · simp only [h3, if_true]
                by_cases hf : an.isForever = true
                · simp only [hf, Bool.not_true, Bool.false_eq_true, if_false]
                  rw [ih, Outcome.restate_after, notifyAction_restate _ _ rfl]
                  rfl
                · have hf0 : an.isForever = false := by simpa using hf
                  simp only [hf0, Bool.not_false, if_true]
                  by_cases hr : uinc c = an.repeatCount
                  · simp only [hr, if_true]
                    simp only [Outcome.restate, List.map_append]
                    rw [notifyAction_restate _ _ rfl, notifyStopped_restate _ _ rfl]
                    rfl
                  · simp only [hr, if_false]
                    rw [ih, Outcome.restate_after, notifyAction_restate _ _ rfl]
                    rfl
              · simp only [h3, if_false]
                rw [ih, Outcome.restate_after, notifyAction_restate _ _ rfl]
                rfl
            · simp only [hg, if_false]
              rfl
          · simp only [he, if_false]
            by_cases h3 : uinc f = an.endFrame
            · simp only [h3, if_true]
              by_cases hf : an.isForever = true
              · simp only [hf, Bool.not_true, Bool.false_eq_true, if_false]
                rw [ih, Outcome.restate_after, notifyAction_restate _ _ rfl]
                rfl
              · have hf0 : an.isForever = false := by simpa using hf
                simp only [hf0, Bool.not_false, if_true]
                by_cases hr : uinc c = an.repeatCount
                · simp only [hr, if_true]
                  simp only [Outcome.restate, List.map_append]
                  rw [notifyAction_restate _ _ rfl, notifyStopped_restate _ _ rfl]
                  rfl
                · simp only [hr, if_false]
                  rw [ih, Outcome.restate_after, notifyAction_restate _ _ rfl]
                  rfl
            · simp only [h3, if_false]
              rw [ih, Outcome.restate_after, notifyAction_restate _ _ rfl]
              rfl
        · simp [h2, Outcome.restate, Animator.restate]
    · simp [h1, Outcome.restate, Animator.restate]

/-! ## Claims -/

/-- C1. A finite `MovingAnimation` (`delay > 0`, `repeatCount = n ≥ 1`): after
`Start(anim, t0)`, one `Progress(t)` with `t - t0 ≥ n * delay` invokes
`onAction` exactly `n` times (at `t0 + delay`, ..., `t0 + n * delay`, with
`currRep = 0, ..., n - 1`), then `onFinish` once, and leaves
`state = ANIMATOR_FINISHED`, `lastTime = t0 + n * delay`. More generally a
running animator with `currRep < n` performs in one `Progress(t)` exactly
`min ((t - lastTime) / delay) (n - currRep)` actions, never more than remain. -/
theorem moving_progress_finite (an : MovingAnimation) (hfin : an.isForever = false)
    (hd : 0 < an.delay) (hn1 : 1 ≤ an.repeatCount) (hn : an.repeatCount < 2 ^ 32) :
    (∀ (a0 : MovingAnimator) (t0 t fuel : Nat), t < 2 ^ 64 →
        t0 + an.repeatCount * an.delay ≤ t → an.repeatCount < fuel →
        ∃ final : MovingAnimator,
          final.state = ANIMATOR_FINISHED ∧
          final.lastTime = t0 + an.repeatCount * an.delay ∧
          final.derived = { anim := some an, currRep := an.repeatCount } ∧
          MovingAnimator.Progress t fuel (MovingAnimator.Start a0 an t0).1 =
            .ok (final,
              (if a0.onAction then
                (List.range an.repeatCount).map (fun i => Notification.action
                  { a0 with lastTime := t0 + (i + 1) * an.delay, state := ANIMATOR_RUNNING,
                            derived := { anim := some an, currRep := i } })
               else []) ++ (if a0.onFinish then [Notification.finished final] else []))) ∧
    (∀ (a : MovingAnimator) (t fuel : Nat), a.derived.anim = some an →
        a.state = ANIMATOR_RUNNING → a.derived.currRep < an.repeatCount →
        a.lastTime < 2 ^ 64 → t < 2 ^ 64 →
        min ((t - a.lastTime) / an.delay) (an.repeatCount - a.derived.currRep) < fuel →
        ∃ (a1 : MovingAnimator) (evs : List (Notification MovingPart)),
          MovingAnimator.Progress t fuel a = .ok (a1, evs) ∧
          (a.onAction = true → evs.countP Notification.isAction =
            min ((t - a.lastTime) / an.delay) (an.repeatCount - a.derived.currRep)) ∧
          evs.countP Notification.isAction ≤ an.repeatCount - a.derived.currRep ∧
          a1.derived.currRep =
            a.derived.currRep + min ((t - a.lastTime) / an.delay) (an.repeatCount - a.derived.currRep)) := by
  constructor
  · intro a0 t0 t fuel ht hle hf
    have hrun := MovingAnimator.moving_run an t ht hfin hd hn an.repeatCount fuel
      (MovingAnimator.Start a0 an t0).1 rfl
      (by simp only [MovingAnimator.Start]; omega)
      (by simp [MovingAnimator.Start])
      (by simpa [MovingAnimator.Start] using hle)
      (by left; simp [MovingAnimator.Start])
      hf
    refine ⟨(MovingAnimator.Start a0 an t0).1.afterSteps an.delay an.repeatCount an.repeatCount,
      ?_, ?_, ?_, ?_⟩
    · simp [MovingAnimator.afterSteps, MovingAnimator.Start]
    · simp [MovingAnimator.afterSteps, MovingAnimator.Start]
    · simp [MovingAnimator.afterSteps, MovingAnimator.Start]
    · rw [hrun]
      simp [MovingAnimator.runTrace, MovingAnimator.Start, MovingAnimator.duringStep,
        MovingAnimator.afterSteps, Animator.NotifyStopped]
  · intro a t fuel hb _ hc hL ht hf
    by_cases hlt : t ≤ a.lastTime
    · have hk : min ((t - a.lastTime) / an.delay) (an.repeatCount - a.derived.currRep) = 0 := by
        have : t - a.lastTime = 0 := by omega
        simp [this]
      obtain ⟨f, rfl⟩ : ∃ f, fuel = f + 1 := ⟨fuel - 1, by omega⟩
      refine ⟨a, [], MovingAnimator.moving_not_after a t f hlt, ?_, ?_, ?_⟩
      · intro _
        simp [hk]
      · simp
      · simp [hk]
    · have hq1 : (t - a.lastTime) / an.delay * an.delay ≤ t - a.lastTime :=
        Nat.div_mul_le_self _ _
      have hq2 : t - a.lastTime < ((t - a.lastTime) / an.delay + 1) * an.delay := by
        have := Nat.lt_div_mul_add (a := t - a.lastTime) hd
        calc t - a.lastTime < (t - a.lastTime) / an.delay * an.delay + an.delay := this
          _ = ((t - a.lastTime) / an.delay + 1) * an.delay := by ring
      set k := min ((t - a.lastTime) / an.delay) (an.repeatCount - a.derived.currRep) with hkdef
      have hkq : k ≤ (t - a.lastTime) / an.delay := min_le_left _ _
      have hkn : k ≤ an.repeatCount - a.derived.currRep := min_le_right _ _
      have hkd : k * an.delay ≤ (t - a.lastTime) / an.delay * an.delay :=
        Nat.mul_le_mul_right _ hkq
      have hrun := MovingAnimator.moving_run an t ht hfin hd hn k fuel a hb hc (by omega)
        (by omega)
        (by
          rcases Nat.le_total ((t - a.lastTime) / an.delay)
              (an.repeatCount - a.derived.currRep) with h | h
          · right
            have hk' : k = (t - a.lastTime) / an.delay := min_eq_left h
            rw [hk']
            omega
          · left
            have hk' : k = an.repeatCount - a.derived.currRep := min_eq_right h
            omega)
        hf
      refine ⟨_, _, hrun, ?_, ?_, ?_⟩
      · intro hA
        exact MovingAnimator.countP_runTrace a _ _ k hA
      · by_cases hA : a.onAction = true
        · rw [MovingAnimator.countP_runTrace a _ _ k hA]
          exact hkn
        · have : a.runTrace an.delay an.repeatCount k =
              (if a.derived.currRep + k = an.repeatCount then
                (a.afterSteps an.delay an.repeatCount k).NotifyStopped else []) := by
            simp [MovingAnimator.runTrace, hA]
          rw [this]
          unfold Animator.NotifyStopped
          split <;> [split; skip] <;> simp [Notification.isAction]
      · simp [MovingAnimator.afterSteps]

/-- C1, the scenario of the specification: `delay = 10`, `repeatCount = 3`,
`Start(0)`, `Progress(35)` gives three actions and then `onFinish`. -/
theorem moving_progress_finite_witness :
    ∃ final : MovingAnimator,
      final.state = ANIMATOR_FINISHED ∧ final.lastTime = 0 + 3 * 10 ∧
      final.derived = { anim := some scenarioMoving, currRep := 3 } ∧
      MovingAnimator.Progress 35 4
          (MovingAnimator.Start (MovingAnimator.fresh true true true) scenarioMoving 0).1 =
        .ok (final,
          [Notification.action
             { lastTime := 10, state := ANIMATOR_RUNNING, onFinish := true, onStart := true,
               onAction := true, derived := { anim := some scenarioMoving, currRep := 0 } },
           Notification.action
             { lastTime := 20, state := ANIMATOR_RUNNING, onFinish := true, onStart := true,
               onAction := true, derived := { anim := some scenarioMoving, currRep := 1 } },
           Notification.action
             { lastTime := 30, state := ANIMATOR_RUNNING, onFinish := true, onStart := true,
               onAction := true, derived := { anim := some scenarioMoving, currRep := 2 } },
           Notification.finished final]) :=
  (moving_progress_finite scenarioMoving rfl (by decide) (by decide) (by decide)).1
    (MovingAnimator.fresh true true true) 0 35 4 (by decide) (by decide) (by decide)

/-- C2, as stated, fails. The scenario's animator completes on `Progress(35)`
and is then `ANIMATOR_FINISHED`, yet `Progress(1000)` on it invokes `onAction`
97 more times and moves `lastTime` to 1000 and `currRep` to 100; and the same
animator stopped by `Stop()` after one step is taken by `Progress(35)` from
`ANIMATOR_STOPPED` to `ANIMATOR_FINISHED`, with `onFinish` invoked again. -/
theorem finished_progress_counterexample :
    (MovingAnimator.Progress 35 4
        (MovingAnimator.Start (MovingAnimator.fresh true true true) scenarioMoving 0).1).toOption.map
        Prod.fst = some scenarioMovingDone ∧
    scenarioMovingDone.state = ANIMATOR_FINISHED ∧
    (MovingAnimator.Progress 1000 98 scenarioMovingDone).toOption.map
        (fun r => (r.1.state, r.1.lastTime, r.1.derived.currRep,
          r.2.countP Notification.isAction)) = some (ANIMATOR_FINISHED, 1000, 100, 97) ∧
    ((MovingAnimator.Progress 15 4
        (MovingAnimator.Start (MovingAnimator.fresh true true true) scenarioMoving 0).1).toOption.map
        (fun r => (Animator.Stop r.1).1)) = some scenarioMovingStopped ∧
    (MovingAnimator.Progress 35 4 scenarioMovingStopped).toOption.map
        (fun r => (r.1.state, r.1.lastTime, r.1.derived.currRep,
          r.2.countP Notification.isAction, r.2.countP Notification.isFinish))
      = some (ANIMATOR_FINISHED, 30, 3, 2, 1) := by
  set_option maxRecDepth 100000 in decide

/-- C2, amended. `Progress` does not test `state`. For a `MovingAnimator` or
`FrameRangeAnimator` that is `ANIMATOR_FINISHED` or `ANIMATOR_STOPPED`:
`Progress(t)` invokes no callback and changes nothing when no step is due
(`t ≤ lastTime`, or the elapsed time is below the delay); and whenever
`Progress(t)` returns, the animator is again `ANIMATOR_FINISHED` or
`ANIMATOR_STOPPED`, never `ANIMATOR_RUNNING` (only `Start` gives that). When a
step is due it is processed as for a running animator: on an animator in any
state, `Progress(t)` equals `Progress(t)` on the same animator with
`state = ANIMATOR_RUNNING` (same failure, same callbacks in the same order,
same `lastTime` and counters), except that the state member keeps its value
where the running animator would still be running; a step that completes the
repetitions sets `ANIMATOR_FINISHED` and invokes `onFinish` for both. So a
`FrameRangeAnimator` on its end frame whose descriptor is not forever and whose
`currRep` is not below `repeatCount`, as it is once completed, fails the
`assert` of `Progress` as soon as a step is due, whatever its state. -/
theorem progress_on_finished_or_stopped :
    (∀ (a : MovingAnimator) (t fuel : Nat),
        a.state = ANIMATOR_FINISHED ∨ a.state = ANIMATOR_STOPPED →
        (t ≤ a.lastTime ∨ ∃ an, a.derived.anim = some an ∧ tsub t a.lastTime < an.delay) →
        MovingAnimator.Progress t (fuel + 1) a = .ok (a, [])) ∧
    (∀ (a a1 : MovingAnimator) (t fuel : Nat) (evs : List (Notification MovingPart)),
        a.state = ANIMATOR_FINISHED ∨ a.state = ANIMATOR_STOPPED →
        MovingAnimator.Progress t fuel a = .ok (a1, evs) →
        a1.state = ANIMATOR_FINISHED ∨ a1.state = ANIMATOR_STOPPED) ∧
    (∀ (a : FrameRangeAnimator) (t fuel : Nat),
        a.state = ANIMATOR_FINISHED ∨ a.state = ANIMATOR_STOPPED →
        (t ≤ a.lastTime ∨ ∃ an, a.derived.anim = some an ∧ tsub t a.lastTime < an.delay) →
        FrameRangeAnimator.Progress t (fuel + 1) a = .ok (a, [])) ∧
    (∀ (a a1 : FrameRangeAnimator) (t fuel : Nat) (evs : List (Notification FrameRangePart)),
        a.state = ANIMATOR_FINISHED ∨ a.state = ANIMATOR_STOPPED →
        FrameRangeAnimator.Progress t fuel a = .ok (a1, evs) →
        a1.state = ANIMATOR_FINISHED ∨ a1.state = ANIMATOR_STOPPED) ∧
    (∀ (a : MovingAnimator) (t fuel : Nat),
        MovingAnimator.Progress t fuel a
          = Outcome.restate a.state (MovingAnimator.Progress t fuel a.asRunning)) ∧
    (∀ (a : FrameRangeAnimator) (t fuel : Nat),
        FrameRangeAnimator.Progress t fuel a
          = Outcome.restate a.state (FrameRangeAnimator.Progress t fuel a.asRunning)) ∧
    (∀ (a : FrameRangeAnimator) (an : FrameRangeAnimation) (t fuel : Nat),
        a.derived.anim = some an → an.isForever = false →
        a.derived.currFrame = an.endFrame → an.repeatCount ≤ a.derived.currRep →
        t > a.lastTime → tsub t a.lastTime ≥ an.delay →
        FrameRangeAnimator.Progress t (fuel + 1) a = .error Failure.assertion) := by
  have notRunning : ∀ st : animatorstate_t,
      st = ANIMATOR_FINISHED ∨ st = ANIMATOR_STOPPED ↔ st ≠ ANIMATOR_RUNNING := by
    intro st
    cases st <;> simp
  refine ⟨?_, ?_, ?_, ?_, ?_, ?_, ?_⟩
  · intro a t fuel _ h
    exact MovingAnimator.moving_not_due a t fuel h
  · intro a a1 t fuel evs hs h
    exact (notRunning _).mpr
      (MovingAnimator.moving_keeps_finished t fuel a a1 evs ((notRunning _).mp hs) h)
  · intro a t fuel _ h
    exact FrameRangeAnimator.frameRange_not_due a t fuel h
  · intro a a1 t fuel evs hs h
    exact (notRunning _).mpr
      (FrameRangeAnimator.frameRange_keeps_finished t fuel a a1 evs ((notRunning _).mp hs) h)
  · intro a t fuel
    exact MovingAnimator.moving_state_blind t fuel a
  · intro a t fuel
    exact FrameRangeAnimator.frameRange_state_blind t fuel a
  · intro a an t fuel hb hf he hc h1 h2
    unfold FrameRangeAnimator.Progress
    have hlt : ¬ a.derived.currRep < an.repeatCount := by omega
    simp [h1, hb, h2, FrameRangeAnimator.nextFrame, he, hf, hlt]

/-- C2, amended, on the scenario's completed animators. Moving animator
(`lastTime = 30`, delay 10): `Progress(35)` does nothing; `Progress(45)`
processes a step, as it does on the running twin, and returns an animator that
is still not running. Frame animator, completed by `Progress(35)`:
`Progress(40)` fails the assertion. -/
theorem progress_on_finished_or_stopped_witness :
    MovingAnimator.Progress 35 1 scenarioMovingDone = .ok (scenarioMovingDone, []) ∧
    (∃ (a1 : MovingAnimator) (evs : List (Notification MovingPart)),
      MovingAnimator.Progress 45 2 scenarioMovingDone = .ok (a1, evs) ∧
      evs.length = 1 ∧ a1.lastTime = 40 ∧ a1.derived.currRep = 4 ∧
      (a1.state = ANIMATOR_FINISHED ∨ a1.state = ANIMATOR_STOPPED)) ∧
    MovingAnimator.Progress 45 2 scenarioMovingDone
      = Outcome.restate ANIMATOR_FINISHED
          (MovingAnimator.Progress 45 2 scenarioMovingDone.asRunning) ∧
    (FrameRangeAnimator.Progress 35 8 scenarioFrameStarted).toOption.map Prod.fst
      = some scenarioFrameDone ∧
    FrameRangeAnimator.Progress 40 1 scenarioFrameDone = .error Failure.assertion :=
  ⟨progress_on_finished_or_stopped.1 scenarioMovingDone 35 0 (Or.inl rfl)
      (Or.inr ⟨scenarioMoving, rfl, by decide⟩),
    ⟨_, _, rfl, rfl, rfl, rfl,
      progress_on_finished_or_stopped.2.1 scenarioMovingDone _ 45 2 _ (Or.inl rfl) rfl⟩,
    progress_on_finished_or_stopped.2.2.2.2.1 scenarioMovingDone 45 2,
    by decide,
    progress_on_finished_or_stopped.2.2.2.2.2.2 scenarioFrameDone scenarioFrameRange 40 0
      rfl rfl rfl (by decide) (by decide) (by decide)⟩

/-- C3, as stated, fails: with frames `0..3`, `delay = 5`, `repeatCount = 2`,
`Start(0)` then `Progress(21)` only reaches the frames 1, 2, 3, 0 (four steps
are due by time 21) and leaves the animator running, with no `onFinish`. -/
theorem frame_range_scenario_counterexample :
    (FrameRangeAnimator.Progress 21 8
        (FrameRangeAnimator.Start (FrameRangeAnimator.fresh true true true)
          scenarioFrameRange 0).1).toOption.map
      (fun r => (actionFrames r.2, r.2.countP Notification.isFinish, r.1.state, r.1.lastTime))
      = some ([1, 2, 3, 0], 0, ANIMATOR_RUNNING, 20) := by
  decide

/-- C3, amended. For frames `0..3`, `delay = 5`, `repeatCount = 2`, not forever:
`Start(anim, 0)` invokes `onAction` exactly once, at frame 0;
the following `Progress(35)` invokes `onAction` with the frames
1, 2, 3, 0, 1, 2, 3 and then `onFinish`, ending `ANIMATOR_FINISHED` in that same
call (35 is the first time at which all seven steps are due). -/
theorem frame_range_scenario :
    actionFrames
        (FrameRangeAnimator.Start (FrameRangeAnimator.fresh true true true) scenarioFrameRange 0).2
      = [0] ∧
    (FrameRangeAnimator.Progress 35 8
        (FrameRangeAnimator.Start (FrameRangeAnimator.fresh true true true)
          scenarioFrameRange 0).1).toOption.map
      (fun r => (actionFrames r.2, r.2.map Notification.isFinish, r.1.state, r.1.lastTime,
        r.1.derived.currFrame, r.1.derived.currRep))
      = some ([1, 2, 3, 0, 1, 2, 3], [false, false, false, false, false, false, false, true],
          ANIMATOR_FINISHED, 35, 3, 2) ∧
    (FrameRangeAnimator.Progress 34 8
        (FrameRangeAnimator.Start (FrameRangeAnimator.fresh true true true)
          scenarioFrameRange 0).1).toOption.map
      (fun r => (actionFrames r.2, r.1.state)) = some ([1, 2, 3, 0, 1, 2], ANIMATOR_RUNNING) := by
  decide

/-- C4, as stated, fails. `Register` only asserts `a->HasFinished()`: an
animator registered, started, marked as running and then stopped passes the
assertion of a second `Register`, which leaves it in both `running` and
`suspended`. `Start` and `Stop` change `state` as the calls of this sequence
assume. -/
theorem manager_partition_counterexample :
    (MovingAnimator.Start (MovingAnimator.fresh true true true) scenarioMoving 0).1.state
      = ANIMATOR_RUNNING ∧
    (Animator.Stop
      (MovingAnimator.Start (MovingAnimator.fresh true true true) scenarioMoving 0).1).1.state
      = ANIMATOR_STOPPED ∧
    ∃ s : Scene,
      Scene.run [Call.Register 1, Call.Start 1, Call.MarkAsRunning 1, Call.Stop 1, Call.Register 1]
        Scene.initial = .ok s ∧
      s.manager.running.elems = [1] ∧ s.manager.suspended.elems = [1] ∧ ¬ s.Partitioned :=
  ⟨rfl, rfl, _, rfl, rfl, rfl, fun h => h 1 ⟨by decide, by decide⟩⟩

/-- C4, amended. Starting from an empty manager, after any finite sequence of
`Register`, `Cancel`, `MarkAsRunning` and `MarkAsSuspended` calls whose
assertions all hold, interleaved with arbitrary state changes of the animators,
and in which `Register(a)` is never called while `a` is in `running`, the sets
`running` and `suspended` are disjoint: every animator known to the manager is
in exactly one of them. -/
theorem manager_partition (calls : List Call) (s : Scene)
    (hreg : Scene.registersOutsideRunning calls Scene.initial = true)
    (hrun : Scene.run calls Scene.initial = .ok s) :
    ∀ a, ¬ (a ∈ s.manager.running.elems ∧ a ∈ s.manager.suspended.elems) :=
  Scene.run_partitioned calls Scene.initial s (fun _ h => by simp [Scene.initial,
    AnimatorManager.empty, AnimatorSet.empty] at h) hreg hrun

/-- C4, amended, on a life cycle of two animators: register both, start and
mark 1 as running, stop it, mark it as suspended, cancel 2. -/
theorem manager_partition_witness :
    ∃ s : Scene,
      Scene.run [Call.Register 1, Call.Register 2, Call.Start 1, Call.MarkAsRunning 1,
        Call.Start 2, Call.MarkAsRunning 2, Call.Stop 1, Call.MarkAsSuspended 1] Scene.initial
        = .ok s ∧
      s.manager.running.elems = [2] ∧ s.manager.suspended.elems = [1] ∧
      ∀ a, ¬ (a ∈ s.manager.running.elems ∧ a ∈ s.manager.suspended.elems) :=
  ⟨_, rfl, rfl, rfl,
    manager_partition [Call.Register 1, Call.Register 2, Call.Start 1, Call.MarkAsRunning 1,
      Call.Start 2, Call.MarkAsRunning 2, Call.Stop 1, Call.MarkAsSuspended 1] _ rfl rfl⟩

/-- C5, as stated, fails. Two running animators are in `running`; the
`onAction` closure of each calls `MarkAsSuspended` on its own animator. In
`Progress(10)` the first animator's first step invokes `onAction` while it is
still running, the assertion of `MarkAsSuspended` fails, and the animator at
address 2, in `running` when the call began, is never progressed. -/
theorem manager_progress_counterexample :
    twoMovers.manager.running.elems = [1, 2] ∧
    (twoMovers.animators 1).state = ANIMATOR_RUNNING ∧
    AnimatorManager.Progress Stage.manager (Stage.progressAnimator suspendSelfOnAction 4) 10
      twoMovers = ([1], .error Failure.assertion) :=
  ⟨rfl, rfl, rfl⟩

/-- C5, amended. `AnimatorManager::Progress(t)` calls `Progress(t)` only on
animators that were in `running` when the call began, in the order of that
set, none twice; when no call fails (no assertion fails in an animator or in a
membership call made by a callback) it is made exactly once on each of them,
whatever the callbacks do to `running` and `suspended` meanwhile. Membership
changes made by callbacks therefore show only in the snapshot of the next
`Progress` call. -/
theorem manager_progress_snapshot {S : Type} (managerOf : S → AnimatorManager)
    (progressAnimator : Nat → Nat → S → Except Failure S) (t : Nat) (s : S) :
    (AnimatorManager.Progress managerOf progressAnimator t s).1
        <+: (managerOf s).running.elems ∧
    (managerOf s).running.elems.Nodup ∧
    ((∃ s1, (AnimatorManager.Progress managerOf progressAnimator t s).2 = .ok s1) →
      (AnimatorManager.Progress managerOf progressAnimator t s).1
        = (managerOf s).running.elems) ∧
    ((∀ a ∈ (managerOf s).running.elems, ∀ s0, ∃ s1, progressAnimator a t s0 = .ok s1) →
      ∃ s1, (AnimatorManager.Progress managerOf progressAnimator t s).2 = .ok s1) := by
  obtain ⟨h1, h2, h3⟩ := AnimatorManager.progressAll_log (fun a => progressAnimator a t)
    (managerOf s).running.elems s
  exact ⟨h1, nodup_of_sorted _ (managerOf s).running.ordered, h2, h3⟩

/-- C5, amended, on two running animators whose `onFinish` closure calls
`MarkAsSuspended` on its own animator: `Progress(35)` completes both; the first
leaves `running` during the call, and the second is progressed all the same. -/
theorem manager_progress_snapshot_witness :
    ∃ s1 : Stage,
      AnimatorManager.Progress Stage.manager (Stage.progressAnimator suspendSelfOnFinish 4) 35
        twoMovers = ([1, 2], .ok s1) ∧
      s1.manager.running.elems = [] ∧ s1.manager.suspended.elems = [1, 2] ∧
      (AnimatorManager.Progress Stage.manager (Stage.progressAnimator suspendSelfOnFinish 4) 35
        twoMovers).1 = twoMovers.manager.running.elems :=
  ⟨_, rfl, rfl, rfl,
    (manager_progress_snapshot Stage.manager (Stage.progressAnimator suspendSelfOnFinish 4) 35
      twoMovers).2.2.1 ⟨_, rfl⟩⟩

/-- C6. `Stop()` on a running animator sets `state = ANIMATOR_STOPPED` and
invokes `onFinish` (when set) exactly once, the callback seeing the new state;
on an animator that is `ANIMATOR_FINISHED` or `ANIMATOR_STOPPED` it invokes
nothing and changes nothing; so a second `Stop()` is without effect. -/
theorem stop_idempotent {D : Type} (a : Animator D) :
    (a.state = ANIMATOR_RUNNING →
      a.Stop = ({ a with state := ANIMATOR_STOPPED },
        if a.onFinish then [Notification.finished { a with state := ANIMATOR_STOPPED }] else [])) ∧
    (a.state = ANIMATOR_FINISHED ∨ a.state = ANIMATOR_STOPPED → a.Stop = (a, [])) ∧
    a.Stop.1.Stop = (a.Stop.1, []) := by
  refine ⟨?_, ?_, ?_⟩
  · intro h
    simp [Animator.Stop, Animator.Finish, Animator.HasFinished, Animator.NotifyStopped, h]
  · intro h
    rcases h with h | h <;>
      simp [Animator.Stop, Animator.Finish, Animator.HasFinished, h]
  · cases hs : a.state <;>
      simp [Animator.Stop, Animator.Finish, Animator.HasFinished, hs]

/-- C6 on the scenario's moving animator: stopped right after `Start`, it
reports `onFinish` once with `state = ANIMATOR_STOPPED`; once completed or
stopped, `Stop()` does nothing. -/
theorem stop_idempotent_witness :
    (MovingAnimator.Start (MovingAnimator.fresh true true true) scenarioMoving 0).1.Stop
      = ({ lastTime := 0, state := ANIMATOR_STOPPED, onFinish := true, onStart := true,
           onAction := true, derived := { anim := some scenarioMoving, currRep := 0 } },
         [Notification.finished
           { lastTime := 0, state := ANIMATOR_STOPPED, onFinish := true, onStart := true,
             onAction := true, derived := { anim := some scenarioMoving, currRep := 0 } }]) ∧
    scenarioMovingDone.Stop = (scenarioMovingDone, []) ∧
    scenarioMovingStopped.Stop = (scenarioMovingStopped, []) :=
  ⟨(stop_idempotent
      (MovingAnimator.Start (MovingAnimator.fresh true true true) scenarioMoving 0).1).1 rfl,
    (stop_idempotent scenarioMovingDone).2.1 (Or.inl rfl),
    (stop_idempotent scenarioMovingStopped).2.1 (Or.inr rfl)⟩

/-- C7. `Start(anim, t)`, on an animator in any state and with any previous
descriptor, `lastTime` and counters: binds `anim`, sets `lastTime = t`,
`currRep = 0` (and `currFrame = startFrame`), `state = ANIMATOR_RUNNING`, and
invokes `onStart` once if set (a `FrameRangeAnimator` then also `onAction`
once, at the start frame); `HasFinished()` is then false; and the result is
that of `Start(anim, t)` on a newly constructed animator with the same
callback slots. -/
theorem start_postcondition :
    (∀ (a : MovingAnimator) (an : MovingAnimation) (t : Nat),
      (MovingAnimator.Start a an t).1 =
        { lastTime := t, state := ANIMATOR_RUNNING, onFinish := a.onFinish, onStart := a.onStart,
          onAction := a.onAction, derived := { anim := some an, currRep := 0 } } ∧
      (MovingAnimator.Start a an t).2 =
        (if a.onStart then [Notification.started (MovingAnimator.Start a an t).1] else []) ∧
      (MovingAnimator.Start a an t).1.HasFinished = false ∧
      MovingAnimator.Start a an t =
        MovingAnimator.Start (MovingAnimator.fresh a.onFinish a.onStart a.onAction) an t) ∧
    (∀ (a : FrameRangeAnimator) (an : FrameRangeAnimation) (t : Nat),
      (FrameRangeAnimator.Start a an t).1 =
        { lastTime := t, state := ANIMATOR_RUNNING, onFinish := a.onFinish, onStart := a.onStart,
          onAction := a.onAction,
          derived := { anim := some an, currFrame := an.startFrame, currRep := 0 } } ∧
      (FrameRangeAnimator.Start a an t).2 =
        (if a.onStart then [Notification.started (FrameRangeAnimator.Start a an t).1] else []) ++
        (if a.onAction then [Notification.action (FrameRangeAnimator.Start a an t).1] else []) ∧
      (FrameRangeAnimator.Start a an t).1.HasFinished = false ∧
      FrameRangeAnimator.Start a an t =
        FrameRangeAnimator.Start (FrameRangeAnimator.fresh a.onFinish a.onStart a.onAction) an t) := by
  refine ⟨fun a an t => ⟨rfl, rfl, rfl, rfl⟩, fun a an t => ⟨rfl, rfl, rfl, rfl⟩⟩

/-- C8. `Progress(currTime)` with `currTime ≤ lastTime` performs no iteration:
no callback, nothing changed (the descriptor is not even dereferenced). Where
the loop condition does evaluate `currTime - lastTime`, that is with
`currTime > lastTime`, the unsigned subtraction does not wrap. -/
theorem progress_without_advance :
    (∀ (a : MovingAnimator) (currTime fuel : Nat), currTime ≤ a.lastTime →
      MovingAnimator.Progress currTime (fuel + 1) a = .ok (a, [])) ∧
    (∀ (a : FrameRangeAnimator) (currTime fuel : Nat), currTime ≤ a.lastTime →
      FrameRangeAnimator.Progress currTime (fuel + 1) a = .ok (a, [])) ∧
    (∀ currTime lastTime : Nat, currTime < 2 ^ 64 → currTime > lastTime →
      tsub currTime lastTime = currTime - lastTime) :=
  ⟨fun a t fuel h => MovingAnimator.moving_not_due a t fuel (Or.inl h),
    fun a t fuel h => FrameRangeAnimator.frameRange_not_due a t fuel (Or.inl h),
    fun _ _ ht h => tsub_eq ht (le_of_lt h)⟩

/-- C8 on the scenario's completed animator (`lastTime = 30`) and on a frame
animator just started at time 7: `Progress(30)`, `Progress(7)` and
`Progress(3)` do nothing. -/
theorem progress_without_advance_witness :
    MovingAnimator.Progress 30 1 scenarioMovingDone = .ok (scenarioMovingDone, []) ∧
    FrameRangeAnimator.Progress 7 1
        (FrameRangeAnimator.Start (FrameRangeAnimator.fresh true true true) scenarioFrameRange 7).1
      = .ok ((FrameRangeAnimator.Start (FrameRangeAnimator.fresh true true true)
          scenarioFrameRange 7).1, []) ∧
    FrameRangeAnimator.Progress 3 1
        (FrameRangeAnimator.Start (FrameRangeAnimator.fresh true true true) scenarioFrameRange 7).1
      = .ok ((FrameRangeAnimator.Start (FrameRangeAnimator.fresh true true true)
          scenarioFrameRange 7).1, []) ∧
    tsub 35 30 = 35 - 30 :=
  ⟨progress_without_advance.1 scenarioMovingDone 30 0 (by decide),
    progress_without_advance.2.1 _ 7 0 (by decide),
    progress_without_advance.2.1 _ 3 0 (by decide),
    progress_without_advance.2.2 35 30 (by decide) (by decide)⟩

/-- C9. `TimeShift(offset)` replaces `lastTime` by `lastTime + offset` modulo
`2 ^ 64`, invokes no callback and leaves `state`, the callback slots, the bound
descriptor and the counters as they are; so `TimeShift(offset)` followed by
`Progress(now)` is `Progress(now)` on the animator whose `lastTime` was advanced
by `offset` beforehand. -/
theorem timeShift_frame :
    (∀ (D : Type) (a : Animator D) (offset : Nat),
      a.TimeShift offset = ({ a with lastTime := (a.lastTime + offset) % 2 ^ 64 }, []) ∧
      (a.TimeShift offset).1.state = a.state ∧
      (a.TimeShift offset).1.derived = a.derived ∧
      (a.TimeShift offset).1.onFinish = a.onFinish ∧
      (a.TimeShift offset).1.onStart = a.onStart ∧
      (a.TimeShift offset).1.onAction = a.onAction) ∧
    (∀ (a : MovingAnimator) (offset now fuel : Nat),
      MovingAnimator.Progress now fuel (a.TimeShift offset).1 =
        MovingAnimator.Progress now fuel { a with lastTime := (a.lastTime + offset) % 2 ^ 64 }) ∧
    (∀ (a : FrameRangeAnimator) (offset now fuel : Nat),
      FrameRangeAnimator.Progress now fuel (a.TimeShift offset).1 =
        FrameRangeAnimator.Progress now fuel
          { a with lastTime := (a.lastTime + offset) % 2 ^ 64 }) :=
  ⟨fun _ _ _ => ⟨rfl, rfl, rfl, rfl, rfl, rfl⟩, fun _ _ _ _ => rfl, fun _ _ _ _ => rfl⟩

/-- C10, the code at the failing inputs. `FrameRange_Action` moves the sprite
only when `currFrame != startFrame` or `currRep != 0`. A forever animation
never increments `currRep`: over the frames `0..1`, `Start(0)` then
`Progress(2)` notifies frame 1 (moved) and then the wrap to frame 0 (not
moved). A single-frame animation wraps on its first step with `currRep` still
0: that step is not moved either, the second is. The frame is set every time. -/
theorem frameRange_action_skips_wrap :
    (FrameRangeAnimator.Start (FrameRangeAnimator.fresh true true true) foreverTwoFrames 0).2.map
        frameRangeOnAction = [none, some [SpriteCall.SetFrame 0]] ∧
    (FrameRangeAnimator.Progress 2 4
        (FrameRangeAnimator.Start (FrameRangeAnimator.fresh true true true)
          foreverTwoFrames 0).1).toOption.map (fun r => r.2.map frameRangeOnAction)
      = some [some [SpriteCall.Move 1 0, SpriteCall.SetFrame 1], some [SpriteCall.SetFrame 0]] ∧
    (FrameRangeAnimator.Progress 2 4
        (FrameRangeAnimator.Start (FrameRangeAnimator.fresh true true true)
          singleFrameTwice 0).1).toOption.map (fun r => r.2.map frameRangeOnAction)
      = some [some [SpriteCall.SetFrame 0], some [SpriteCall.Move 1 0, SpriteCall.SetFrame 0],
          none] := by
  decide

/-- C11. A forever animation (`delay = d > 0`) on a running animator with
`currTime ≥ lastTime`: `Progress(currTime)` returns after invoking `onAction`
exactly `k = (currTime - lastTime) / d` times (when the slot is set), with
`lastTime` advanced by `k * d`, so that `currTime - lastTime < d` afterwards;
it never invokes `onFinish` and the animator is still `ANIMATOR_RUNNING`. -/
theorem forever_progress :
    (∀ (an : MovingAnimation) (a : MovingAnimator) (currTime fuel : Nat),
      an.isForever = true → 0 < an.delay → a.derived.anim = some an →
      a.state = ANIMATOR_RUNNING → a.lastTime ≤ currTime → currTime < 2 ^ 64 →
      (currTime - a.lastTime) / an.delay < fuel →
      ∃ a2 evs, MovingAnimator.Progress currTime fuel a = .ok (a2, evs) ∧
        a2.lastTime = a.lastTime + (currTime - a.lastTime) / an.delay * an.delay ∧
        currTime - a2.lastTime < an.delay ∧ a2.state = ANIMATOR_RUNNING ∧
        evs.countP Notification.isAction
          = (if a.onAction then (currTime - a.lastTime) / an.delay else 0) ∧
        evs.countP Notification.isFinish = 0) ∧
    (∀ (an : FrameRangeAnimation) (a : FrameRangeAnimator) (currTime fuel : Nat),
      an.isForever = true → 0 < an.delay → a.derived.anim = some an →
      a.state = ANIMATOR_RUNNING → a.lastTime ≤ currTime → currTime < 2 ^ 64 →
      (currTime - a.lastTime) / an.delay < fuel →
      ∃ a2 evs, FrameRangeAnimator.Progress currTime fuel a = .ok (a2, evs) ∧
        a2.lastTime = a.lastTime + (currTime - a.lastTime) / an.delay * an.delay ∧
        currTime - a2.lastTime < an.delay ∧ a2.state = ANIMATOR_RUNNING ∧
        evs.countP Notification.isAction
          = (if a.onAction then (currTime - a.lastTime) / an.delay else 0) ∧
        evs.countP Notification.isFinish = 0) := by
  constructor
  · intro an a t fuel hfor hd hb hs hle ht hf
    have hstop : ∀ (a a1 : MovingAnimator) evs stop, a.derived.anim = some an →
        MovingAnimator.body a = .ok (a1, evs, stop) → stop = false := by
      intro a a1 evs stop hb h
      have h7 := (MovingAnimator.moving_body_ok a a1 an evs stop hb h).2.2.2.2.2.2.1
      cases stop with
      | false => rfl
      | true =>
        have := (h7.mp rfl).1
        rw [hfor] at this
        simp at this
    obtain ⟨a2, evs, hp, _, hl, hlt, hst, hca, hcf⟩ :=
      progressLoop_forever MovingAnimator.delayOf MovingAnimator.body t an.delay ht hd
        (fun a => a.derived.anim = some an)
        (fun a hb => MovingAnimator.moving_delayOf_bound a an hb)
        (by
          intro a hb
          obtain ⟨a1, evs, stop, h⟩ := MovingAnimator.moving_body_total a an hb
          have := hstop a a1 evs stop hb h
          subst this
          exact ⟨a1, evs, h⟩)
        (by
          intro a a1 evs hb h
          obtain ⟨h1, h2, h3, _, _, _, _, h8, h9⟩ :=
            MovingAnimator.moving_body_ok a a1 an evs false hb h
          refine ⟨h1, h2, h3, by simpa using h8, ?_, ?_⟩
          · rw [h9]
            exact (stepEvents_count _ _ _ _).1
          · rw [h9]
            simpa using (stepEvents_count a.onAction false _ a1).2)
        fuel a hb hle hf
    rw [← MovingAnimator.moving_eq_loop] at hp
    exact ⟨a2, evs, hp, hl, hlt, by rw [hst, hs], hca, hcf⟩
  · intro an a t fuel hfor hd hb hs hle ht hf
    have hstop : ∀ (a a1 : FrameRangeAnimator) evs stop, a.derived.anim = some an →
        FrameRangeAnimator.body a = .ok (a1, evs, stop) → stop = false := by
      intro a a1 evs stop hb h
      have h9 := (FrameRangeAnimator.frameRange_body_ok a a1 an evs stop hb h).2.2.2.2.2.2.2.2.1
      cases stop with
      | false => rfl
      | true =>
        have := (h9.mp rfl).2.1
        rw [hfor] at this
        simp at this
    obtain ⟨a2, evs, hp, _, hl, hlt, hst, hca, hcf⟩ :=
      progressLoop_forever FrameRangeAnimator.delayOf FrameRangeAnimator.body t an.delay ht hd
        (fun a => a.derived.anim = some an)
        (fun a hb => FrameRangeAnimator.frameRange_delayOf_bound a an hb)
        (by
          intro a hb
          obtain ⟨a1, evs, stop, h⟩ := (FrameRangeAnimator.frameRange_body_error a an hb).2
            (by
              rintro ⟨_, h, _⟩
              rw [hfor] at h
              simp at h)
          have := hstop a a1 evs stop hb h
          subst this
          exact ⟨a1, evs, h⟩)
        (by
          intro a a1 evs hb h
          obtain ⟨h1, h2, h3, _, _, _, _, _, _, h10, h11⟩ :=
            FrameRangeAnimator.frameRange_body_ok a a1 an evs false hb h
          refine ⟨h1, h2, h3, by simpa using h10, ?_, ?_⟩
          · rw [h11]
            exact (stepEvents_count _ _ _ _).1
          · rw [h11]
            simpa using (stepEvents_count a.onAction false _ a1).2)
        fuel a hb hle hf
    rw [← FrameRangeAnimator.frameRange_eq_loop] at hp
    exact ⟨a2, evs, hp, hl, hlt, by rw [hst, hs], hca, hcf⟩

/-- C11 on a forever moving animation of delay 10 started at 0 and on the
forever frame animation of delay 1: `Progress(35)` makes 3 steps and leaves
`lastTime = 30`; `Progress(2)` makes 2 steps. -/
theorem forever_progress_witness :
    (∃ a2 evs, MovingAnimator.Progress 35 4
        (MovingAnimator.Start (MovingAnimator.fresh true true true) foreverMoving 0).1
          = .ok (a2, evs) ∧
      a2.lastTime = 30 ∧ 35 - a2.lastTime < 10 ∧ a2.state = ANIMATOR_RUNNING ∧
      evs.countP Notification.isAction = 3 ∧ evs.countP Notification.isFinish = 0) ∧
    (∃ a2 evs, FrameRangeAnimator.Progress 2 3
        (FrameRangeAnimator.Start (FrameRangeAnimator.fresh true true true) foreverTwoFrames 0).1
          = .ok (a2, evs) ∧
      a2.lastTime = 2 ∧ 2 - a2.lastTime < 1 ∧ a2.state = ANIMATOR_RUNNING ∧
      evs.countP Notification.isAction = 2 ∧ evs.countP Notification.isFinish = 0) :=
  ⟨forever_progress.1 foreverMoving
      (MovingAnimator.Start (MovingAnimator.fresh true true true) foreverMoving 0).1 35 4
      rfl (by decide) rfl rfl (by decide) (by decide) (by decide),
    forever_progress.2 foreverTwoFrames
      (FrameRangeAnimator.Start (FrameRangeAnimator.fresh true true true) foreverTwoFrames 0).1
      2 3 rfl (by decide) rfl rfl (by decide) (by decide) (by decide)⟩

/-- C12, as stated, fails. In the scenario (frames `0..3`, `repeatCount = 2`)
the step from frame 2 to frame 3, which wraps nothing, raises `currRep` from 0
to 1, and the next step, the wrap from frame 3 back to frame 0, leaves it at 1. -/
theorem frame_repetition_counterexample :
    (FrameRangeAnimator.Progress 10 8 scenarioFrameStarted).toOption.map
        (fun r => (r.1.derived.currFrame, r.1.derived.currRep)) = some (2, 0) ∧
    (FrameRangeAnimator.Progress 15 8 scenarioFrameStarted).toOption.map
        (fun r => (r.1.derived.currFrame, r.1.derived.currRep)) = some (3, 1) ∧
    (FrameRangeAnimator.Progress 20 8 scenarioFrameStarted).toOption.map
        (fun r => (r.1.derived.currFrame, r.1.derived.currRep)) = some (0, 1) := by
  decide

/-- C12, amended. Every processed step of `FrameRangeAnimator::Progress` is one
run of the loop body, and a body that returns ends the call. The body moves
`currFrame` (end frame to start frame, otherwise `+1`) and then increments
`currRep` if and only if the descriptor is not forever and `currFrame` now
equals the end frame: on the step that reaches the end frame, not on the wrap
back to the start frame (unless the range is a single frame). The animator
becomes `ANIMATOR_FINISHED`, with `onFinish` invoked and no further step
processed, exactly on the step whose increment makes `currRep` equal
`repeatCount`. -/
theorem frame_step_repetition :
    (∀ (an : FrameRangeAnimation) (a : FrameRangeAnimator) (t fuel : Nat),
      a.derived.anim = some an → t > a.lastTime → tsub t a.lastTime ≥ an.delay →
      FrameRangeAnimator.Progress t (fuel + 1) a =
        match FrameRangeAnimator.body a with
        | .error e => .error e
        | .ok (a1, evs, true) => .ok (a1, evs)
        | .ok (a1, evs, false) => (FrameRangeAnimator.Progress t fuel a1).after evs) ∧
    (∀ (an : FrameRangeAnimation) (a a1 : FrameRangeAnimator)
        (evs : List (Notification FrameRangePart)) (stop : Bool),
      a.derived.anim = some an → FrameRangeAnimator.body a = .ok (a1, evs, stop) →
      a1.derived.currFrame =
        (if a.derived.currFrame = an.endFrame then an.startFrame
         else uinc a.derived.currFrame) ∧
      a1.derived.currRep =
        (if a1.derived.currFrame = an.endFrame ∧ an.isForever = false
         then uinc a.derived.currRep else a.derived.currRep) ∧
      (a.derived.currFrame = an.endFrame → an.startFrame ≠ an.endFrame →
        a1.derived.currRep = a.derived.currRep) ∧
      (stop = true ↔ a1.derived.currFrame = an.endFrame ∧ an.isForever = false ∧
        uinc a.derived.currRep = an.repeatCount) ∧
      a1.state = (if stop then ANIMATOR_FINISHED else a.state) ∧
      evs.countP Notification.isFinish = (if stop then (if a.onFinish then 1 else 0) else 0)) := by
  constructor
  · intro an a t fuel hb h1 h2
    rw [FrameRangeAnimator.frameRange_eq_loop]
    conv_lhs => unfold progressLoop
    simp only [h1, if_true, FrameRangeAnimator.frameRange_delayOf_bound a an hb, h2]
    cases hbd : FrameRangeAnimator.body a with
    | error e => rfl
    | ok r =>
      obtain ⟨a1, evs, stop⟩ := r
      cases stop with
      | true => rfl
      | false =>
        simp only []
        rw [FrameRangeAnimator.frameRange_eq_loop]
  · intro an a a1 evs stop hb h
    obtain ⟨_, _, _, hF, _, _, h7, h8, h9, h10, h11⟩ :=
      FrameRangeAnimator.frameRange_body_ok a a1 an evs stop hb h
    refine ⟨h7, h8, ?_, h9, h10, ?_⟩
    · intro he hne
      rw [h8, h7, if_pos he]
      simp [hne]
    · rw [h11, (stepEvents_count _ _ _ _).2, hF]

/-- C12, amended, on the scenario's frame animator right after `Start`: the
first due step goes to frame 1, keeps `currRep = 0` and does not end the call. -/
theorem frame_step_repetition_witness :
    ∃ a1 evs,
      FrameRangeAnimator.body scenarioFrameStarted = .ok (a1, evs, false) ∧
      FrameRangeAnimator.Progress 5 2 scenarioFrameStarted
        = (FrameRangeAnimator.Progress 5 1 a1).after evs ∧
      a1.derived.currFrame = 1 ∧ a1.derived.currRep = 0 ∧ a1.state = ANIMATOR_RUNNING :=
  ⟨_, _, rfl,
    frame_step_repetition.1 scenarioFrameRange scenarioFrameStarted 5 1 rfl (by decide)
      (by decide),
    (frame_step_repetition.2 scenarioFrameRange scenarioFrameStarted _ _ false rfl rfl).1,
    (frame_step_repetition.2 scenarioFrameRange scenarioFrameStarted _ _ false rfl rfl).2.1,
    (frame_step_repetition.2 scenarioFrameRange scenarioFrameStarted _ _ false rfl rfl).2.2.2.2.1⟩

/-- C13. Each membership call evaluates its `assert` first. `Register`, `Cancel`
and `MarkAsSuspended` fail exactly when the animator is running, `MarkAsRunning`
exactly when it is not; a failing call returns nothing but the failure, having
touched neither set. A succeeding `Register` adds `a` to `suspended`; `Cancel`
removes it from `suspended`; `MarkAsRunning` removes it from `suspended` and
adds it to `running`; `MarkAsSuspended` removes it from `running` and adds it
to `suspended`; no other element of either set changes. -/
theorem membership_calls {D : Type} (anim : Animator D) (m : AnimatorManager) (a : Nat) :
    ((m.Register a anim.HasFinished = .error Failure.assertion ↔
        anim.state = ANIMATOR_RUNNING) ∧
      (anim.state ≠ ANIMATOR_RUNNING → ∃ m1, m.Register a anim.HasFinished = .ok m1 ∧
        m1.running.elems = m.running.elems ∧
        ∀ x, x ∈ m1.suspended.elems ↔ x = a ∨ x ∈ m.suspended.elems)) ∧
    ((m.Cancel a anim.HasFinished = .error Failure.assertion ↔
        anim.state = ANIMATOR_RUNNING) ∧
      (anim.state ≠ ANIMATOR_RUNNING → ∃ m1, m.Cancel a anim.HasFinished = .ok m1 ∧
        m1.running.elems = m.running.elems ∧
        ∀ x, x ∈ m1.suspended.elems ↔ x ≠ a ∧ x ∈ m.suspended.elems)) ∧
    ((m.MarkAsRunning a anim.HasFinished = .error Failure.assertion ↔
        anim.state ≠ ANIMATOR_RUNNING) ∧
      (anim.state = ANIMATOR_RUNNING → ∃ m1, m.MarkAsRunning a anim.HasFinished = .ok m1 ∧
        (∀ x, x ∈ m1.running.elems ↔ x = a ∨ x ∈ m.running.elems) ∧
        ∀ x, x ∈ m1.suspended.elems ↔ x ≠ a ∧ x ∈ m.suspended.elems)) ∧
    ((m.MarkAsSuspended a anim.HasFinished = .error Failure.assertion ↔
        anim.state = ANIMATOR_RUNNING) ∧
      (anim.state ≠ ANIMATOR_RUNNING → ∃ m1, m.MarkAsSuspended a anim.HasFinished = .ok m1 ∧
        (∀ x, x ∈ m1.running.elems ↔ x ≠ a ∧ x ∈ m.running.elems) ∧
        ∀ x, x ∈ m1.suspended.elems ↔ x = a ∨ x ∈ m.suspended.elems)) := by
  have hf : anim.HasFinished = true ↔ anim.state ≠ ANIMATOR_RUNNING := by
    simp [Animator.HasFinished]
  by_cases hs : anim.state = ANIMATOR_RUNNING
  · have hF : anim.HasFinished = false := by
      simp [Animator.HasFinished, hs]
    simp only [AnimatorManager.Register, AnimatorManager.Cancel, AnimatorManager.MarkAsRunning,
      AnimatorManager.MarkAsSuspended, hF, hs]
    refine ⟨⟨by simp, by simp⟩, ⟨by simp, by simp⟩, ⟨by simp, ?_⟩, ⟨by simp, by simp⟩⟩
    intro _
    exact ⟨_, rfl, fun x => AnimatorSet.mem_insert _ _ _, fun x => AnimatorSet.mem_erase _ _ _⟩
  · have hT : anim.HasFinished = true := hf.mpr hs
    simp only [AnimatorManager.Register, AnimatorManager.Cancel, AnimatorManager.MarkAsRunning,
      AnimatorManager.MarkAsSuspended, hT, hs]
    refine ⟨⟨by simp, ?_⟩, ⟨by simp, ?_⟩, ⟨by simp [hs], by simp [hs]⟩, ⟨by simp, ?_⟩⟩
    · intro _
      exact ⟨_, rfl, rfl, fun x => AnimatorSet.mem_insert _ _ _⟩
    · intro _
      exact ⟨_, rfl, rfl, fun x => AnimatorSet.mem_erase _ _ _⟩
    · intro _
      exact ⟨_, rfl, fun x => AnimatorSet.mem_erase _ _ _, fun x => AnimatorSet.mem_insert _ _ _⟩

/-- C13 on the manager with `running = {1, 2}`: the completed scenario
animator at address 1 may be marked as suspended, which moves 1 and nothing
else; the running one may not. -/
theorem membership_calls_witness :
    (∃ m1, twoRunning.MarkAsSuspended 1 scenarioMovingDone.HasFinished = .ok m1 ∧
      (∀ x, x ∈ m1.running.elems ↔ x ≠ 1 ∧ x ∈ twoRunning.running.elems) ∧
      ∀ x, x ∈ m1.suspended.elems ↔ x = 1 ∨ x ∈ twoRunning.suspended.elems) ∧
    twoRunning.MarkAsSuspended 1 scenarioMovingRunning.HasFinished
      = .error Failure.assertion :=
  ⟨(membership_calls scenarioMovingDone twoRunning 1).2.2.2.2 (by decide),
    (membership_calls scenarioMovingRunning twoRunning 1).2.2.2.1.mpr rfl⟩

/-- C14, as stated, fails: neither `Start` contains an `assert`. The scenario's
moving animator, running with `lastTime = 10` and `currRep = 1`, accepts
`Start(anim, 100)`: it is rebound with `lastTime = 100`, `currRep = 0`, and
`onStart` is invoked; the running frame animator accepts `Start(anim, 50)` and
invokes `onStart` and `onAction`. -/
theorem start_on_running_counterexample :
    scenarioMovingRunning.state = ANIMATOR_RUNNING ∧
    MovingAnimator.Start scenarioMovingRunning scenarioMoving 100 =
      ({ lastTime := 100, state := ANIMATOR_RUNNING, onFinish := true, onStart := true,
         onAction := true, derived := { anim := some scenarioMoving, currRep := 0 } },
       [Notification.started
         { lastTime := 100, state := ANIMATOR_RUNNING, onFinish := true, onStart := true,
           onAction := true, derived := { anim := some scenarioMoving, currRep := 0 } }]) ∧
    scenarioFrameStarted.state = ANIMATOR_RUNNING ∧
    (FrameRangeAnimator.Start scenarioFrameStarted scenarioFrameRange 50).1.lastTime = 50 ∧
    (FrameRangeAnimator.Start scenarioFrameStarted scenarioFrameRange 50).2.map
      Notification.isAction = [false, true] := by
  decide

/-- C14, amended. `Start` checks nothing: on an animator that is
`ANIMATOR_RUNNING`, `Start(anim, t)` returns normally, having rebound the
descriptor, set `lastTime = t`, reset the counters, left the state
`ANIMATOR_RUNNING` and invoked `onStart` if set (and then `onAction`, for a
`FrameRangeAnimator`), as it does on an animator that is not running. -/
theorem start_has_no_precondition :
    (∀ (a : MovingAnimator) (an : MovingAnimation) (t : Nat), a.state = ANIMATOR_RUNNING →
      MovingAnimator.Start a an t =
        ({ lastTime := t, state := ANIMATOR_RUNNING, onFinish := a.onFinish,
           onStart := a.onStart, onAction := a.onAction,
           derived := { anim := some an, currRep := 0 } },
         if a.onStart then
           [Notification.started
             { lastTime := t, state := ANIMATOR_RUNNING, onFinish := a.onFinish,
               onStart := a.onStart, onAction := a.onAction,
               derived := { anim := some an, currRep := 0 } }]
         else [])) ∧
    (∀ (a : FrameRangeAnimator) (an : FrameRangeAnimation) (t : Nat),
      a.state = ANIMATOR_RUNNING →
      FrameRangeAnimator.Start a an t =
        ({ lastTime := t, state := ANIMATOR_RUNNING, onFinish := a.onFinish,
           onStart := a.onStart, onAction := a.onAction,
           derived := { anim := some an, currFrame := an.startFrame, currRep := 0 } },
         (if a.onStart then
           [Notification.started
             { lastTime := t, state := ANIMATOR_RUNNING, onFinish := a.onFinish,
               onStart := a.onStart, onAction := a.onAction,
               derived := { anim := some an, currFrame := an.startFrame, currRep := 0 } }]
          else []) ++
         (if a.onAction then
           [Notification.action
             { lastTime := t, state := ANIMATOR_RUNNING, onFinish := a.onFinish,
               onStart := a.onStart, onAction := a.onAction,
               derived := { anim := some an, currFrame := an.startFrame, currRep := 0 } }]
          else []))) :=
  ⟨fun _ _ _ _ => rfl, fun _ _ _ _ => rfl⟩

/-- C14, amended, on the scenario's running moving animator restarted at 100. -/
theorem start_has_no_precondition_witness :
    MovingAnimator.Start scenarioMovingRunning scenarioMoving 100 =
      ({ lastTime := 100, state := ANIMATOR_RUNNING, onFinish := true, onStart := true,
         onAction := true, derived := { anim := some scenarioMoving, currRep := 0 } },
       [Notification.started
         { lastTime := 100, state := ANIMATOR_RUNNING, onFinish := true, onStart := true,
           onAction := true, derived := { anim := some scenarioMoving, currRep := 0 } }]) :=
  start_has_no_precondition.1 scenarioMovingRunning scenarioMoving 100 rfl

/-- C15. `HasFinished()` is true exactly when `state` is `ANIMATOR_FINISHED` or
`ANIMATOR_STOPPED`, that is, when it is not `ANIMATOR_RUNNING`; a newly
constructed animator has `state = ANIMATOR_FINISHED`, so `HasFinished()` is
true right after construction. -/
theorem hasFinished_iff :
    (∀ (D : Type) (a : Animator D),
      (a.HasFinished = true ↔ a.state = ANIMATOR_FINISHED ∨ a.state = ANIMATOR_STOPPED) ∧
      (a.HasFinished = true ↔ a.state ≠ ANIMATOR_RUNNING)) ∧
    (∀ onFinish onStart onAction : Bool,
      (MovingAnimator.fresh onFinish onStart onAction).state = ANIMATOR_FINISHED ∧
      (MovingAnimator.fresh onFinish onStart onAction).HasFinished = true ∧
      (FrameRangeAnimator.fresh onFinish onStart onAction).state = ANIMATOR_FINISHED ∧
      (FrameRangeAnimator.fresh onFinish onStart onAction).HasFinished = true) := by
  refine ⟨?_, fun _ _ _ => ⟨rfl, rfl, rfl, rfl⟩⟩
  intro D a
  cases hs : a.state <;> simp [Animator.HasFinished, hs]

/-- C16. With `delay = d > 0` and `currTime` a `timestamp_t`: both `Progress`
loops stop after at most `(currTime - lastTime) / d` iterations (none when
`currTime ≤ lastTime`): that many condition evaluations plus one always
suffice and more change nothing. `MovingAnimator::Progress` then returns;
`FrameRangeAnimator::Progress` returns or stops at its `assert`. On return
`lastTime` has advanced by `j * d` for the number `j` of iterations, without
wrapping and without passing `currTime`. -/
theorem progress_terminates :
    (∀ (an : MovingAnimation) (a : MovingAnimator) (currTime fuel : Nat),
      0 < an.delay → a.derived.anim = some an → currTime < 2 ^ 64 →
      (currTime - a.lastTime) / an.delay < fuel →
      ∃ a2 evs, MovingAnimator.Progress currTime fuel a = .ok (a2, evs) ∧
        MovingAnimator.Progress currTime ((currTime - a.lastTime) / an.delay + 1) a
          = .ok (a2, evs) ∧
        ∃ j, j ≤ (currTime - a.lastTime) / an.delay ∧
          a2.lastTime = a.lastTime + j * an.delay ∧ (j = 0 ∨ a2.lastTime ≤ currTime) ∧
          evs.countP Notification.isAction = (if a.onAction then j else 0)) ∧
    (∀ (an : FrameRangeAnimation) (a : FrameRangeAnimator) (currTime fuel : Nat),
      0 < an.delay → a.derived.anim = some an → currTime < 2 ^ 64 →
      (currTime - a.lastTime) / an.delay < fuel →
      FrameRangeAnimator.Progress currTime fuel a
        = FrameRangeAnimator.Progress currTime ((currTime - a.lastTime) / an.delay + 1) a ∧
      ((∃ a2 evs, FrameRangeAnimator.Progress currTime fuel a = .ok (a2, evs)) ∨
        FrameRangeAnimator.Progress currTime fuel a = .error Failure.assertion) ∧
      ∀ a2 evs, FrameRangeAnimator.Progress currTime fuel a = .ok (a2, evs) →
        ∃ j, j ≤ (currTime - a.lastTime) / an.delay ∧
          a2.lastTime = a.lastTime + j * an.delay ∧ (j = 0 ∨ a2.lastTime ≤ currTime) ∧
          evs.countP Notification.isAction = (if a.onAction then j else 0)) := by
  constructor
  · intro an a t fuel hd hb ht hf
    have hstep : ∀ (a a1 : MovingAnimator) evs stop, a.derived.anim = some an →
        MovingAnimator.body a = .ok (a1, evs, stop) →
        a1.derived.anim = some an ∧ a1.lastTime = tadd a.lastTime an.delay :=
      fun a a1 evs stop hb h =>
        ⟨(MovingAnimator.moving_body_time an a a1 evs stop hb h).1,
          (MovingAnimator.moving_body_time an a a1 evs stop hb h).2.1⟩
    obtain ⟨a2, evs, hp⟩ := progressLoop_returns MovingAnimator.delayOf MovingAnimator.body
      t an.delay ht hd (fun a => a.derived.anim = some an)
      (fun a hb => MovingAnimator.moving_delayOf_bound a an hb)
      (fun a hb => MovingAnimator.moving_body_total a an hb) hstep fuel a hb hf
    have hsame := (progressLoop_fuel MovingAnimator.delayOf MovingAnimator.body t an.delay ht hd
      (fun a => a.derived.anim = some an)
      (fun a hb => MovingAnimator.moving_delayOf_bound a an hb)
      (by
        intro a e hb h
        obtain ⟨a1, evs, stop, h'⟩ := MovingAnimator.moving_body_total a an hb
        rw [h'] at h
        simp at h)
      (fun a a1 evs hb h => hstep a a1 evs false hb h)
      ((t - a.lastTime) / an.delay) fuel a hb (le_refl _) hf).1
    obtain ⟨_, _, j, hj, hjq, hle, hcnt⟩ :=
      progressLoop_time MovingAnimator.delayOf MovingAnimator.body t an.delay ht hd
        (fun a => a.derived.anim = some an)
        (fun a hb => MovingAnimator.moving_delayOf_bound a an hb)
        (fun a a1 evs stop hb h => MovingAnimator.moving_body_time an a a1 evs stop hb h)
        fuel a a2 evs hb hp
    refine ⟨a2, evs, ?_, ?_, j, hjq, hj, hle, hcnt⟩
    · rw [MovingAnimator.moving_eq_loop]
      exact hp
    · rw [MovingAnimator.moving_eq_loop, ← hsame]
      exact hp
  · intro an a t fuel hd hb ht hf
    have hstep : ∀ (a a1 : FrameRangeAnimator) evs stop, a.derived.anim = some an →
        FrameRangeAnimator.body a = .ok (a1, evs, stop) →
        a1.derived.anim = some an ∧ a1.lastTime = tadd a.lastTime an.delay :=
      fun a a1 evs stop hb h =>
        ⟨(FrameRangeAnimator.frameRange_body_time an a a1 evs stop hb h).1,
          (FrameRangeAnimator.frameRange_body_time an a a1 evs stop hb h).2.1⟩
    have herr : ∀ (a : FrameRangeAnimator) e, a.derived.anim = some an →
        FrameRangeAnimator.body a = .error e → e = Failure.assertion := by
      intro a e hb h
      by_cases hc : a.derived.currFrame = an.endFrame ∧ an.isForever = false ∧
          ¬ a.derived.currRep < an.repeatCount
      · rw [(FrameRangeAnimator.frameRange_body_error a an hb).1 hc] at h
        simp only [Except.error.injEq] at h
        exact h.symm
      · obtain ⟨a1, evs, stop, h'⟩ := (FrameRangeAnimator.frameRange_body_error a an hb).2 hc
        rw [h'] at h
        simp at h
    obtain ⟨hsame, hnf⟩ := progressLoop_fuel FrameRangeAnimator.delayOf
      FrameRangeAnimator.body t an.delay ht hd
      (fun a => a.derived.anim = some an)
      (fun a hb => FrameRangeAnimator.frameRange_delayOf_bound a an hb)
      (by
        intro a e hb h
        rw [herr a e hb h]
        simp)
      (fun a a1 evs hb h => hstep a a1 evs false hb h)
      ((t - a.lastTime) / an.delay) fuel a hb (le_refl _) hf
    have key := (progressLoop_rule FrameRangeAnimator.delayOf FrameRangeAnimator.body t
      (fun a => a.derived.anim = some an) (fun _ _ _ => True)
      (fun e => e = Failure.fuel ∨ e = Failure.assertion) (Or.inl rfl)
      (by
        intro a hb _ hn
        rw [FrameRangeAnimator.frameRange_delayOf_bound a an hb] at hn
        simp at hn)
      (fun _ _ _ => trivial)
      (fun a _ e hb _ _ _ h => Or.inr (herr a e hb h))
      (fun _ _ _ _ _ _ _ _ _ => trivial)
      (fun a _ a1 evs hb _ _ _ h => ⟨(hstep a a1 evs false hb h).1, fun _ _ _ => trivial⟩)
      fuel a hb).2
    rw [← FrameRangeAnimator.frameRange_eq_loop, ← FrameRangeAnimator.frameRange_eq_loop] at hsame
    rw [← FrameRangeAnimator.frameRange_eq_loop] at hnf key
    refine ⟨hsame, ?_, ?_⟩
    · cases hp : FrameRangeAnimator.Progress t fuel a with
      | error e =>
        right
        rcases key e hp with h | h
        · subst h
          exact absurd hp hnf
        · rw [h]
      | ok r => exact Or.inl ⟨r.1, r.2, rfl⟩
    · intro a2 evs hp
      rw [FrameRangeAnimator.frameRange_eq_loop] at hp
      obtain ⟨_, _, j, hj, hjq, hle, hcnt⟩ :=
        progressLoop_time FrameRangeAnimator.delayOf FrameRangeAnimator.body t an.delay ht hd
          (fun a => a.derived.anim = some an)
          (fun a hb => FrameRangeAnimator.frameRange_delayOf_bound a an hb)
          (fun a a1 evs stop hb h => FrameRangeAnimator.frameRange_body_time an a a1 evs stop hb h)
          fuel a a2 evs hb hp
      exact ⟨j, hjq, hj, hle, hcnt⟩

/-- C16 on the scenario's animators: `Progress(35)` on the moving animator
started at 0 needs no more than `35 / 10 + 1 = 4` condition evaluations, and
`Progress(21)` on the frame animator no more than `21 / 5 + 1 = 5`. -/
theorem progress_terminates_witness :
    (∃ a2 evs, MovingAnimator.Progress 35 100
        (MovingAnimator.Start (MovingAnimator.fresh true true true) scenarioMoving 0).1
          = .ok (a2, evs) ∧
      MovingAnimator.Progress 35 4
        (MovingAnimator.Start (MovingAnimator.fresh true true true) scenarioMoving 0).1
          = .ok (a2, evs) ∧
      ∃ j, j ≤ 3 ∧ a2.lastTime = 0 + j * 10 ∧ (j = 0 ∨ a2.lastTime ≤ 35) ∧
        evs.countP Notification.isAction = j) ∧
    FrameRangeAnimator.Progress 21 100 scenarioFrameStarted
      = FrameRangeAnimator.Progress 21 5 scenarioFrameStarted :=
  ⟨progress_terminates.1 scenarioMoving
      (MovingAnimator.Start (MovingAnimator.fresh true true true) scenarioMoving 0).1 35 100
      (by decide) rfl (by decide) (by decide),
    (progress_terminates.2 scenarioFrameRange scenarioFrameStarted 21 100
      (by decide) rfl (by decide) (by decide)).1⟩

/-- C17. A finite frame-range animation (`startFrame = s < endFrame = e`, both
`unsigned`, `1 ≤ repeatCount = n`, `delay = d > 0`): `Start(anim, t0)` followed
by `Progress` calls made while the animator has not finished, at any times of
which one is not before `t0 + (n * (e - s + 1) - 1) * d`, ends with
`state = ANIMATOR_FINISHED`, `lastTime = t0 + (n * (e - s + 1) - 1) * d`,
`currFrame = e`, `currRep = n`. With `onAction` set it is invoked exactly
`n * (e - s + 1)` times, the one of `Start` included, on the frames
`s, s + 1, ..., e` cyclically, the last of them `e`; `onFinish` follows once.
The outcome is that of the single call `Progress(t0 + (n * (e - s + 1) - 1) * d)`:
it does not depend on how the time is split over the calls. -/
theorem frame_full_run (an : FrameRangeAnimation) (a0 : FrameRangeAnimator)
    (t0 fuel : Nat) (ts : List Nat)
    (hfin : an.isForever = false) (hse : an.startFrame < an.endFrame)
    (he : an.endFrame < 2 ^ 32) (hn1 : 1 ≤ an.repeatCount) (hn : an.repeatCount < 2 ^ 32)
    (hd : 0 < an.delay) (hts : ∀ t ∈ ts, t < 2 ^ 64)
    (hex : ∃ t ∈ ts,
      t0 + (an.repeatCount * (an.endFrame - an.startFrame + 1) - 1) * an.delay ≤ t)
    (hfuel : an.repeatCount * (an.endFrame - an.startFrame + 1) ≤ fuel) :
    ∃ final evs,
      FrameRangeAnimator.progressUntilFinished fuel ts (FrameRangeAnimator.Start a0 an t0).1
        = .ok (final, evs) ∧
      final.state = ANIMATOR_FINISHED ∧
      final.lastTime
        = t0 + (an.repeatCount * (an.endFrame - an.startFrame + 1) - 1) * an.delay ∧
      final.derived.currFrame = an.endFrame ∧ final.derived.currRep = an.repeatCount ∧
      (a0.onAction = true →
        actionFrames ((FrameRangeAnimator.Start a0 an t0).2 ++ evs)
          = (List.range (an.repeatCount * (an.endFrame - an.startFrame + 1))).map
              (fun i => an.startFrame + i % (an.endFrame - an.startFrame + 1)) ∧
        (actionFrames ((FrameRangeAnimator.Start a0 an t0).2 ++ evs)).getLast?
          = some an.endFrame ∧
        ((FrameRangeAnimator.Start a0 an t0).2 ++ evs).countP Notification.isAction
          = an.repeatCount * (an.endFrame - an.startFrame + 1)) ∧
      evs.countP Notification.isFinish = (if a0.onFinish then 1 else 0) ∧
      (a0.onFinish = true → evs.getLast? = some (Notification.finished final)) ∧
      FrameRangeAnimator.Progress
          (t0 + (an.repeatCount * (an.endFrame - an.startFrame + 1) - 1) * an.delay) fuel
          (FrameRangeAnimator.Start a0 an t0).1 = .ok (final, evs) := by
  have hF : an.Finite := ⟨hfin, hse, he, hn1, hn, hd⟩
  have hN : an.repeatCount * (an.endFrame - an.startFrame + 1)
      = FrameRangeAnimator.totalActions an := rfl
  have hm : an.endFrame - an.startFrame + 1 = FrameRangeAnimator.frameCount an := rfl
  rw [hN] at hex hfuel ⊢
  rw [hm]
  obtain ⟨hmod, hdiv, hN2⟩ := FrameRangeAnimator.totalActions_mod an hF
  have hm2 := FrameRangeAnimator.frameCount_ge an hF
  have hstart : (FrameRangeAnimator.Start a0 an t0).1
      = FrameRangeAnimator.frameAt an (FrameRangeAnimator.Start a0 an t0).1 0 := by
    have h1 : (0 + 1) / FrameRangeAnimator.frameCount an = 0 := Nat.div_eq_of_lt (by omega)
    have h2 : (0 + 1) ≠ FrameRangeAnimator.totalActions an := by omega
    simp [FrameRangeAnimator.frameAt, FrameRangeAnimator.Start, h1, h2]
  have hL : (FrameRangeAnimator.Start a0 an t0).1.lastTime = t0 := rfl
  have hcalls := FrameRangeAnimator.frame_calls an hF (FrameRangeAnimator.Start a0 an t0).1 rfl
    fuel hfuel ts 0 (by omega) hts hex
  rw [← hstart, Nat.sub_zero] at hcalls
  have hT : t0 + (FrameRangeAnimator.totalActions an - 1) * an.delay < 2 ^ 64 := by
    obtain ⟨t, hmem, hle⟩ := hex
    exact lt_of_le_of_lt hle (hts t hmem)
  have hsingle := FrameRangeAnimator.frame_run an hF (FrameRangeAnimator.Start a0 an t0).1
    (t0 + (FrameRangeAnimator.totalActions an - 1) * an.delay) hT
    (FrameRangeAnimator.totalActions an - 1) 0 fuel (by omega) (by omega)
    (by intro _; simp [hL]) (Or.inl (by omega)) (by omega)
  rw [← hstart, Nat.zero_add] at hsingle
  have hA0 : (FrameRangeAnimator.Start a0 an t0).1.onAction = a0.onAction := rfl
  have hF0 : (FrameRangeAnimator.Start a0 an t0).1.onFinish = a0.onFinish := rfl
  have hlast : 0 + (FrameRangeAnimator.totalActions an - 1) + 1
      = FrameRangeAnimator.totalActions an := by omega
  refine ⟨_, _, hcalls, ?_, ?_, ?_, ?_, ?_, ?_, ?_, hsingle⟩
  · have : FrameRangeAnimator.totalActions an - 1 + 1 = FrameRangeAnimator.totalActions an := by
      omega
    simp [FrameRangeAnimator.frameAt, this]
  · simp [FrameRangeAnimator.frameAt, hL]
  · simp only [FrameRangeAnimator.frameAt, hmod]
    have : an.endFrame = an.startFrame + (FrameRangeAnimator.frameCount an - 1) := by
      unfold FrameRangeAnimator.frameCount
      omega
    omega
  · have : FrameRangeAnimator.totalActions an - 1 + 1 = FrameRangeAnimator.totalActions an := by
      omega
    simp [FrameRangeAnimator.frameAt, this, hdiv]
  · intro hA
    have hfr : actionFrames ((FrameRangeAnimator.Start a0 an t0).2 ++
        FrameRangeAnimator.frameTrace an (FrameRangeAnimator.Start a0 an t0).1 0
          (FrameRangeAnimator.totalActions an - 1))
        = (List.range (FrameRangeAnimator.totalActions an)).map
            (fun i => an.startFrame + i % FrameRangeAnimator.frameCount an) := by
      rw [actionFrames_append, FrameRangeAnimator.actionFrames_frameTrace an _ _ (by rw [hA0, hA])]
      have hs : actionFrames (FrameRangeAnimator.Start a0 an t0).2 = [an.startFrame] := by
        simp only [FrameRangeAnimator.Start]
        rw [actionFrames_append, actionFrames_notifyStarted]
        simp [Animator.NotifyAction, hA, actionFrames]
      rw [hs]
      have hsplit : FrameRangeAnimator.totalActions an
          = (FrameRangeAnimator.totalActions an - 1) + 1 := by omega
      conv_rhs => rw [hsplit, List.range_succ_eq_map]
      simp [List.map_map, Function.comp_def]
    refine ⟨hfr, ?_, ?_⟩
    · rw [hfr]
      have hsplit : FrameRangeAnimator.totalActions an
          = (FrameRangeAnimator.totalActions an - 1) + 1 := by omega
      rw [hsplit, List.range_succ, List.map_append]
      simp only [List.map_cons, List.map_nil, List.getLast?_append, List.getLast?_singleton]
      show some (an.startFrame + (FrameRangeAnimator.totalActions an - 1)
        % FrameRangeAnimator.frameCount an) = some an.endFrame
      rw [hmod]
      congr 1
      unfold FrameRangeAnimator.frameCount
      omega
    · rw [List.countP_append, (FrameRangeAnimator.countP_frameTrace an _ 0 _).1, hA0, if_pos hA]
      have hs : (FrameRangeAnimator.Start a0 an t0).2.countP Notification.isAction = 1 := by
        simp only [FrameRangeAnimator.Start, Animator.NotifyStarted, Animator.NotifyAction, hA]
        by_cases hS : a0.onStart = true <;> simp [hS, Notification.isAction]
      rw [hs]
      omega
  · rw [(FrameRangeAnimator.countP_frameTrace an _ 0 _).2, if_pos hlast, hF0]
  · intro hFin
    unfold FrameRangeAnimator.frameTrace
    rw [if_pos hlast]
    simp only [Nat.zero_add]
    have hns : (FrameRangeAnimator.frameAt an (FrameRangeAnimator.Start a0 an t0).1
        (FrameRangeAnimator.totalActions an - 1)).NotifyStopped
        = [Notification.finished (FrameRangeAnimator.frameAt an
            (FrameRangeAnimator.Start a0 an t0).1 (FrameRangeAnimator.totalActions an - 1))] := by
      unfold Animator.NotifyStopped
      rw [if_pos]
      exact hFin
    rw [hns, List.getLast?_append, List.getLast?_singleton]
    rfl

/-- C17 on the scenario (frames `0..3`, `repeatCount = 2`, `delay = 5`): with
the calls `Progress(12)`, `Progress(21)`, `Progress(40)` the eight actions run
over the frames 0, 1, 2, 3, 0, 1, 2, 3 and the animator finishes with
`lastTime = 35`, as with the single call `Progress(35)`. -/
theorem frame_full_run_witness :
    ∃ final evs,
      FrameRangeAnimator.progressUntilFinished 8 [12, 21, 40] scenarioFrameStarted
        = .ok (final, evs) ∧
      final.state = ANIMATOR_FINISHED ∧ final.lastTime = 35 ∧
      actionFrames
          ((FrameRangeAnimator.Start (FrameRangeAnimator.fresh true true true)
            scenarioFrameRange 0).2 ++ evs) = [0, 1, 2, 3, 0, 1, 2, 3] ∧
      FrameRangeAnimator.Progress 35 8 scenarioFrameStarted = .ok (final, evs) := by
  obtain ⟨final, evs, h1, h2, h3, _, _, h6, _, _, h9⟩ :=
    frame_full_run scenarioFrameRange (FrameRangeAnimator.fresh true true true) 0 8
      [12, 21, 40] rfl (by decide) (by decide) (by decide) (by decide) (by decide)
      (by decide) (by decide) (by decide)
  exact ⟨final, evs, h1, h2, h3, (h6 rfl).1, h9⟩

/-- C18. For a descriptor with `startFrame ≤ endFrame` (both `unsigned`) and
`delay > 0`: in every state reached from `Start(anim, t0)` by any sequence of
`Progress`, `TimeShift` and `Stop` calls, `startFrame ≤ currFrame ≤ endFrame`,
and every `onAction` notification, that of `Start` included, carries a
`currFrame` in that range. -/
theorem frame_in_range (an : FrameRangeAnimation) (a0 a : FrameRangeAnimator) (t0 : Nat)
    (ops : List FrameOp) (evs : List (Notification FrameRangePart))
    (hse : an.startFrame ≤ an.endFrame) (he : an.endFrame < 2 ^ 32) (_hd : 0 < an.delay)
    (hrun : FrameRangeAnimator.runOps ops (FrameRangeAnimator.Start a0 an t0).1 = .ok (a, evs)) :
    (an.startFrame ≤ a.derived.currFrame ∧ a.derived.currFrame ≤ an.endFrame) ∧
    ∀ self, Notification.action self ∈ (FrameRangeAnimator.Start a0 an t0).2 ++ evs →
      an.startFrame ≤ self.derived.currFrame ∧ self.derived.currFrame ≤ an.endFrame := by
  have gen : ∀ (ops : List FrameOp) (a a2 : FrameRangeAnimator)
      (evs : List (Notification FrameRangePart)), FrameRangeAnimator.InRange an a →
      FrameRangeAnimator.runOps ops a = .ok (a2, evs) →
      FrameRangeAnimator.InRange an a2 ∧ ∀ n ∈ evs, Notification.frameWithin an n := by
    intro ops
    induction ops with
    | nil =>
      intro a a2 evs hI h
      simp only [FrameRangeAnimator.runOps, Except.ok.injEq, Prod.mk.injEq] at h
      rw [← h.1, ← h.2]
      exact ⟨hI, by simp⟩
    | cons op ops ih =>
      intro a a2 evs hI h
      unfold FrameRangeAnimator.runOps at h
      cases hp : a.call op with
      | error e => simp [hp] at h
      | ok r =>
        obtain ⟨a1, evs1⟩ := r
        simp only [hp] at h
        obtain ⟨rest, hr, hev⟩ := Outcome.after_ok _ _ _ _ h
        obtain ⟨hI1, hP1⟩ := FrameRangeAnimator.inRange_call an hse he a a1 op evs1 hI hp
        obtain ⟨hI2, hP2⟩ := ih a1 a2 rest hI1 hr
        refine ⟨hI2, ?_⟩
        rw [hev]
        intro n hn
        rcases List.mem_append.mp hn with hn | hn
        · exact hP1 n hn
        · exact hP2 n hn
  have hstart : FrameRangeAnimator.InRange an (FrameRangeAnimator.Start a0 an t0).1 :=
    ⟨rfl, le_refl _, hse⟩
  obtain ⟨hI, hP⟩ := gen ops _ a evs hstart hrun
  refine ⟨hI.2, ?_⟩
  intro self hmem
  rcases List.mem_append.mp hmem with hm | hm
  · simp only [FrameRangeAnimator.Start, Animator.NotifyStarted, Animator.NotifyAction] at hm
    rcases List.mem_append.mp hm with hm | hm
    · split at hm <;> simp at hm
    · split at hm
      · simp only [List.mem_singleton, Notification.action.injEq] at hm
        subst hm
        exact ⟨le_refl _, hse⟩
      · simp at hm
  · exact hP _ hm

/-- C18 on the scenario's frame animator: after `Progress(12)`, `TimeShift(3)`,
`Progress(40)` and `Stop()` the frame is within `0..3`. -/
theorem frame_in_range_witness :
    ∃ a evs,
      FrameRangeAnimator.runOps
        [FrameOp.Progress 12 8, FrameOp.TimeShift 3, FrameOp.Progress 40 8, FrameOp.Stop]
        (FrameRangeAnimator.Start (FrameRangeAnimator.fresh true true true) scenarioFrameRange 0).1
        = .ok (a, evs) ∧
      a.derived.currFrame = 3 ∧ (0 ≤ a.derived.currFrame ∧ a.derived.currFrame ≤ 3) :=
  ⟨_, _, rfl, rfl,
    (frame_in_range scenarioFrameRange (FrameRangeAnimator.fresh true true true) _ 0
      [FrameOp.Progress 12 8, FrameOp.TimeShift 3, FrameOp.Progress 40 8, FrameOp.Stop] _
      (by decide) (by decide) (by decide) rfl).1⟩

/-- C19. For a descriptor with `startFrame ≤ endFrame`, `delay > 0` and either
forever or `repeatCount ≥ 1`: in every state reached from `Start` by `Progress`
calls in which the animator is still running, `isForever` holds or
`currRep < repeatCount`, and `Progress` called in such a state never fails its
`assert`. (The claim is about running animators; `Progress` on one that has
completed is outside it.) -/
theorem frame_assertion_valid (an : FrameRangeAnimation) (a0 a : FrameRangeAnimator)
    (t0 fuel : Nat) (ts : List Nat) (evs : List (Notification FrameRangePart))
    (_hse : an.startFrame ≤ an.endFrame) (_hd : 0 < an.delay)
    (hn : an.isForever = true ∨ 1 ≤ an.repeatCount)
    (hrun : progressSeq (fun t => FrameRangeAnimator.Progress t fuel) ts
      (FrameRangeAnimator.Start a0 an t0).1 = .ok (a, evs))
    (hs : a.state = ANIMATOR_RUNNING) :
    (an.isForever = true ∨ a.derived.currRep < an.repeatCount) ∧
    ∀ t fuel1, FrameRangeAnimator.Progress t fuel1 a ≠ .error Failure.assertion := by
  have hA : FrameRangeAnimator.Asserted an a :=
    (progressSeq_rule (fun t => FrameRangeAnimator.Progress t fuel) (fun _ => True)
      (FrameRangeAnimator.Asserted an) (fun _ => True)
      (fun t a a2 evs _ hA hp =>
        ⟨FrameRangeAnimator.asserted_call an t fuel a a2 evs hA hp, fun _ _ => trivial⟩)
      ts (FrameRangeAnimator.Start a0 an t0).1 a evs (fun _ _ => trivial)
      ⟨rfl, fun _ => by
        rcases hn with h | h
        · exact Or.inl h
        · right
          simpa [FrameRangeAnimator.Start] using h⟩ hrun).1
  exact ⟨hA.2 hs, fun t fuel1 => FrameRangeAnimator.running_never_asserts an t fuel1 a hA hs⟩

/-- C19 on the scenario's frame animator: after `Progress(12)` and
`Progress(20)` it is running with `currRep = 1 < 2`, and `Progress(40)` does
not fail the assertion. -/
theorem frame_assertion_valid_witness :
    ∃ a evs,
      progressSeq (fun t => FrameRangeAnimator.Progress t 8) [12, 20]
        (FrameRangeAnimator.Start (FrameRangeAnimator.fresh true true true) scenarioFrameRange 0).1
        = .ok (a, evs) ∧
      a.state = ANIMATOR_RUNNING ∧ a.derived.currRep = 1 ∧
      (scenarioFrameRange.isForever = true ∨ a.derived.currRep < scenarioFrameRange.repeatCount) ∧
      FrameRangeAnimator.Progress 40 8 a ≠ .error Failure.assertion :=
  ⟨_, _, rfl, rfl, rfl,
    (frame_assertion_valid scenarioFrameRange (FrameRangeAnimator.fresh true true true) _ 0 8
      [12, 20] _ (by decide) (by decide) (Or.inr (by decide)) rfl rfl).1,
    (frame_assertion_valid scenarioFrameRange (FrameRangeAnimator.fresh true true true) _ 0 8
      [12, 20] _ (by decide) (by decide) (Or.inr (by decide)) rfl rfl).2 40 8⟩

/-- C20, as stated, fails. The scenario's moving animator, started at 0:
after `Progress(35)` and then `Progress(20)` (both times `≥ t0 = 0`),
`lastTime` is 30, above the time 20 of the last call. -/
theorem timing_drift_counterexample :
    (progressSeq (fun t => MovingAnimator.Progress t 8) [35, 20]
        (MovingAnimator.Start (MovingAnimator.fresh true true true) scenarioMoving 0).1).toOption.map
      (fun r => (r.1.lastTime, r.2.countP Notification.isAction)) = some (30, 3) ∧
    ¬ (30 ≤ 20) := by
  decide

/-- C20, amended. With `delay = d > 0`, after `Start(anim, t0)` and any sequence
of `Progress` calls that return (no `TimeShift`): `lastTime = t0 + d * j` for
the number `j` of steps made, which is the number of `onAction` notifications
when that slot is set; `lastTime` is at most the largest time seen so far
(`t0` included), hence at most the time `t` of the last call when the times
are non-decreasing from `t0`; and for a finite `MovingAnimator` that is still
running, `currRep = j`. -/
theorem no_timing_drift :
    (∀ (an : MovingAnimation) (a0 a2 : MovingAnimator) (t0 fuel : Nat) (ts : List Nat)
        (evs : List (Notification MovingPart)),
      0 < an.delay → (∀ t ∈ ts, t < 2 ^ 64) →
      progressSeq (fun t => MovingAnimator.Progress t fuel) ts
        (MovingAnimator.Start a0 an t0).1 = .ok (a2, evs) →
      ∃ j, a2.lastTime = t0 + an.delay * j ∧
        evs.countP Notification.isAction = (if a0.onAction then j else 0) ∧
        a2.lastTime ≤ ts.foldl max t0 ∧
        (List.Chain (· ≤ ·) t0 ts → ∀ t, ts.getLast? = some t → a2.lastTime ≤ t) ∧
        (an.isForever = false → an.repeatCount < 2 ^ 32 → a2.state = ANIMATOR_RUNNING →
          a2.derived.currRep = j)) ∧
    (∀ (an : FrameRangeAnimation) (a0 a2 : FrameRangeAnimator) (t0 fuel : Nat) (ts : List Nat)
        (evs : List (Notification FrameRangePart)),
      0 < an.delay → (∀ t ∈ ts, t < 2 ^ 64) →
      progressSeq (fun t => FrameRangeAnimator.Progress t fuel) ts
        (FrameRangeAnimator.Start a0 an t0).1 = .ok (a2, evs) →
      ∃ j, a2.lastTime = t0 + an.delay * j ∧
        evs.countP Notification.isAction = (if a0.onAction then j else 0) ∧
        a2.lastTime ≤ ts.foldl max t0 ∧
        (List.Chain (· ≤ ·) t0 ts → ∀ t, ts.getLast? = some t → a2.lastTime ≤ t)) := by
  constructor
  · intro an a0 a2 t0 fuel ts evs hd hts h
    obtain ⟨_, _, j, hj, hle, hcnt⟩ :=
      progressSeq_time (fun t => MovingAnimator.Progress t fuel) an.delay
        (fun a => a.derived.anim = some an)
        (by
          intro t a a2 evs ht hb hp
          dsimp only at hp
          rw [MovingAnimator.moving_eq_loop] at hp
          exact progressLoop_time MovingAnimator.delayOf MovingAnimator.body t an.delay ht hd
            (fun a => a.derived.anim = some an)
            (fun a hb => MovingAnimator.moving_delayOf_bound a an hb)
            (fun a a1 evs stop hb h => MovingAnimator.moving_body_time an a a1 evs stop hb h)
            fuel a a2 evs hb hp)
        ts (MovingAnimator.Start a0 an t0).1 a2 evs hts rfl h
    have hj' : a2.lastTime = t0 + an.delay * j := by
      rw [hj]
      simp only [MovingAnimator.Start]
      ring
    refine ⟨j, hj', hcnt, hle, ?_, ?_⟩
    · intro hc t hl
      have := foldl_max_chain ts t0 t hc hl
      simp only [MovingAnimator.Start] at hle
      omega
    · intro hfin hn hs
      have hK : MovingAnimator.Counting t0 an a2 :=
        (progressSeq_rule (fun t => MovingAnimator.Progress t fuel) (fun t => t < 2 ^ 64)
          (MovingAnimator.Counting t0 an) (fun _ => True)
          (fun t a a2 evs ht hK hp =>
            ⟨MovingAnimator.counting_call t0 an hfin hn t fuel ht a a2 evs hK hp,
              fun _ _ => trivial⟩)
          ts (MovingAnimator.Start a0 an t0).1 a2 evs hts
          ⟨rfl, fun _ => ⟨by simp [MovingAnimator.Start], by simp [MovingAnimator.Start],
            fun h => by simpa [MovingAnimator.Start] using h⟩⟩ h).1
      obtain ⟨hL, _, _⟩ := hK.2 hs
      have : a2.derived.currRep * an.delay = an.delay * j := by omega
      rw [Nat.mul_comm] at this
      exact Nat.eq_of_mul_eq_mul_left hd this
  · intro an a0 a2 t0 fuel ts evs hd hts h
    obtain ⟨_, _, j, hj, hle, hcnt⟩ :=
      progressSeq_time (fun t => FrameRangeAnimator.Progress t fuel) an.delay
        (fun a => a.derived.anim = some an)
        (by
          intro t a a2 evs ht hb hp
          dsimp only at hp
          rw [FrameRangeAnimator.frameRange_eq_loop] at hp
          exact progressLoop_time FrameRangeAnimator.delayOf FrameRangeAnimator.body t
            an.delay ht hd (fun a => a.derived.anim = some an)
            (fun a hb => FrameRangeAnimator.frameRange_delayOf_bound a an hb)
            (fun a a1 evs stop hb h => FrameRangeAnimator.frameRange_body_time an a a1 evs stop hb h)
            fuel a a2 evs hb hp)
        ts (FrameRangeAnimator.Start a0 an t0).1 a2 evs hts rfl h
    have hj' : a2.lastTime = t0 + an.delay * j := by
      rw [hj]
      simp only [FrameRangeAnimator.Start]
      ring
    refine ⟨j, hj', hcnt, hle, ?_⟩
    intro hc t hl
    have := foldl_max_chain ts t0 t hc hl
    simp only [FrameRangeAnimator.Start] at hle
    omega

/-- C20, amended, on the scenario's moving animator: after `Progress(15)` and
`Progress(25)` two steps were made, `lastTime = 0 + 10 * 2 ≤ 25`, and the
animator still runs with `currRep = 2`. -/
theorem no_timing_drift_witness :
    ∃ a2 evs,
      progressSeq (fun t => MovingAnimator.Progress t 8) [15, 25]
        (MovingAnimator.Start (MovingAnimator.fresh true true true) scenarioMoving 0).1
        = .ok (a2, evs) ∧
      a2.state = ANIMATOR_RUNNING ∧ a2.derived.currRep = 2 ∧
      ∃ j, a2.lastTime = 0 + 10 * j ∧ evs.countP Notification.isAction = j ∧
        a2.lastTime ≤ 25 :=
  ⟨_, _, rfl, rfl, rfl,
    (no_timing_drift.1 scenarioMoving (MovingAnimator.fresh true true true) _ 0 8 [15, 25] _
      (by decide) (by decide) rfl).imp
      (fun _ h => ⟨h.1, h.2.1, h.2.2.1⟩)⟩

end Engine
